import Mathlib

/-!
# HomeKitGenQRCode: setup codes and pairing URIs

A shallow embedding of `internal/generator/code.go` and
`internal/generator/encode.go`, with the properties of the setup-code
triviality filter and of the bit-packed, base-36 rendered pairing URI.

Conventions of the embedding:

* a Go `string` is a sequence of bytes, `List (Fin 256)`; `len` is the list
  length, `s[i]` is an index that fails (`none`) outside `0 .. len-1`, the
  way the Go runtime panics;
* Go `int` is the 64-bit two's-complement integer of the supported targets
  (amd64, arm64, wasm); values are carried as `Int`, and the bitwise
  operators act on the 64-bit pattern `x % 2^64`;
* byte arithmetic is arithmetic of `Fin 256`, which wraps modulo 256 like Go's
  `byte`;
* the process-wide random source is the list of the draws it will deliver.
-/

namespace HomeKit

/-! ## Bytes and strings -/

/-- Go `byte`. -/
abbrev Byte := Fin 256

/-- Go `string`: an immutable sequence of bytes. -/
abbrev GoString := List Byte

/-- The bytes of an ASCII literal. -/
def str (s : String) : GoString := s.toList.map (fun c => Fin.ofNat c.toNat)

/-- Go `s[i]` for an `int` index: fails outside `0 .. len(s)-1`. -/
def index (s : GoString) (i : Int) : Option Byte :=
  if 0 ≤ i then s[i.toNat]? else none

/-- Go `s[lo:hi]` on a string: fails unless `lo ≤ hi ≤ len(s)`. -/
def slice (s : GoString) (lo hi : Nat) : Option GoString :=
  if lo ≤ hi ∧ hi ≤ s.length then some ((s.drop lo).take (hi - lo)) else none

/-- Go `strings.ReplaceAll(s, old, new)` for a one-byte `old`: every occurrence of the
byte is replaced by `new`, the other bytes are kept in order. -/
def ReplaceAll (s : GoString) (old : Byte) (new : GoString) : GoString :=
  s.flatMap (fun b => if b = old then new else [b])

/-! ## 64-bit integers -/

/-- The 64-bit two's-complement pattern of `x`. -/
def bits64 (x : Int) : Nat := (x % 2 ^ 64).toNat

/-- The signed value of a 64-bit pattern. -/
def toInt64 (p : Nat) : Int := if p < 2 ^ 63 then (p : Int) else (p : Int) - 2 ^ 64

/-- Go `a & b` on `int`. -/
def and64 (a b : Int) : Int := toInt64 (bits64 a &&& bits64 b)

/-- Go `a | b` on `int`. -/
def or64 (a b : Int) : Int := toInt64 (bits64 a ||| bits64 b)

/-- Go `-a` on `int`: the negation wraps, `-(-2^63)` is `-2^63`. -/
def neg64 (a : Int) : Int := toInt64 (bits64 (-a))

/-- Go `a << k` on `int`: the bits shifted out are lost. -/
def shl64 (a : Int) (k : Nat) : Int := toInt64 ((bits64 a <<< k) % 2 ^ 64)

/-! ## strconv.Atoi

The Go standard library function, for 64-bit `int`: a fast path for 1 to 18
bytes, and `ParseInt(s, 10, 0)` otherwise. -/

/-- The `error` result of a `strconv` parse. -/
inductive NumError where
  | ok
  | errSyn
  | errRange
  deriving DecidableEq, Repr

/-- The digit loop of the fast path of `Atoi`:
`ch -= '0'; if ch > 9 { syntax error }; n = n*10 + int(ch)`. -/
def atoiFastLoop : GoString → Int → Option Int
  | [], n => some n
  | ch :: rest, n =>
    let ch : Byte := ch - 48
    if ch > 9 then none else atoiFastLoop rest (n * 10 + (ch.val : Int))

/-- The fast path of `Atoi`, taken when `0 < len(s) < 19`: an optional sign and then
digits only; the value cannot overflow. -/
def atoiFast (s0 : GoString) : Int × NumError :=
  let s := if s0.head? = some 45 ∨ s0.head? = some 43 then s0.drop 1 else s0
  if s.length < 1 then (0, NumError.errSyn)
  else
    match atoiFastLoop s 0 with
    | none => (0, NumError.errSyn)
    | some n => (if s0.head? = some 45 then -n else n, NumError.ok)

/-- Go `lower(c)` of `strconv`: `c | ('x' - 'X')`. -/
def lower (c : Byte) : Byte := Fin.ofNat (c.val ||| 32)

/-- The loop of `ParseUint(s, 10, 64)` over the bytes of `s`, with `n` the `uint64`
accumulator: a byte that is no decimal digit is a syntax error, an overflow ends the
loop at once with the largest `uint64` and a range error. -/
def parseUintLoop : GoString → Nat → Nat × NumError
  | [], n => (n, NumError.ok)
  | c :: rest, n =>
    let d? : Option Byte :=
      if 48 ≤ c ∧ c ≤ 57 then some (c - 48)
      else if 97 ≤ lower c ∧ lower c ≤ 122 then some (lower c - 97 + 10)
      else none
    match d? with
    | none => (0, NumError.errSyn)
    | some d =>
      if d ≥ 10 then (0, NumError.errSyn)
      else if n ≥ (2 ^ 64 - 1) / 10 + 1 then (2 ^ 64 - 1, NumError.errRange)
      else
        let n := (n * 10) % 2 ^ 64
        let n1 := (n + d.val) % 2 ^ 64
        if n1 < n ∨ n1 > 2 ^ 64 - 1 then (2 ^ 64 - 1, NumError.errRange)
        else parseUintLoop rest n1

/-- Go `strconv.ParseUint(s, 10, 64)`. -/
def ParseUint (s : GoString) : Nat × NumError :=
  if s = [] then (0, NumError.errSyn) else parseUintLoop s 0

/-- Go `strconv.ParseInt(s, 10, 0)` with 64-bit `int`: on a syntax error the value is 0,
on a range error it is the integer of largest magnitude of the sign. -/
def ParseInt (s0 : GoString) : Int × NumError :=
  if s0 = [] then (0, NumError.errSyn)
  else
    let neg := decide (s0.head? = some 45)
    let s := if s0.head? = some 43 ∨ s0.head? = some 45 then s0.drop 1 else s0
    let (un, err) := ParseUint s
    if err = NumError.errSyn then (0, NumError.errSyn)
    else
      let cutoff : Nat := 2 ^ 63
      if !neg ∧ un ≥ cutoff then ((cutoff : Int) - 1, NumError.errRange)
      else if neg ∧ un > cutoff then (-(cutoff : Int), NumError.errRange)
      else (if neg then neg64 (toInt64 un) else toInt64 un, NumError.ok)

/-- Go `strconv.Atoi(s)` with 64-bit `int`. -/
def Atoi (s : GoString) : Int × NumError :=
  if 0 < s.length ∧ s.length < 19 then atoiFast s else ParseInt s

/-! ## Ranging over a string

`for _, ch := range s` decodes one UTF-8 sequence per iteration; an invalid
sequence gives the rune `0xFFFD` and advances by one byte (package
`unicode/utf8`). -/

/-- Go `utf8.RuneError`. -/
def RuneError : Nat := 0xFFFD

/-- The table `first` of `unicode/utf8` for a lead byte of `0x80` or more: the size of the
sequence and the accepted range of its second byte, or `none` for an invalid lead. -/
def firstInfo (b : Byte) : Option (Nat × Nat × Nat) :=
  if 0xC2 ≤ b.val ∧ b.val ≤ 0xDF then some (2, 0x80, 0xBF)
  else if b.val = 0xE0 then some (3, 0xA0, 0xBF)
  else if (0xE1 ≤ b.val ∧ b.val ≤ 0xEC) ∨ b.val = 0xEE ∨ b.val = 0xEF then some (3, 0x80, 0xBF)
  else if b.val = 0xED then some (3, 0x80, 0x9F)
  else if b.val = 0xF0 then some (4, 0x90, 0xBF)
  else if 0xF1 ≤ b.val ∧ b.val ≤ 0xF3 then some (4, 0x80, 0xBF)
  else if b.val = 0xF4 then some (4, 0x80, 0x8F)
  else none

/-- Go `utf8.DecodeRuneInString`: the first rune of `s` and its width in bytes. -/
def decodeRune (s : GoString) : Nat × Nat :=
  match s with
  | [] => (RuneError, 0)
  | s0 :: rest =>
    if s0.val < 0x80 then (s0.val, 1)
    else
      match firstInfo s0 with
      | none => (RuneError, 1)
      | some (sz, lo, hi) =>
        if s.length < sz then (RuneError, 1)
        else
          match rest with
          | [] => (RuneError, 1)
          | s1 :: rest1 =>
            if s1.val < lo ∨ hi < s1.val then (RuneError, 1)
            else if sz ≤ 2 then ((s0.val &&& 0x1F) <<< 6 ||| (s1.val &&& 0x3F), 2)
            else
              match rest1 with
              | [] => (RuneError, 1)
              | s2 :: rest2 =>
                if s2.val < 0x80 ∨ 0xBF < s2.val then (RuneError, 1)
                else if sz ≤ 3 then
                  ((s0.val &&& 0x0F) <<< 12 ||| (s1.val &&& 0x3F) <<< 6 ||| (s2.val &&& 0x3F), 3)
                else
                  match rest2 with
                  | [] => (RuneError, 1)
                  | s3 :: _ =>
                    if s3.val < 0x80 ∨ 0xBF < s3.val then (RuneError, 1)
                    else
                      ((s0.val &&& 0x07) <<< 18 ||| (s1.val &&& 0x3F) <<< 12
                        ||| (s2.val &&& 0x3F) <<< 6 ||| (s3.val &&& 0x3F), 4)

/-! ## fmt.Sprintf("%08d", n) -/

/-- The ASCII digit of a value below 10. -/
def digitChar (d : Nat) : Byte := Fin.ofNat (48 + d)

/-- The decimal digits of `u`, most significant first, as `fmt` writes them: the last
digit is peeled off while `u >= 10`. The first argument bounds the number of digits. -/
def decimalDigits : Nat → Nat → GoString
  | 0, u => [digitChar (u % 10)]
  | fuel + 1, u =>
    if u ≥ 10 then decimalDigits fuel (u / 10) ++ [digitChar (u % 10)] else [digitChar u]

/-- Go `fmt.Sprintf("%08d", n)` for `n ≥ 0`: the decimal digits, padded on the left with
`'0'` to a width of 8. An `int` has at most 19 digits. -/
def sprintf08d (n : Nat) : GoString :=
  let ds := decimalDigits 19 n
  List.replicate (8 - ds.length) 48 ++ ds

/-! ## code.go -/

/-- Go `PlainSetupCode`: `strings.ReplaceAll(code, "-", "")`. -/
def PlainSetupCode (code : GoString) : GoString := ReplaceAll code 45 []

/-- The first loop of `isTooSimple`, at index `i` with `k` iterations to go:
`for i := 1; i < 8; i++ { if raw[i] != raw[0] { allSame = false; break } }`.
The result is `allSame`, or `none` when an index is out of range. -/
def allSameLoop (raw : GoString) : Nat → Nat → Option Bool
  | 0, _ => some true
  | k + 1, i => do
    let a ← index raw i
    let b ← index raw 0
    if a ≠ b then some false else allSameLoop raw k (i + 1)

/-- The second loop of `isTooSimple`, at index `i` with `k` iterations to go and the
flags `(asc, desc)`:
`for i := 1; i < 8; i++ { if raw[i] != raw[i-1]+1 { asc = false }; if raw[i] != raw[i-1]-1 { desc = false } }`;
the byte arithmetic wraps modulo 256. -/
def seqLoop (raw : GoString) : Nat → Nat → Bool × Bool → Option (Bool × Bool)
  | 0, _, flags => some flags
  | k + 1, i, (asc, desc) => do
    let a ← index raw i
    let p ← index raw ((i : Int) - 1)
    let asc := if a ≠ p + 1 then false else asc
    let desc := if a ≠ p - 1 then false else desc
    seqLoop raw k (i + 1) (asc, desc)

/-- The condition `raw[0:2] == raw[2:4] && raw[2:4] == raw[4:6] && raw[4:6] == raw[6:8]`
of `isTooSimple`, evaluated left to right with short-circuit. -/
def repeatedPairs (raw : GoString) : Option Bool := do
  let s02 ← slice raw 0 2
  let s24 ← slice raw 2 4
  if s02 ≠ s24 then some false
  else
    let s46 ← slice raw 4 6
    if s24 ≠ s46 then some false
    else
      let s68 ← slice raw 6 8
      some (decide (s46 = s68))

/-- Go `isTooSimple(raw)`; `none` stands for a run-time panic. -/
def isTooSimple (raw : GoString) : Option Bool := do
  let allSame ← allSameLoop raw 7 1
  if allSame then some true
  else
    let (asc, desc) ← seqLoop raw 7 1 (true, true)
    if asc || desc then some true
    else
      let rep ← repeatedPairs raw
      if rep then some true
      else if raw = str "12345678" ∨ raw = str "87654321" ∨ raw = str "00000000"
          ∨ raw = str "11111111" then some true
      else some false

/-- The loop `for _, ch := range raw { if ch < '0' || ch > '9' { return false } }` of
`IsValidSetupCode` on the rest `s` of the string: `false` when the loop returns false,
`true` when it runs to the end. Every iteration consumes at least one byte, so `len(s)`
iterations are enough. -/
def digitsOnlyLoop : Nat → GoString → Bool
  | 0, _ => true
  | k + 1, s =>
    if s = [] then true
    else
      let (ch, w) := decodeRune s
      if ch < 48 ∨ ch > 57 then false else digitsOnlyLoop k (s.drop w)

/-- Go `IsValidSetupCode(code)`; `none` stands for a run-time panic. -/
def IsValidSetupCode (code : GoString) : Option Bool :=
  let raw := PlainSetupCode code
  if raw.length ≠ 8 then some false
  else if digitsOnlyLoop raw.length raw = false then some false
  else (isTooSimple raw).map (fun b => !b)

/-- The ways a call of `GenerateHomeKitSetupCode` can go on a given list of draws. -/
inductive Outcome where
  | value (s : GoString)
  | panic
  | pending
  deriving DecidableEq

/-- The end of the loop body of `GenerateHomeKitSetupCode`:
`if !isTooSimple(raw) { return fmt.Sprintf("%s-%s-%s", raw[0:3], raw[3:5], raw[5:8]) }`,
and `next` when the code is too simple and the loop goes round again. -/
def returnOrNext (raw : GoString) (next : Outcome) : Outcome :=
  match isTooSimple raw with
  | none => Outcome.panic
  | some true => next
  | some false =>
    match slice raw 0 3, slice raw 3 5, slice raw 5 8 with
    | some a, some b, some c => Outcome.value (a ++ str "-" ++ b ++ str "-" ++ c)
    | _, _, _ => Outcome.panic

/-- The body of the loop of `GenerateHomeKitSetupCode` for one draw of
`rand.Intn(90000000)`; `next` is the rest of the loop. -/
def generateIteration (draw : Nat) (next : Outcome) : Outcome :=
  let n := draw + 10000000
  let raw := sprintf08d n
  returnOrNext raw next

/-- Go `GenerateHomeKitSetupCode()`, with the draws `rand.Intn(90000000)` will deliver,
each below 90000000: the loop `for { ... }` takes one draw per iteration and returns at
the first code that is not too simple. `pending` is the loop still running when the
draws are used up. -/
def GenerateHomeKitSetupCode : List Nat → Outcome
  | [] => Outcome.pending
  | draw :: draws => generateIteration draw (GenerateHomeKitSetupCode draws)

/-! ## encode.go -/

/-- The constant `base36` of encode.go. -/
def base36 : GoString := str "0123456789ABCDEFGHIJKLMNOPQRSTUVWXYZ"

/-- The payload of `GenHomeKitSetupURI` (encode.go, lines 29 to 46) for a category and
the parsed password `num`: the accumulator is or-ed with each masked field and shifted
left by the width of the next one. -/
def buildPayload (category num : Int) : Int :=
  let version : Int := 0
  let reserved : Int := 0
  let flags : Int := 2
  let payload : Int := 0
  let payload := or64 payload (and64 version 0x7)
  let payload := shl64 payload 4
  let payload := or64 payload (and64 reserved 0xF)
  let payload := shl64 payload 8
  let payload := or64 payload (and64 category 0xFF)
  let payload := shl64 payload 4
  let payload := or64 payload (and64 flags 0xF)
  let payload := shl64 payload 27
  or64 payload (and64 num 0x7FFFFFF)

/-- The payload built from the arguments of `GenHomeKitSetupURI`:
`num, _ := strconv.Atoi(strings.ReplaceAll(password, "-", ""))`, the error dropped. -/
def setupPayload (category : Int) (password : GoString) : Int :=
  buildPayload category (Atoi (ReplaceAll password 45 [])).1

/-- The loop `for i := 8; i >= 0; i-- { out[i] = base36[payload%36]; payload /= 36 }`,
entered with `i + 1` iterations to go; `%` and `/` truncate towards zero. The result is
the buffer and the payload left over, or `none` when an index into `base36` or into `out`
is out of range. -/
def encodeLoop : Nat → Int → GoString → Option (GoString × Int)
  | 0, payload, out => some (out, payload)
  | i + 1, payload, out =>
    match index base36 (Int.tmod payload 36) with
    | none => none
    | some b =>
      if i < out.length then encodeLoop i (Int.tdiv payload 36) (out.set i b) else none

/-- Go `GenHomeKitSetupURI(category, password, setupID)`;
`none` stands for a run-time panic. -/
def GenHomeKitSetupURI (category : Int) (password setupID : GoString) : Option GoString :=
  match encodeLoop 9 (setupPayload category password) (List.replicate 9 0) with
  | none => none
  | some (out, _) => some (str "X-HM://" ++ out ++ setupID)

/-! ## Reading a URI back -/

/-- The value of a base-36 digit: its position in the alphabet `0-9A-Z`. -/
def digitValue (b : Byte) : Option Nat :=
  if b ∈ base36 then some (base36.indexOf b) else none

/-- A string read as a base-36 number over `0-9A-Z`, most significant digit first, on top
of the value `acc` read so far. -/
def readBase36From : GoString → Nat → Option Nat
  | [], acc => some acc
  | b :: rest, acc =>
    match digitValue b with
    | none => none
    | some d => readBase36From rest (acc * 36 + d)

/-- A string read as a base-36 number over `0-9A-Z`, most significant digit first. -/
def readBase36 (s : GoString) : Option Nat := readBase36From s 0

/-- A string of ASCII digits read as a decimal number on top of `acc`. -/
def decimalFrom : GoString → Nat → Option Nat
  | [], acc => some acc
  | c :: rest, acc =>
    if 48 ≤ c.val ∧ c.val ≤ 57 then decimalFrom rest (acc * 10 + (c.val - 48)) else none

/-- The decimal value of a non-empty string of ASCII digits; other strings have none. -/
def decimalValue (s : GoString) : Option Nat :=
  if s = [] then none else decimalFrom s 0

/-- The base-36 character of a digit value. -/
def char36 (d : Nat) : Byte := base36.getD d 0

/-- The `k` low base-36 digits of `p`, most significant first, over `0-9A-Z`. -/
def digits36 : Nat → Nat → GoString
  | 0, _ => []
  | k + 1, p => digits36 k (p / 36) ++ [char36 (p % 36)]

/-- The dashed form `XXX-XX-XXX` of the 8 decimal digits of `n`. -/
def dashed (n : Nat) : GoString :=
  [digitChar (n / 10000000), digitChar (n / 1000000 % 10), digitChar (n / 100000 % 10), 45,
   digitChar (n / 10000 % 10), digitChar (n / 1000 % 10), 45,
   digitChar (n / 100 % 10), digitChar (n / 10 % 10), digitChar (n % 10)]

/-- The payload in the closed form of the specification,
`((category & 0xFF) << 31) | (2 << 27) | (num & 0x7FFFFFF)`. -/
def packedPayload (category num : Int) : Int :=
  or64 (or64 (shl64 (and64 category 0xFF) 31) (shl64 2 27)) (and64 num 0x7FFFFFF)

/-- The fields read back from a pairing URI. -/
structure Decoded where
  version : Nat
  reserved : Nat
  category : Nat
  flags : Nat
  password : Nat
  setupID : GoString
  deriving DecidableEq

/-- Decoding of a pairing URI: drop the 7-byte scheme, read the next 9 bytes as a base-36
number, split it into bit-fields of widths 3, 4, 8, 4 and 27, most significant first, and
take the last 4 bytes as the setup ID. -/
def decodeURI (uri : GoString) : Option Decoded :=
  match readBase36 ((uri.drop 7).take 9) with
  | none => none
  | some p =>
    some { version := p / 2 ^ 43 % 2 ^ 3, reserved := p / 2 ^ 39 % 2 ^ 4,
           category := p / 2 ^ 31 % 2 ^ 8, flags := p / 2 ^ 27 % 2 ^ 4,
           password := p % 2 ^ 27, setupID := uri.drop (uri.length - 4) }

/-- The payload at the start of iteration `k` of the encoding loop: `k` truncating divisions
by 36 have been applied. -/
def payloadAt (payload : Int) : Nat → Int
  | 0 => payload
  | k + 1 => Int.tdiv (payloadAt payload k) 36

/-! ## Package strings and unicode

`strings.TrimSpace`, `strings.Split`, `strings.ToUpper`, `strings.ToLower` and
`strings.HasSuffix` of the Go standard library. The case tables of package
`unicode` are not part of the embedding: what `strings.Map(unicode.ToUpper, s)`
and `strings.Map(unicode.ToLower, s)` return on a string with a byte of `0x80`
or more is a parameter. -/

/-- Go `string(r)` for a rune `r`: its UTF-8 encoding, that of `U+FFFD` for a surrogate
or a value above `0x10FFFF`. -/
def runeToString (r : Nat) : GoString :=
  if r ≤ 0x7F then [Fin.ofNat r]
  else if r ≤ 0x7FF then [Fin.ofNat (0xC0 ||| (r >>> 6)), Fin.ofNat (0x80 ||| (r &&& 0x3F))]
  else if r > 0x10FFFF ∨ (0xD800 ≤ r ∧ r ≤ 0xDFFF) then [0xEF, 0xBF, 0xBD]
  else if r ≤ 0xFFFF then
    [Fin.ofNat (0xE0 ||| (r >>> 12)), Fin.ofNat (0x80 ||| ((r >>> 6) &&& 0x3F)),
     Fin.ofNat (0x80 ||| (r &&& 0x3F))]
  else
    [Fin.ofNat (0xF0 ||| (r >>> 18)), Fin.ofNat (0x80 ||| ((r >>> 12) &&& 0x3F)),
     Fin.ofNat (0x80 ||| ((r >>> 6) &&& 0x3F)), Fin.ofNat (0x80 ||| (r &&& 0x3F))]

/-- The table `asciiSpace` of package `strings`: `'\t'`, `'\n'`, `'\v'`, `'\f'`, `'\r'`,
`' '`. -/
def asciiSpace (c : Byte) : Bool :=
  decide (c = 9 ∨ c = 10 ∨ c = 11 ∨ c = 12 ∨ c = 13 ∨ c = 32)

/-- Go `unicode.IsSpace`: the Latin-1 spaces and the rest of the property `White_Space`. -/
def IsSpace (r : Nat) : Bool :=
  if r ≤ 0xFF then
    decide (r = 9 ∨ r = 10 ∨ r = 11 ∨ r = 12 ∨ r = 13 ∨ r = 32 ∨ r = 0x85 ∨ r = 0xA0)
  else
    decide (r = 0x1680 ∨ (0x2000 ≤ r ∧ r ≤ 0x200A) ∨ r = 0x2028 ∨ r = 0x2029 ∨ r = 0x202F
      ∨ r = 0x205F ∨ r = 0x3000)

/-- Go `utf8.RuneStart`: the byte is no continuation byte. -/
def RuneStart (b : Byte) : Bool := decide (b.val &&& 0xC0 ≠ 0x80)

/-- The loop `for start--; start >= lim; start-- { if RuneStart(s[start]) { break } }` of
`utf8.DecodeLastRuneInString`, with at most `k` iterations to go. -/
def lastRuneStartLoop (s : GoString) (lim : Int) : Nat → Int → Int
  | 0, start => start
  | k + 1, start =>
    if start ≥ lim then
      match index s start with
      | some b => if RuneStart b then start else lastRuneStartLoop s lim k (start - 1)
      | none => start
    else start

/-- Go `utf8.DecodeLastRuneInString`: the last rune of `s` and its width in bytes. -/
def decodeLastRune (s : GoString) : Nat × Nat :=
  match s.getLast? with
  | none => (RuneError, 0)
  | some last =>
    if last.val < 0x80 then (last.val, 1)
    else
      let stop : Int := s.length
      let lim : Int := if stop - 4 < 0 then 0 else stop - 4
      let start := lastRuneStartLoop s lim 4 (stop - 2)
      let start := if start < 0 then 0 else start
      let (r, size) := decodeRune (s.drop start.toNat)
      if start + (size : Int) ≠ stop then (RuneError, 1) else (r, size)

/-- Go `strings.TrimLeftFunc(s, unicode.IsSpace)`: the leading runes that are spaces are
dropped; every iteration consumes at least one byte. -/
def trimLeftSpace : Nat → GoString → GoString
  | 0, s => s
  | k + 1, s =>
    if s = [] then []
    else
      let (r, w) := decodeRune s
      if IsSpace r then trimLeftSpace k (s.drop w) else s

/-- Go `strings.TrimRightFunc(s, unicode.IsSpace)`: the trailing runes that are spaces are
dropped, the string is cut after the last rune that is none. -/
def trimRightSpace : Nat → GoString → GoString
  | 0, s => s
  | k + 1, s =>
    if s = [] then []
    else
      let (r, size) := decodeLastRune s
      let i := s.length - size
      if IsSpace r then trimRightSpace k (s.take i)
      else
        match s[i]? with
        | some b => if b.val ≥ 0x80 then s.take (i + (decodeRune (s.drop i)).2) else s.take (i + 1)
        | none => s.take (i + 1)

/-- The second loop of `strings.TrimSpace`, on `s[start:]`: trailing ASCII spaces are
dropped; at a byte of `0x80` or more the rest is left to `TrimRightFunc`. -/
def trimSpaceStop : Nat → GoString → GoString
  | 0, s => s
  | k + 1, s =>
    match s.getLast? with
    | none => []
    | some c =>
      if c.val ≥ 0x80 then trimRightSpace s.length s
      else if asciiSpace c then trimSpaceStop k s.dropLast
      else s

/-- Go `strings.TrimSpace(s)`: leading ASCII spaces are dropped by the first loop, then the
trailing ones; at a byte of `0x80` or more the rest is left to `TrimFunc`. -/
def TrimSpace : GoString → GoString
  | [] => []
  | c :: rest =>
    if c.val ≥ 0x80 then
      let t := trimLeftSpace (c :: rest).length (c :: rest)
      trimRightSpace t.length t
    else if asciiSpace c then TrimSpace rest
    else trimSpaceStop (c :: rest).length (c :: rest)

/-- Go `strings.Split(s, sep)` for a one-byte `sep`: the substrings between the
separators, one more than there are separators. -/
def Split : GoString → Byte → List GoString
  | [], _ => [[]]
  | b :: rest, sep =>
    if b = sep then [] :: Split rest sep
    else
      match Split rest sep with
      | [] => [[b]]
      | p :: ps => (b :: p) :: ps

/-- What is left to the case tables of package `unicode`. -/
structure Unicode where
  /-- The result of `strings.Map(unicode.ToUpper, s)` on a string with a non-ASCII byte. -/
  mapUpper : GoString → GoString
  /-- The result of `strings.Map(unicode.ToLower, s)` on a string with a non-ASCII byte. -/
  mapLower : GoString → GoString

/-- Go `strings.ToUpper(s)`: on an ASCII-only string every byte `a..z` loses `'a' - 'A'`. -/
def ToUpper (U : Unicode) (s : GoString) : GoString :=
  if s.all (fun c => decide (c.val < 0x80)) then
    s.map (fun c => if 97 ≤ c.val ∧ c.val ≤ 122 then c - 32 else c)
  else U.mapUpper s

/-- Go `strings.ToLower(s)`: on an ASCII-only string every byte `A..Z` gains `'a' - 'A'`. -/
def ToLower (U : Unicode) (s : GoString) : GoString :=
  if s.all (fun c => decide (c.val < 0x80)) then
    s.map (fun c => if 65 ≤ c.val ∧ c.val ≤ 90 then c + 32 else c)
  else U.mapLower s

/-- Go `strings.HasSuffix(s, suffix)`. -/
def HasSuffix (s suffix : GoString) : Bool :=
  decide (suffix.length ≤ s.length ∧ s.drop (s.length - suffix.length) = suffix)

/-- Go `fmt.Sprintf("%d", n)` for an `int`. -/
def sprintfD (n : Int) : GoString :=
  if n < 0 then 45 :: decimalDigits 19 (-n).toNat else decimalDigits 19 n.toNat

/-! ## device.go -/

/-- The map `CategoryReference` of device.go, as the list of its entries. -/
def CategoryReference : List (Int × String) :=
  [(1, "Other"), (2, "Bridge"), (3, "Fan"), (4, "Garage Door Opener"), (5, "Light"),
   (6, "Lock"), (7, "Outlet"), (8, "Switch"), (9, "Thermostat"), (10, "Sensor"),
   (11, "Security system"), (12, "Door"), (13, "Window"), (14, "Window covering"),
   (15, "Programmable switch"), (16, "Range extender"), (17, "IP camera"),
   (18, "Video doorbell"), (19, "Air purifier"), (20, "Heater"), (21, "Air conditioner"),
   (22, "Humidifier"), (23, "Dehumidifier"), (24, "Apple TV"), (26, "Speaker"),
   (27, "Airport"), (28, "Sprinkler"), (29, "Faucet"), (30, "Shower head"),
   (31, "Television"), (32, "Target remote")]

/-- Go `_, exists := CategoryReference[category]`. -/
def categoryExists (category : Int) : Bool := (CategoryReference.lookup category).isSome

/-- Go `randLetter()` for the draw of `rand.Intn(26)`: `string('A' + rune(draw))`. -/
def randLetter (draw : Nat) : GoString := runeToString (65 + draw)

/-- Go `GenerateDeviceCode(category)`, with the draws of the random source in the order of
the calls: `rand.Intn(26)` twice, once, `rand.Intn(10)`, `rand.Intn(26)` twice and once. -/
def GenerateDeviceCode (category : Int) (l1 l2 l3 d l4 l5 l6 : Nat) : GoString :=
  (randLetter l1 ++ randLetter l2) ++ sprintfD category ++ randLetter l3 ++ sprintfD d
    ++ (randLetter l4 ++ randLetter l5) ++ str "/" ++ randLetter l6

/-! ## The validation layer of cmd/homekitgenqrcode -/

/-- The errors of the validation layer, one for each message. -/
inductive ValidationError where
  | categoryNotPositive
  | categoryUnknown
  | passwordLength
  | passwordFormat
  | passwordNonNumeric (part : Nat)
  | setupIDLength
  | setupIDCharacter (position : Nat)
  | macLength
  | macCharacter (position : Nat)
  | outputEmpty
  | outputExtension
  deriving DecidableEq

/-- The loop `for i, part := range parts { if _, err := strconv.Atoi(part); err != nil
{ return error } }` of `validatePassword`, at the part of index `i`. -/
def checkParts : List GoString → Nat → Option ValidationError
  | [], _ => none
  | part :: parts, i =>
    if (Atoi part).2 ≠ NumError.ok then some (ValidationError.passwordNonNumeric (i + 1))
    else checkParts parts (i + 1)

/-- Go `validatePassword(pwd)` of the command line tool; `none` is the `nil` error. -/
def validatePassword (pwd : GoString) : Option ValidationError :=
  let pwd := TrimSpace pwd
  if pwd.length ≠ 10 then some ValidationError.passwordLength
  else
    let parts := Split pwd 45
    if parts.length ≠ 3 then some ValidationError.passwordFormat
    else
      match parts with
      | [p0, p1, p2] =>
        if p0.length ≠ 3 ∨ p1.length ≠ 2 ∨ p2.length ≠ 3 then
          some ValidationError.passwordFormat
        else checkParts parts 0
      | _ => some ValidationError.passwordFormat

/-- The loop `for i, r := range id { if !ok(r) { return error } }` of `validateSetupID` and
`validateMAC` on the rest `s` of the string, at byte offset `i`: the offset of the first
rune that is not accepted, or `none`. Every iteration consumes at least one byte. -/
def firstBadRune (ok : Nat → Bool) : Nat → GoString → Nat → Option Nat
  | 0, _, _ => none
  | k + 1, s, i =>
    if s = [] then none
    else
      let (r, w) := decodeRune s
      if !ok r then some i else firstBadRune ok k (s.drop w) (i + w)

/-- The condition `(r >= '0' && r <= '9') || (r >= 'A' && r <= 'Z')` of `validateSetupID`. -/
def setupIDRune (r : Nat) : Bool := decide ((48 ≤ r ∧ r ≤ 57) ∨ (65 ≤ r ∧ r ≤ 90))

/-- The condition `(r >= '0' && r <= '9') || (r >= 'a' && r <= 'f') || (r >= 'A' && r <= 'F')`
of `validateMAC`. -/
def macRune (r : Nat) : Bool :=
  decide ((48 ≤ r ∧ r ≤ 57) ∨ (97 ≤ r ∧ r ≤ 102) ∨ (65 ≤ r ∧ r ≤ 70))

/-- Go `validateSetupID(id)` of the command line tool. -/
def validateSetupID (U : Unicode) (id : GoString) : Option ValidationError :=
  let id := TrimSpace (ToUpper U id)
  if id.length ≠ 4 then some ValidationError.setupIDLength
  else
    match firstBadRune setupIDRune id.length id 0 with
    | some i => some (ValidationError.setupIDCharacter (i + 1))
    | none => none

/-- Go `validateMAC(macAddr)` of the command line tool. -/
def validateMAC (U : Unicode) (macAddr : GoString) : Option ValidationError :=
  let macAddr := TrimSpace (ToUpper U macAddr)
  if macAddr.length ≠ 12 then some ValidationError.macLength
  else
    match firstBadRune macRune macAddr.length macAddr 0 with
    | some i => some (ValidationError.macCharacter (i + 1))
    | none => none

/-- The category check that opens `validateInputs` and `runCode`:
`if category < 1 { error }; if _, exists := CategoryReference[category]; !exists { error }`. -/
def checkCategory (category : Int) : Option ValidationError :=
  if category < 1 then some ValidationError.categoryNotPositive
  else if !categoryExists category then some ValidationError.categoryUnknown
  else none

/-- Go `validateInputs()` of the command line tool, the package variables `category`,
`password`, `setupID`, `mac` and `output` being arguments. -/
def validateInputs (U : Unicode) (category : Int) (password setupID mac output : GoString) :
    Option ValidationError :=
  if category < 1 then some ValidationError.categoryNotPositive
  else if !categoryExists category then some ValidationError.categoryUnknown
  else
    match validatePassword password with
    | some err => some err
    | none =>
      match validateSetupID U setupID with
      | some err => some err
      | none =>
        match validateMAC U mac with
        | some err => some err
        | none =>
          if output = [] then some ValidationError.outputEmpty
          else if !HasSuffix (ToLower U output) (str ".png") then
            some ValidationError.outputExtension
          else none

/-! ## The validation layer of cmd/homekitgenqrcode-wasm -/

/-- Go `validatePassword(pwd)` of the WASM front end. -/
def wasmValidatePassword (pwd : GoString) : Option ValidationError :=
  let pwd := TrimSpace pwd
  if pwd.length ≠ 10 then some ValidationError.passwordLength
  else
    let parts := Split pwd 45
    if parts.length ≠ 3 then some ValidationError.passwordFormat
    else
      match parts with
      | [p0, p1, p2] =>
        if p0.length ≠ 3 ∨ p1.length ≠ 2 ∨ p2.length ≠ 3 then
          some ValidationError.passwordFormat
        else checkParts parts 0
      | _ => some ValidationError.passwordFormat

/-- Go `validateSetupID(id)` of the WASM front end. -/
def wasmValidateSetupID (U : Unicode) (id : GoString) : Option ValidationError :=
  let id := TrimSpace (ToUpper U id)
  if id.length ≠ 4 then some ValidationError.setupIDLength
  else
    match firstBadRune setupIDRune id.length id 0 with
    | some i => some (ValidationError.setupIDCharacter (i + 1))
    | none => none

/-- Go `validateMAC(macAddr)` of the WASM front end. -/
def wasmValidateMAC (U : Unicode) (macAddr : GoString) : Option ValidationError :=
  let macAddr := TrimSpace (ToUpper U macAddr)
  if macAddr.length ≠ 12 then some ValidationError.macLength
  else
    match firstBadRune macRune macAddr.length macAddr 0 with
    | some i => some (ValidationError.macCharacter (i + 1))
    | none => none

/-- Go `validateInputs(category, password, setupID, mac)` of the WASM front end. -/
def wasmValidateInputs (U : Unicode) (category : Int) (password setupID mac : GoString) :
    Option ValidationError :=
  if category < 1 then some ValidationError.categoryNotPositive
  else if !categoryExists category then some ValidationError.categoryUnknown
  else
    match wasmValidatePassword password with
    | some err => some err
    | none =>
      match wasmValidateSetupID U setupID with
      | some err => some err
      | none =>
        match wasmValidateMAC U mac with
        | some err => some err
        | none => none

/-! ## Variants and enumerations used by the properties -/

/-- The variant of `isTooSimple` without the final `switch` on the deny-list. -/
def isTooSimpleNoDenyList (raw : GoString) : Option Bool := do
  let allSame ← allSameLoop raw 7 1
  if allSame then some true
  else
    let (asc, desc) ← seqLoop raw 7 1 (true, true)
    if asc || desc then some true
    else
      let rep ← repeatedPairs raw
      if rep then some true
      else some false

/-- The string `ABABABAB` of the digits `a` and `b`. -/
def abab (a b : Nat) : GoString :=
  [digitChar a, digitChar b, digitChar a, digitChar b, digitChar a, digitChar b,
   digitChar a, digitChar b]

/-- The 100 strings of 8 digits of the form `ABABABAB`. -/
def ababCodes : List GoString :=
  (List.range 10).flatMap (fun a => (List.range 10).map (fun b => abab a b))

/-- The six runs of 8 consecutive digits, ascending and descending. -/
def runCodes : List GoString :=
  [str "01234567", str "12345678", str "23456789", str "98765432", str "87654321",
   str "76543210"]

/-- The strings of 8 digits on which the triviality filter answers true. -/
def tooSimpleCodes : List GoString := ababCodes ++ runCodes

/-- The loop `for _, r := range s` on the rest `s` of a string, with at most `k` iterations
to go: the runes it yields, in order. -/
def runesLoop : Nat → GoString → List Nat
  | 0, _ => []
  | k + 1, s =>
    if s = [] then []
    else
      let (r, w) := decodeRune s
      r :: runesLoop k (s.drop w)

/-- The characters of a Go string: the runes that `for _, r := range s` yields. -/
def runes (s : GoString) : List Nat := runesLoop s.length s

/-! ## Random identifiers of cmd/homekitgenqrcode and the digits of the label -/

/-- The loop `for i := range result { result[i] = chars[rand.Intn(len(chars))] }` of
`generateRandomSetupID` and `generateRandomMAC`, at index `i` with `k` iterations to go;
`draw i` is what `rand.Intn` returns in iteration `i`. The result is `none` when an index
into `chars` or into `result` is out of range. -/
def fillRandom (chars : GoString) (draw : Nat → Nat) : Nat → Nat → GoString → Option GoString
  | 0, _, result => some result
  | k + 1, i, result =>
    match index chars (draw i) with
    | none => none
    | some b =>
      if i < result.length then fillRandom chars draw k (i + 1) (result.set i b) else none

/-- Go `generateRandomSetupID()`, for the draws of `rand.Intn(len(chars))`. -/
def generateRandomSetupID (draw : Nat → Nat) : Option GoString :=
  let chars := str "0123456789ABCDEFGHIJKLMNOPQRSTUVWXYZ"
  fillRandom chars draw 4 0 (List.replicate 4 0)

/-- Go `generateRandomMAC()`, for the draws of `rand.Intn(len(hexChars))`. -/
def generateRandomMAC (draw : Nat → Nat) : Option GoString :=
  let hexChars := str "0123456789ABCDEF"
  fillRandom hexChars draw 12 0 (List.replicate 12 0)

/-- The loop `for i := 0; i < 4; i++ { ... string(code[i]) ... string(code[i+4]) ... }` of
`GenerateHomeKitLabel` (qr.go, lines 297 to 306), at index `i` with `k` iterations to go:
the texts drawn so far, top and bottom row in turn, or `none` when an index is out of
range. -/
def drawCodeDigits (code : GoString) : Nat → Int → List GoString → Option (List GoString)
  | 0, _, drawn => some drawn
  | k + 1, i, drawn =>
    match index code i with
    | none => none
    | some top =>
      match index code (i + 4) with
      | none => none
      | some bottom =>
        drawCodeDigits code k (i + 1)
          (drawn ++ [runeToString top.val, runeToString bottom.val])

/-- The setup code digits of `GenerateHomeKitLabel(category, password, ...)` (qr.go, lines
294 to 306): `code := strings.ReplaceAll(password, "-", "")`, then the loop over the two
rows of four digits. -/
def labelCodeDigits (password : GoString) : Option (List GoString) :=
  let code := ReplaceAll password 45 []
  drawCodeDigits code 4 0 []

/-! ## Proofs: 64-bit arithmetic -/

theorem toInt64_of_lt (m : Nat) (h : m < 2 ^ 63) : toInt64 m = (m : Int) := by
  unfold toInt64
  rw [if_pos h]

theorem bits64_natCast (m : Nat) (h : m < 2 ^ 64) : bits64 (m : Int) = m := by
  unfold bits64
  omega

theorem or64_natCast (a b : Nat) (ha : a < 2 ^ 63) (hb : b < 2 ^ 63) :
    or64 (a : Int) (b : Int) = ((a ||| b : Nat) : Int) := by
  unfold or64
  rw [bits64_natCast a (by omega), bits64_natCast b (by omega)]
  exact toInt64_of_lt _ (Nat.or_lt_two_pow ha hb)

theorem shl64_natCast (a k : Nat) (h : a * 2 ^ k < 2 ^ 63) :
    shl64 (a : Int) k = ((a * 2 ^ k : Nat) : Int) := by
  have hk : 1 ≤ 2 ^ k := Nat.one_le_two_pow
  have ha : a ≤ a * 2 ^ k := Nat.le_mul_of_pos_right a hk
  unfold shl64
  rw [bits64_natCast a (by omega), Nat.shiftLeft_eq, Nat.mod_eq_of_lt (by omega)]
  exact toInt64_of_lt _ h

/-- Masking with `2^k - 1` keeps the low `k` bits, for negative operands as well. -/
theorem and64_mask (x : Int) (k : Nat) (hk : k ≤ 62) :
    and64 x ((2 ^ k - 1 : Nat) : Int) = ((bits64 x % 2 ^ k : Nat) : Int) := by
  have h1 : 2 ^ k ≤ 2 ^ 62 := Nat.pow_le_pow_right (by decide) hk
  have h2 : 1 ≤ 2 ^ k := Nat.one_le_two_pow
  have h3 : bits64 x % 2 ^ k < 2 ^ k := Nat.mod_lt _ (by omega)
  unfold and64
  rw [bits64_natCast (2 ^ k - 1) (by omega), Nat.and_pow_two_sub_one_eq_mod]
  exact toInt64_of_lt _ (by omega)

theorem bits64_mod_256 (x : Int) : ((bits64 x % 2 ^ 8 : Nat) : Int) = x % 256 := by
  unfold bits64
  omega

theorem bits64_mod_2_27 (x : Int) : ((bits64 x % 2 ^ 27 : Nat) : Int) = x % 134217728 := by
  unfold bits64
  omega

theorem and64_0xFF (x : Int) : and64 x 0xFF = x % 256 := by
  have h := and64_mask x 8 (by decide)
  rw [bits64_mod_256] at h
  simpa using h

theorem and64_0x7FFFFFF (x : Int) : and64 x 0x7FFFFFF = x % 134217728 := by
  have h := and64_mask x 27 (by decide)
  rw [bits64_mod_2_27] at h
  simpa using h

theorem or64_zero_and64_zero_7 : or64 0 (and64 0 0x7) = 0 := by decide

theorem shl64_zero_4 : shl64 0 4 = 0 := by decide

theorem or64_zero_and64_zero_F : or64 0 (and64 0 0xF) = 0 := by decide

theorem shl64_zero_8 : shl64 0 8 = 0 := by decide

theorem and64_two_F : and64 2 0xF = 2 := by decide

/-- The payload as a natural number: category in bits 31 to 38, flags 2 in bits 27 to
30, the low 27 bits of the password below. -/
theorem buildPayload_natCast (c n : Int) :
    buildPayload c n
      = ((((c % 256).toNat * 2 ^ 4 + 2) * 2 ^ 27 + (n % 134217728).toNat : Nat) : Int) := by
  have ha : c % 256 = (((c % 256).toNat : Nat) : Int) := by omega
  have hb : n % 134217728 = (((n % 134217728).toNat : Nat) : Int) := by omega
  have ha' : (c % 256).toNat < 256 := by omega
  have hb' : (n % 134217728).toNat < 2 ^ 27 := by omega
  generalize (c % 256).toNat = a at ha ha'
  generalize (n % 134217728).toNat = b at hb hb'
  have e6 : or64 0 (a : Int) = (a : Int) := by
    have h := or64_natCast 0 a (by decide) (by omega)
    simpa using h
  have e7 : shl64 (a : Int) 4 = ((a * 2 ^ 4 : Nat) : Int) := shl64_natCast a 4 (by omega)
  have e8 : or64 ((a * 2 ^ 4 : Nat) : Int) 2 = ((a * 2 ^ 4 + 2 : Nat) : Int) := by
    have h := or64_natCast (a * 2 ^ 4) 2 (by omega) (by decide)
    have h2 := Nat.mul_add_lt_is_or (show 2 < 2 ^ 4 by decide) a
    rw [Nat.mul_comm] at h2
    rw [← h2] at h
    simpa using h
  have e9 : shl64 ((a * 2 ^ 4 + 2 : Nat) : Int) 27 = (((a * 2 ^ 4 + 2) * 2 ^ 27 : Nat) : Int) :=
    shl64_natCast _ 27 (by omega)
  have e10 : or64 (((a * 2 ^ 4 + 2) * 2 ^ 27 : Nat) : Int) (b : Int)
      = (((a * 2 ^ 4 + 2) * 2 ^ 27 + b : Nat) : Int) := by
    have h := or64_natCast ((a * 2 ^ 4 + 2) * 2 ^ 27) b (by omega) (by omega)
    have h2 := Nat.mul_add_lt_is_or hb' (a * 2 ^ 4 + 2)
    rw [Nat.mul_comm] at h2
    rw [← h2] at h
    exact h
  unfold buildPayload
  simp only [or64_zero_and64_zero_7, shl64_zero_4, or64_zero_and64_zero_F, shl64_zero_8,
    and64_two_F, and64_0xFF, and64_0x7FFFFFF]
  rw [ha, hb, e6, e7, e8, e9, e10]

/-- The payload is below `2^39`. -/
theorem buildPayload_lt (c n : Int) : 0 ≤ buildPayload c n ∧ buildPayload c n < 2 ^ 39 := by
  rw [buildPayload_natCast]
  have ha' : (c % 256).toNat < 256 := by omega
  have hb' : (n % 134217728).toNat < 2 ^ 27 := by omega
  omega

/-! ## Proofs: the base-36 rendering -/

theorem digits36_length (k p : Nat) : (digits36 k p).length = k := by
  induction k generalizing p with
  | zero => rfl
  | succ k ih => simp [digits36, ih]

theorem base36_get (d : Nat) (h : d < 36) : base36[d]? = some (char36 d) := by
  have key : ∀ d, d < 36 → base36[d]? = some (char36 d) := by decide
  exact key d h

theorem digitValue_char36 (d : Nat) (h : d < 36) : digitValue (char36 d) = some d := by
  have key : ∀ d, d < 36 → digitValue (char36 d) = some d := by decide
  exact key d h

theorem char36_mem (d : Nat) (h : d < 36) : char36 d ∈ base36 := by
  have key : ∀ d, d < 36 → char36 d ∈ base36 := by decide
  exact key d h

theorem index_base36 (p : Nat) :
    index base36 (Int.tmod (p : Int) 36) = some (char36 (p % 36)) := by
  have h : Int.tmod (p : Int) 36 = ((p % 36 : Nat) : Int) := (Int.ofNat_tmod p 36).symm
  rw [h]
  unfold index
  simp only [Int.toNat_ofNat, Int.ofNat_zero_le, if_true]
  exact base36_get _ (Nat.mod_lt _ (by decide))

theorem drop_set_self (l : GoString) (k : Nat) (a : Byte) (h : k < l.length) :
    (l.set k a).drop k = a :: l.drop (k + 1) := by
  induction l generalizing k with
  | nil => simp at h
  | cons x xs ih =>
    cases k with
    | zero => simp
    | succ k =>
      simp only [List.length_cons] at h
      simp only [List.set_cons_succ, List.drop_succ_cons]
      exact ih k (by omega)

/-- On a non-negative payload the encoding loop never fails: it overwrites the first `k`
bytes of the buffer with the `k` low base-36 digits and leaves the quotient. -/
theorem encodeLoop_natCast (k p : Nat) (out : GoString) (hk : k ≤ out.length) :
    encodeLoop k (p : Int) out
      = some (digits36 k p ++ out.drop k, ((p / 36 ^ k : Nat) : Int)) := by
  induction k generalizing p out with
  | zero => simp [encodeLoop, digits36]
  | succ k ih =>
    have hdiv : Int.tdiv (p : Int) 36 = ((p / 36 : Nat) : Int) := (Int.ofNat_tdiv p 36).symm
    have hlen : k ≤ (out.set k (char36 (p % 36))).length := by
      rw [List.length_set]; omega
    have hdrop := drop_set_self out k (char36 (p % 36)) (by omega)
    have hin : k < out.length := by omega
    unfold encodeLoop
    rw [index_base36, hdiv]
    simp only []
    rw [if_pos hin, ih (p / 36) _ hlen, hdrop, Nat.div_div_eq_div_mul, ← Nat.pow_succ']
    simp [digits36]

theorem readBase36From_append (xs ys : GoString) (acc : Nat) :
    readBase36From (xs ++ ys) acc = (readBase36From xs acc).bind (readBase36From ys) := by
  induction xs generalizing acc with
  | nil => simp [readBase36From]
  | cons x xs ih =>
    simp only [List.cons_append, readBase36From]
    cases digitValue x with
    | none => simp
    | some d => exact ih _

/-- Reading the `k` digits back gives the number modulo `36^k`. -/
theorem readBase36From_digits36 (k p acc : Nat) :
    readBase36From (digits36 k p) acc = some (acc * 36 ^ k + p % 36 ^ k) := by
  induction k generalizing p acc with
  | zero => simp [digits36, readBase36From, Nat.mod_one]
  | succ k ih =>
    have hd := digitValue_char36 (p % 36) (Nat.mod_lt _ (by decide))
    simp only [digits36, readBase36From_append, ih, Option.some_bind, readBase36From, hd]
    congr 1
    rw [Nat.pow_succ', Nat.mod_mul]
    ring

theorem readBase36_digits36 (k p : Nat) (h : p < 36 ^ k) :
    readBase36 (digits36 k p) = some p := by
  unfold readBase36
  rw [readBase36From_digits36, Nat.mod_eq_of_lt h]
  simp

theorem digits36_mem (k p : Nat) : ∀ b ∈ digits36 k p, b ∈ base36 := by
  induction k generalizing p with
  | zero => simp [digits36]
  | succ k ih =>
    intro b hb
    simp only [digits36, List.mem_append, List.mem_singleton] at hb
    rcases hb with hb | hb
    · exact ih _ b hb
    · rw [hb]; exact char36_mem _ (Nat.mod_lt _ (by decide))

/-- The payload of a call, as a natural number. -/
theorem setupPayload_natCast (c : Int) (pw : GoString) :
    setupPayload c pw = (((setupPayload c pw).toNat : Nat) : Int) := by
  have h := (buildPayload_lt c (Atoi (ReplaceAll pw 45 [])).1).1
  unfold setupPayload
  generalize buildPayload c (Atoi (ReplaceAll pw 45 [])).1 = x at h ⊢
  omega

theorem setupPayload_toNat_lt (c : Int) (pw : GoString) :
    (setupPayload c pw).toNat < 2 ^ 39 := by
  have h := buildPayload_lt c (Atoi (ReplaceAll pw 45 [])).1
  unfold setupPayload
  generalize buildPayload c (Atoi (ReplaceAll pw 45 [])).1 = x at h ⊢
  omega

/-- The call never fails, and its result is the scheme, the 9 low base-36 digits of the
payload and the setup ID. -/
theorem GenHomeKitSetupURI_eq (c : Int) (pw sid : GoString) :
    GenHomeKitSetupURI c pw sid
      = some (str "X-HM://" ++ digits36 9 (setupPayload c pw).toNat ++ sid) := by
  have hlen : 9 ≤ (List.replicate 9 (0 : Byte)).length := by decide
  have hd : List.drop 9 (List.replicate 9 (0 : Byte)) = [] := by decide
  have h := encodeLoop_natCast 9 (setupPayload c pw).toNat (List.replicate 9 0) hlen
  rw [← setupPayload_natCast, hd, List.append_nil] at h
  unfold GenHomeKitSetupURI
  rw [h]

/-! ## Proofs: strconv.Atoi on digit strings -/

set_option maxRecDepth 100000 in
theorem digit_sub_val (c : Byte) (h1 : 48 ≤ c.val) (h2 : c.val ≤ 57) :
    (c - 48 : Byte).val = c.val - 48 ∧ ¬ ((c - 48 : Byte) > 9) ∧ ¬ ((c - 48 : Byte) ≥ 10) := by
  revert c
  decide

theorem decimalFrom_ge (s : GoString) (acc v : Nat) (h : decimalFrom s acc = some v) :
    acc ≤ v := by
  induction s generalizing acc with
  | nil =>
    simp only [decimalFrom, Option.some.injEq] at h
    omega
  | cons c rest ih =>
    unfold decimalFrom at h
    split at h
    · have := ih _ h
      omega
    · exact absurd h (by simp)

theorem atoiFastLoop_digits (s : GoString) (acc v : Nat) (h : decimalFrom s acc = some v) :
    atoiFastLoop s (acc : Int) = some (v : Int) := by
  induction s generalizing acc with
  | nil =>
    simp only [decimalFrom, Option.some.injEq] at h
    simp [atoiFastLoop, h]
  | cons c rest ih =>
    unfold decimalFrom at h
    split at h
    · rename_i hc
      have hd := digit_sub_val c hc.1 hc.2
      have := ih _ h
      unfold atoiFastLoop
      simp only [hd.2.1, if_false, hd.1]
      rw [← this]
      congr 1
    · exact absurd h (by simp)

theorem parseUintLoop_digits (s : GoString) (acc v : Nat) (h : decimalFrom s acc = some v)
    (hv : v < 2 ^ 64) : parseUintLoop s acc = (v, NumError.ok) := by
  induction s generalizing acc with
  | nil =>
    simp only [decimalFrom, Option.some.injEq] at h
    simp [parseUintLoop, h]
  | cons c rest ih =>
    unfold decimalFrom at h
    split at h
    · rename_i hc
      have hd := digit_sub_val c hc.1 hc.2
      have hge := decimalFrom_ge _ _ _ h
      have hrec := ih _ h
      have hc' : (48 : Byte) ≤ c ∧ c ≤ (57 : Byte) := by
        constructor
        · exact Fin.le_def.mpr hc.1
        · exact Fin.le_def.mpr hc.2
      have hd9 := hd.2.2
      unfold parseUintLoop
      simp only [hc', and_self, if_true, hd9, if_false]
      have e1 : (acc * 10) % 2 ^ 64 = acc * 10 := Nat.mod_eq_of_lt (by omega)
      have e2 : (acc * 10 + (c - 48 : Byte).val) % 2 ^ 64 = acc * 10 + (c.val - 48) := by
        rw [hd.1]; exact Nat.mod_eq_of_lt (by omega)
      simp only [e1, e2]
      rw [if_neg (by omega), if_neg (by omega)]
      exact hrec
    · exact absurd h (by simp)

theorem decimalValue_cons (s : GoString) (v : Nat) (h : decimalValue s = some v) :
    ∃ c rest, s = c :: rest ∧ 48 ≤ c.val ∧ c.val ≤ 57 ∧ decimalFrom s 0 = some v := by
  unfold decimalValue at h
  cases s with
  | nil => simp at h
  | cons c rest =>
    simp only [reduceCtorEq, if_false] at h
    refine ⟨c, rest, rfl, ?_⟩
    have h2 := h
    unfold decimalFrom at h2
    split at h2
    · rename_i hc
      exact ⟨hc.1, hc.2, h⟩
    · exact absurd h2 (by simp)

set_option maxRecDepth 100000 in
theorem digit_ne_sign (c : Byte) (h1 : 48 ≤ c.val) (h2 : c.val ≤ 57) : c ≠ 45 ∧ c ≠ 43 := by
  revert c
  decide

/-- On a non-empty string of ASCII digits whose value fits `int`, `Atoi` returns the
decimal value and no error. -/
theorem Atoi_digits (s : GoString) (v : Nat) (h : decimalValue s = some v) (hv : v < 2 ^ 63) :
    Atoi s = ((v : Int), NumError.ok) := by
  obtain ⟨c, rest, hs, h1, h2, hdec⟩ := decimalValue_cons s v h
  have hne := digit_ne_sign c h1 h2
  subst hs
  have hhead45 : ¬ ((c :: rest).head? = some 45) := by simp [hne.1]
  have hhead43 : ¬ ((c :: rest).head? = some 43) := by simp [hne.2]
  unfold Atoi
  split
  · unfold atoiFast
    simp only [hhead45, hhead43, or_self, if_false]
    have hloop := atoiFastLoop_digits _ 0 v hdec
    simp only [Nat.cast_zero] at hloop
    rw [hloop]
    simp
  · unfold ParseInt ParseUint
    simp only [hhead45, hhead43, or_self, if_false, reduceCtorEq, decide_False]
    rw [parseUintLoop_digits _ 0 v hdec (by omega)]
    have hcut : ¬ (v ≥ 2 ^ 63) := by omega
    simp [hcut, toInt64_of_lt v hv]
    omega

/-! ## Proofs: the triviality filter -/

theorem index_natCast (s : GoString) (i : Nat) : index s (i : Int) = s[i]? := by
  unfold index
  simp

theorem index_zero (s : GoString) : index s 0 = s[0]? := index_natCast s 0

theorem index_natCast_pred (s : GoString) (i : Nat) :
    index s (((i + 1 : Nat) : Int) - 1) = s[i]? := by
  have h : ((i + 1 : Nat) : Int) - 1 = (i : Int) := by omega
  rw [h, index_natCast]

theorem allSameLoop_eight (b0 b1 b2 b3 b4 b5 b6 b7 : Byte) :
    allSameLoop [b0, b1, b2, b3, b4, b5, b6, b7] 7 1
      = some (decide (b1 = b0 ∧ b2 = b0 ∧ b3 = b0 ∧ b4 = b0 ∧ b5 = b0 ∧ b6 = b0 ∧ b7 = b0)) := by
  simp only [allSameLoop, index_natCast, Nat.cast_zero, index_zero]
  simp only [List.getElem?_cons_succ, List.getElem?_cons_zero, Option.bind_eq_bind,
    Option.some_bind, ne_eq, ite_not]
  split_ifs <;> simp [*]

theorem seqLoop_eight (b0 b1 b2 b3 b4 b5 b6 b7 : Byte) :
    seqLoop [b0, b1, b2, b3, b4, b5, b6, b7] 7 1 (true, true)
      = some (decide (b1 = b0 + 1 ∧ b2 = b1 + 1 ∧ b3 = b2 + 1 ∧ b4 = b3 + 1 ∧ b5 = b4 + 1
                ∧ b6 = b5 + 1 ∧ b7 = b6 + 1),
              decide (b1 = b0 - 1 ∧ b2 = b1 - 1 ∧ b3 = b2 - 1 ∧ b4 = b3 - 1 ∧ b5 = b4 - 1
                ∧ b6 = b5 - 1 ∧ b7 = b6 - 1)) := by
  simp only [seqLoop, index_natCast, index_natCast_pred]
  simp only [List.getElem?_cons_succ, List.getElem?_cons_zero, Option.bind_eq_bind,
    Option.some_bind, ne_eq, ite_not]
  refine congrArg some (Prod.ext ?_ ?_)
  · show (if b7 = b6 + 1 then _ else _) = _
    split_ifs <;> simp [*]
  · show (if b7 = b6 - 1 then _ else _) = _
    split_ifs <;> simp [*]

theorem repeatedPairs_eight (b0 b1 b2 b3 b4 b5 b6 b7 : Byte) :
    repeatedPairs [b0, b1, b2, b3, b4, b5, b6, b7]
      = some (decide (b0 = b2 ∧ b1 = b3 ∧ b2 = b4 ∧ b3 = b5 ∧ b4 = b6 ∧ b5 = b7)) := by
  simp only [repeatedPairs, slice]
  simp
  by_cases h1 : b0 = b2 ∧ b1 = b3
  · by_cases h2 : b2 = b4 ∧ b3 = b5
    · rw [if_pos h1, if_pos h2]
      simp only [h1.1, h1.2, h2.1, h2.2, decide_True, Bool.true_and]
    · rw [if_pos h1, if_neg h2]
      have h3 : ¬ (b2 = b4 ∧ b3 = b5 ∧ b4 = b6 ∧ b5 = b7) := fun h => h2 ⟨h.1, h.2.1⟩
      simp only [← Bool.decide_and, decide_eq_false h3, Bool.and_false]
  · rw [if_neg h1]
    have h3 : ¬ (b0 = b2 ∧ b1 = b3 ∧ b2 = b4 ∧ b3 = b5 ∧ b4 = b6 ∧ b5 = b7) :=
      fun h => h1 ⟨h.1, h.2.1⟩
    simp only [← Bool.decide_and, decide_eq_false h3]

/-- On a string of 8 bytes `isTooSimple` does not panic, and it is true exactly when one
of its five rules applies. -/
theorem isTooSimple_eight (b0 b1 b2 b3 b4 b5 b6 b7 : Byte) :
    isTooSimple [b0, b1, b2, b3, b4, b5, b6, b7]
      = some (decide (
          (b1 = b0 ∧ b2 = b0 ∧ b3 = b0 ∧ b4 = b0 ∧ b5 = b0 ∧ b6 = b0 ∧ b7 = b0)
          ∨ (b1 = b0 + 1 ∧ b2 = b1 + 1 ∧ b3 = b2 + 1 ∧ b4 = b3 + 1 ∧ b5 = b4 + 1
              ∧ b6 = b5 + 1 ∧ b7 = b6 + 1)
          ∨ (b1 = b0 - 1 ∧ b2 = b1 - 1 ∧ b3 = b2 - 1 ∧ b4 = b3 - 1 ∧ b5 = b4 - 1
              ∧ b6 = b5 - 1 ∧ b7 = b6 - 1)
          ∨ (b0 = b2 ∧ b1 = b3 ∧ b2 = b4 ∧ b3 = b5 ∧ b4 = b6 ∧ b5 = b7)
          ∨ ([b0, b1, b2, b3, b4, b5, b6, b7] = str "12345678"
              ∨ [b0, b1, b2, b3, b4, b5, b6, b7] = str "87654321"
              ∨ [b0, b1, b2, b3, b4, b5, b6, b7] = str "00000000"
              ∨ [b0, b1, b2, b3, b4, b5, b6, b7] = str "11111111"))) := by
  unfold isTooSimple
  rw [allSameLoop_eight, seqLoop_eight, repeatedPairs_eight]
  simp only [Option.bind_eq_bind, Option.some_bind]
  by_cases hS : (b1 = b0 ∧ b2 = b0 ∧ b3 = b0 ∧ b4 = b0 ∧ b5 = b0 ∧ b6 = b0 ∧ b7 = b0)
  · rw [decide_eq_true hS, decide_eq_true (Or.inl hS)]
    rfl
  rw [decide_eq_false hS]
  by_cases hA : (b1 = b0 + 1 ∧ b2 = b1 + 1 ∧ b3 = b2 + 1 ∧ b4 = b3 + 1 ∧ b5 = b4 + 1
              ∧ b6 = b5 + 1 ∧ b7 = b6 + 1)
  · rw [decide_eq_true hA, decide_eq_true (Or.inr (Or.inl hA))]
    rfl
  rw [decide_eq_false hA]
  by_cases hD : (b1 = b0 - 1 ∧ b2 = b1 - 1 ∧ b3 = b2 - 1 ∧ b4 = b3 - 1 ∧ b5 = b4 - 1
              ∧ b6 = b5 - 1 ∧ b7 = b6 - 1)
  · rw [decide_eq_true hD, decide_eq_true (Or.inr (Or.inr (Or.inl hD)))]
    rfl
  rw [decide_eq_false hD]
  by_cases hR : (b0 = b2 ∧ b1 = b3 ∧ b2 = b4 ∧ b3 = b5 ∧ b4 = b6 ∧ b5 = b7)
  · rw [decide_eq_true hR, decide_eq_true (Or.inr (Or.inr (Or.inr (Or.inl hR))))]
    rfl
  rw [decide_eq_false hR]
  by_cases hL : ([b0, b1, b2, b3, b4, b5, b6, b7] = str "12345678"
              ∨ [b0, b1, b2, b3, b4, b5, b6, b7] = str "87654321"
              ∨ [b0, b1, b2, b3, b4, b5, b6, b7] = str "00000000"
              ∨ [b0, b1, b2, b3, b4, b5, b6, b7] = str "11111111")
  · rw [decide_eq_true (Or.inr (Or.inr (Or.inr (Or.inr hL))))]
    simp only [hL, if_true, Bool.false_eq_true, if_false, Bool.or_self]
  · have hnone : ¬ ((b1 = b0 ∧ b2 = b0 ∧ b3 = b0 ∧ b4 = b0 ∧ b5 = b0 ∧ b6 = b0 ∧ b7 = b0)
          ∨ (b1 = b0 + 1 ∧ b2 = b1 + 1 ∧ b3 = b2 + 1 ∧ b4 = b3 + 1 ∧ b5 = b4 + 1
              ∧ b6 = b5 + 1 ∧ b7 = b6 + 1)
          ∨ (b1 = b0 - 1 ∧ b2 = b1 - 1 ∧ b3 = b2 - 1 ∧ b4 = b3 - 1 ∧ b5 = b4 - 1
              ∧ b6 = b5 - 1 ∧ b7 = b6 - 1)
          ∨ (b0 = b2 ∧ b1 = b3 ∧ b2 = b4 ∧ b3 = b5 ∧ b4 = b6 ∧ b5 = b7)
          ∨ ([b0, b1, b2, b3, b4, b5, b6, b7] = str "12345678"
              ∨ [b0, b1, b2, b3, b4, b5, b6, b7] = str "87654321"
              ∨ [b0, b1, b2, b3, b4, b5, b6, b7] = str "00000000"
              ∨ [b0, b1, b2, b3, b4, b5, b6, b7] = str "11111111")) := by
      rintro (h | h | h | h | h)
      · exact hS h
      · exact hA h
      · exact hD h
      · exact hR h
      · exact hL h
    rw [decide_eq_false hnone]
    simp only [hL, if_true, Bool.false_eq_true, if_false, Bool.or_self]

/-! ## Proofs: ranging over the runes of a string -/

theorem left_le_or (x y : Nat) : x ≤ x ||| y :=
  Nat.le_of_testBit (fun i h => by simp [h])

theorem right_le_or (x y : Nat) : y ≤ x ||| y :=
  Nat.le_of_testBit (fun i h => by simp [h])

theorem or_ge_of (a b n : Nat) (h : n ≤ a ∨ n ≤ b) : n ≤ a ||| b := by
  rcases h with h | h
  · exact le_trans h (left_le_or a b)
  · exact le_trans h (right_le_or a b)

theorem and_0x1F (x : Nat) : x &&& 0x1F = x % 32 := Nat.and_pow_two_sub_one_eq_mod x 5

theorem and_0x0F (x : Nat) : x &&& 0x0F = x % 16 := Nat.and_pow_two_sub_one_eq_mod x 4

theorem and_0x07 (x : Nat) : x &&& 0x07 = x % 8 := Nat.and_pow_two_sub_one_eq_mod x 3

theorem and_0x3F (x : Nat) : x &&& 0x3F = x % 64 := Nat.and_pow_two_sub_one_eq_mod x 6

theorem decodeRune_ascii (s0 : Byte) (rest : GoString) (h : s0.val < 0x80) :
    decodeRune (s0 :: rest) = (s0.val, 1) := by
  simp [decodeRune, h]

theorem firstInfo_bounds (s0 s1 : Byte) (sz lo hi : Nat)
    (hfi : firstInfo s0 = some (sz, lo, hi)) (h1 : ¬ (s1.val < lo ∨ hi < s1.val)) :
    (sz ≤ 2 → 2 ≤ s0.val % 32)
    ∧ (¬ sz ≤ 2 → sz ≤ 3 → 1 ≤ s0.val % 16 ∨ 32 ≤ s1.val % 64)
    ∧ (¬ sz ≤ 3 → 1 ≤ s0.val % 8 ∨ 16 ≤ s1.val % 64) := by
  unfold firstInfo at hfi
  split_ifs at hfi <;> simp only [Option.some.injEq, Prod.mk.injEq, reduceCtorEq] at hfi <;>
    obtain ⟨rfl, rfl, rfl⟩ := hfi <;> omega

/-- A sequence that starts with a byte of `0x80` or more decodes to a rune of `0x80` or
more (possibly `RuneError`) and has a width of at least one byte. -/
theorem decodeRune_nonascii (s0 : Byte) (rest : GoString) (h : 0x80 ≤ s0.val) :
    0x80 ≤ (decodeRune (s0 :: rest)).1 ∧ 1 ≤ (decodeRune (s0 :: rest)).2 := by
  have hlt : ¬ (s0.val < 0x80) := by omega
  unfold decodeRune
  simp only [hlt, if_false]
  cases hfi : firstInfo s0 with
  | none => simp [RuneError]
  | some t =>
    obtain ⟨sz, lo, hi⟩ := t
    simp only []
    by_cases hlen : (s0 :: rest).length < sz
    · rw [if_pos hlen]; decide
    simp only [hlen, if_false]
    cases rest with
    | nil => simp [RuneError]
    | cons s1 rest1 =>
      simp only []
      by_cases h1 : s1.val < lo ∨ hi < s1.val
      · rw [if_pos h1]; decide
      simp only [h1, if_false]
      have hb := firstInfo_bounds s0 s1 sz lo hi hfi h1
      by_cases h2 : sz ≤ 2
      · simp only [h2, if_true]
        refine ⟨?_, by decide⟩
        have := hb.1 h2
        calc 0x80 ≤ (s0.val &&& 0x1F) <<< 6 := by rw [and_0x1F, Nat.shiftLeft_eq]; omega
          _ ≤ _ := left_le_or _ _
      simp only [h2, if_false]
      cases rest1 with
      | nil => simp [RuneError]
      | cons s2 rest2 =>
        simp only []
        by_cases h3 : s2.val < 0x80 ∨ 0xBF < s2.val
        · rw [if_pos h3]; decide
        simp only [h3, if_false]
        by_cases h4 : sz ≤ 3
        · simp only [h4, if_true]
          refine ⟨?_, by decide⟩
          refine le_trans ?_ (left_le_or _ _)
          refine or_ge_of _ _ _ ?_
          rw [and_0x0F, and_0x3F, Nat.shiftLeft_eq, Nat.shiftLeft_eq]
          rcases hb.2.1 h2 h4 with h5 | h5
          · left; omega
          · right; omega
        simp only [h4, if_false]
        cases rest2 with
        | nil => simp [RuneError]
        | cons s3 rest3 =>
          simp only []
          by_cases h6 : s3.val < 0x80 ∨ 0xBF < s3.val
          · rw [if_pos h6]; decide
          simp only [h6, if_false]
          refine ⟨?_, by decide⟩
          refine le_trans ?_ (left_le_or _ _)
          refine le_trans ?_ (left_le_or _ _)
          refine or_ge_of _ _ _ ?_
          rw [and_0x07, and_0x3F, Nat.shiftLeft_eq, Nat.shiftLeft_eq]
          rcases hb.2.2 h4 with h5 | h5
          · left; omega
          · right; omega

/-! ## Proofs: IsValidSetupCode -/

/-- The rune loop of `IsValidSetupCode` runs to the end exactly on strings of ASCII
digits: a byte of `0x80` or more starts a rune of `0x80` or more. -/
theorem digitsOnlyLoop_iff (k : Nat) (s : GoString) (h : s.length ≤ k) :
    digitsOnlyLoop k s = true ↔ ∀ b ∈ s, 48 ≤ b.val ∧ b.val ≤ 57 := by
  induction k generalizing s with
  | zero =>
    have hs : s = [] := List.length_eq_zero.mp (by omega)
    subst hs
    simp [digitsOnlyLoop]
  | succ k ih =>
    cases s with
    | nil => simp [digitsOnlyLoop]
    | cons s0 rest =>
      have hrest : rest.length ≤ k := by
        simp only [List.length_cons] at h
        omega
      unfold digitsOnlyLoop
      simp only [reduceCtorEq, if_false]
      by_cases hs0 : s0.val < 0x80
      · rw [decodeRune_ascii s0 rest hs0]
        simp only [List.drop_succ_cons, List.drop_zero, List.mem_cons, forall_eq_or_imp]
        by_cases hd : s0.val < 48 ∨ s0.val > 57
        · rw [if_pos hd]
          constructor
          · intro hf
            exact absurd hf (by simp)
          · intro hf
            omega
        · rw [if_neg hd, ih rest hrest]
          constructor
          · intro hf
            exact ⟨by omega, hf⟩
          · intro hf
            exact hf.2
      · have hn := decodeRune_nonascii s0 rest (by omega)
        generalize decodeRune (s0 :: rest) = p at hn
        obtain ⟨ch, w⟩ := p
        simp only at hn
        have hc : ch < 48 ∨ ch > 57 := by omega
        simp only [hc, if_true]
        constructor
        · intro hf
          exact absurd hf (by simp)
        · intro hf
          have := hf s0 (List.mem_cons_self _ _)
          omega

theorem eq_eight (l : GoString) (h : l.length = 8) :
    ∃ b0 b1 b2 b3 b4 b5 b6 b7, l = [b0, b1, b2, b3, b4, b5, b6, b7] := by
  rcases l with _ | ⟨b0, _ | ⟨b1, _ | ⟨b2, _ | ⟨b3, _ | ⟨b4, _ | ⟨b5, _ | ⟨b6, _ | ⟨b7, _ | ⟨b8, l⟩⟩⟩⟩⟩⟩⟩⟩⟩ <;>
    simp only [List.length_cons, List.length_nil] at h <;> try omega
  exact ⟨b0, b1, b2, b3, b4, b5, b6, b7, rfl⟩

/-- On a string of 8 bytes `isTooSimple` returns a value. -/
theorem isTooSimple_isSome (raw : GoString) (h : raw.length = 8) :
    ∃ b, isTooSimple raw = some b := by
  obtain ⟨b0, b1, b2, b3, b4, b5, b6, b7, rfl⟩ := eq_eight raw h
  exact ⟨_, isTooSimple_eight b0 b1 b2 b3 b4 b5 b6 b7⟩

theorem IsValidSetupCode_of_length (code : GoString) (h : (PlainSetupCode code).length ≠ 8) :
    IsValidSetupCode code = some false := by
  unfold IsValidSetupCode
  simp only [h, ne_eq, not_false_eq_true, if_true]

theorem IsValidSetupCode_of_nondigit (code : GoString)
    (h : ¬ ∀ b ∈ PlainSetupCode code, 48 ≤ b.val ∧ b.val ≤ 57) :
    IsValidSetupCode code = some false := by
  unfold IsValidSetupCode
  simp only []
  split
  · rfl
  · have hl := (digitsOnlyLoop_iff _ (PlainSetupCode code) (Nat.le_refl _)).not.mpr h
    simp only [Bool.not_eq_true] at hl
    rw [if_pos hl]

theorem IsValidSetupCode_of_digits (code : GoString) (h8 : (PlainSetupCode code).length = 8)
    (h : ∀ b ∈ PlainSetupCode code, 48 ≤ b.val ∧ b.val ≤ 57) :
    IsValidSetupCode code = (isTooSimple (PlainSetupCode code)).map (fun b => !b) := by
  unfold IsValidSetupCode
  have hl := (digitsOnlyLoop_iff _ (PlainSetupCode code) (Nat.le_refl _)).mpr h
  simp only [ne_eq, h8, not_true_eq_false, if_false]
  rw [h8] at hl
  simp only [hl, Bool.true_eq_false, if_false]

/-- The predicate never panics. -/
theorem IsValidSetupCode_isSome (code : GoString) : ∃ b, IsValidSetupCode code = some b := by
  by_cases h8 : (PlainSetupCode code).length = 8
  · by_cases hd : ∀ b ∈ PlainSetupCode code, 48 ≤ b.val ∧ b.val ≤ 57
    · obtain ⟨b, hb⟩ := isTooSimple_isSome _ h8
      exact ⟨!b, by rw [IsValidSetupCode_of_digits code h8 hd, hb]; rfl⟩
    · exact ⟨false, IsValidSetupCode_of_nondigit code hd⟩
  · exact ⟨false, IsValidSetupCode_of_length code h8⟩

/-! ## Proofs: the generator -/

/-- An 8-digit number is printed by `%08d` as its 8 decimal digits. -/
theorem sprintf08d_eight (n : Nat) (h1 : 10000000 ≤ n) (h2 : n < 100000000) :
    sprintf08d n
      = [digitChar (n / 10000000), digitChar (n / 1000000 % 10), digitChar (n / 100000 % 10),
         digitChar (n / 10000 % 10), digitChar (n / 1000 % 10), digitChar (n / 100 % 10),
         digitChar (n / 10 % 10), digitChar (n % 10)] := by
  have e1 : n ≥ 10 := by omega
  have e2 : n / 10 ≥ 10 := by omega
  have e3 : n / 10 / 10 ≥ 10 := by omega
  have e4 : n / 10 / 10 / 10 ≥ 10 := by omega
  have e5 : n / 10 / 10 / 10 / 10 ≥ 10 := by omega
  have e6 : n / 10 / 10 / 10 / 10 / 10 ≥ 10 := by omega
  have e7 : n / 10 / 10 / 10 / 10 / 10 / 10 ≥ 10 := by omega
  have e8 : ¬ (n / 10 / 10 / 10 / 10 / 10 / 10 / 10 ≥ 10) := by omega
  have d1 : n / 10 / 10 / 10 / 10 / 10 / 10 / 10 = n / 10000000 := by omega
  have d2 : n / 10 / 10 / 10 / 10 / 10 / 10 = n / 1000000 := by omega
  have d3 : n / 10 / 10 / 10 / 10 / 10 = n / 100000 := by omega
  have d4 : n / 10 / 10 / 10 / 10 = n / 10000 := by omega
  have d5 : n / 10 / 10 / 10 = n / 1000 := by omega
  have d6 : n / 10 / 10 = n / 100 := by omega
  unfold sprintf08d
  simp only [decimalDigits, e1, e2, e3, e4, e5, e6, e7, e8, if_true, if_false]
  rw [d1, d2, d3, d4, d5, d6]
  rfl

theorem digitChar_rel : ∀ a, a < 10 → ∀ b, b < 10 →
    (digitChar b = digitChar a ↔ b = a) ∧ (digitChar b = digitChar a + 1 ↔ b = a + 1)
      ∧ (digitChar b = digitChar a - 1 ↔ b + 1 = a) := by
  decide

theorem digitChar_digit : ∀ a, a < 10 →
    48 ≤ (digitChar a).val ∧ (digitChar a).val ≤ 57 ∧ digitChar a ≠ 45
      ∧ (digitChar a).val = 48 + a := by
  decide

theorem digit_eq_digitChar (b : Byte) (h : 48 ≤ b.val ∧ b.val ≤ 57) :
    b = digitChar (b.val - 48) ∧ b.val - 48 < 10 := by
  refine ⟨?_, by omega⟩
  apply Fin.ext
  have := (digitChar_digit (b.val - 48) (by omega)).2.2.2
  omega

theorem PlainSetupCode_dashed (n : Nat) (h1 : 10000000 ≤ n) (h2 : n < 100000000) :
    PlainSetupCode (dashed n) = sprintf08d n := by
  have k0 := (digitChar_digit (n / 10000000) (by omega)).2.2.1
  have k1 := (digitChar_digit (n / 1000000 % 10) (by omega)).2.2.1
  have k2 := (digitChar_digit (n / 100000 % 10) (by omega)).2.2.1
  have k3 := (digitChar_digit (n / 10000 % 10) (by omega)).2.2.1
  have k4 := (digitChar_digit (n / 1000 % 10) (by omega)).2.2.1
  have k5 := (digitChar_digit (n / 100 % 10) (by omega)).2.2.1
  have k6 := (digitChar_digit (n / 10 % 10) (by omega)).2.2.1
  have k7 := (digitChar_digit (n % 10) (by omega)).2.2.1
  rw [sprintf08d_eight n h1 h2]
  simp [PlainSetupCode, ReplaceAll, dashed, k0, k1, k2, k3, k4, k5, k6, k7]

theorem slices_eight (b0 b1 b2 b3 b4 b5 b6 b7 : Byte) :
    slice [b0, b1, b2, b3, b4, b5, b6, b7] 0 3 = some [b0, b1, b2]
    ∧ slice [b0, b1, b2, b3, b4, b5, b6, b7] 3 5 = some [b3, b4]
    ∧ slice [b0, b1, b2, b3, b4, b5, b6, b7] 5 8 = some [b5, b6, b7] := by
  simp [slice]

/-- On a string of 8 bytes the loop body returns the dashed string unless the string is
too simple; it does not panic. -/
theorem returnOrNext_eight (b0 b1 b2 b3 b4 b5 b6 b7 : Byte) (next : Outcome) :
    returnOrNext [b0, b1, b2, b3, b4, b5, b6, b7] next
      = if isTooSimple [b0, b1, b2, b3, b4, b5, b6, b7] = some true then next
        else Outcome.value [b0, b1, b2, 45, b3, b4, 45, b5, b6, b7] := by
  obtain ⟨b, hb⟩ := isTooSimple_isSome [b0, b1, b2, b3, b4, b5, b6, b7] rfl
  have hs := slices_eight b0 b1 b2 b3 b4 b5 b6 b7
  unfold returnOrNext
  rw [hb, hs.1, hs.2.1, hs.2.2]
  cases b with
  | true => simp
  | false =>
    simp only [Option.some.injEq, Bool.false_eq_true, if_false]
    rfl

/-- One iteration of the generator on a draw in range: a code that is too simple is
skipped, any other is returned in the dashed format. No iteration panics. -/
theorem generateIteration_eq (d : Nat) (hd : d < 90000000) (next : Outcome) :
    generateIteration d next
      = if isTooSimple (sprintf08d (d + 10000000)) = some true then next
        else Outcome.value (dashed (d + 10000000)) := by
  have e := sprintf08d_eight (d + 10000000) (by omega) (by omega)
  unfold generateIteration
  simp only []
  rw [e, returnOrNext_eight]
  rfl

theorem GenerateHomeKitSetupCode_cons (d : Nat) (hd : d < 90000000) (draws : List Nat) :
    GenerateHomeKitSetupCode (d :: draws)
      = if isTooSimple (sprintf08d (d + 10000000)) = some true
        then GenerateHomeKitSetupCode draws
        else Outcome.value (dashed (d + 10000000)) := by
  rw [GenerateHomeKitSetupCode, generateIteration_eq d hd]

theorem isTooSimple_sprintf08d (d : Nat) (hd : d < 90000000) :
    isTooSimple (sprintf08d (d + 10000000)) = some true
      ∨ isTooSimple (sprintf08d (d + 10000000)) = some false := by
  have e := sprintf08d_eight (d + 10000000) (by omega) (by omega)
  obtain ⟨b, hb⟩ := isTooSimple_isSome (sprintf08d (d + 10000000)) (by rw [e]; rfl)
  cases b with
  | true => exact Or.inl hb
  | false => exact Or.inr hb

/-- With draws in range the generator either is still running, every draw so far being
too simple, or has returned the dashed form of the first draw that is not too simple. -/
theorem GenerateHomeKitSetupCode_cases (draws : List Nat) (h : ∀ d ∈ draws, d < 90000000) :
    (GenerateHomeKitSetupCode draws = Outcome.pending
      ∧ ∀ d ∈ draws, isTooSimple (sprintf08d (d + 10000000)) = some true)
    ∨ ∃ pre d post, draws = pre ++ d :: post
        ∧ (∀ x ∈ pre, isTooSimple (sprintf08d (x + 10000000)) = some true)
        ∧ isTooSimple (sprintf08d (d + 10000000)) = some false
        ∧ GenerateHomeKitSetupCode draws = Outcome.value (dashed (d + 10000000)) := by
  induction draws with
  | nil =>
    left
    exact ⟨rfl, by simp⟩
  | cons d ds ih =>
    have hd : d < 90000000 := h d (List.mem_cons_self _ _)
    have hds : ∀ x ∈ ds, x < 90000000 := fun x hx => h x (List.mem_cons_of_mem _ hx)
    rw [GenerateHomeKitSetupCode_cons d hd]
    rcases isTooSimple_sprintf08d d hd with ht | hf
    · rw [if_pos ht]
      rcases ih hds with ⟨hp, hall⟩ | ⟨pre, x, post, he, hpre, hx, hv⟩
      · left
        refine ⟨hp, ?_⟩
        intro y hy
        rcases List.mem_cons.mp hy with rfl | hy
        · exact ht
        · exact hall y hy
      · right
        refine ⟨d :: pre, x, post, by rw [he]; rfl, ?_, hx, hv⟩
        intro y hy
        rcases List.mem_cons.mp hy with rfl | hy
        · exact ht
        · exact hpre y hy
    · have hne : ¬ (isTooSimple (sprintf08d (d + 10000000)) = some true) := by
        rw [hf]; simp
      rw [if_neg hne]
      right
      exact ⟨[], d, ds, rfl, by simp, hf, rfl⟩

theorem decimalFrom_digitChar (a : Nat) (ha : a < 10) (rest : GoString) (acc : Nat) :
    decimalFrom (digitChar a :: rest) acc = decimalFrom rest (acc * 10 + a) := by
  have k := digitChar_digit a ha
  rw [decimalFrom, if_pos ⟨k.1, k.2.1⟩, k.2.2.2]
  congr 1
  omega

theorem decimalValue_sprintf08d (n : Nat) (h1 : 10000000 ≤ n) (h2 : n < 100000000) :
    decimalValue (sprintf08d n) = some n := by
  rw [sprintf08d_eight n h1 h2]
  unfold decimalValue
  simp only [reduceCtorEq, if_false]
  rw [decimalFrom_digitChar _ (by omega), decimalFrom_digitChar _ (by omega),
    decimalFrom_digitChar _ (by omega), decimalFrom_digitChar _ (by omega),
    decimalFrom_digitChar _ (by omega), decimalFrom_digitChar _ (by omega),
    decimalFrom_digitChar _ (by omega), decimalFrom_digitChar _ (by omega)]
  simp only [decimalFrom, Option.some.injEq]
  omega

theorem sprintf08d_digits (n : Nat) (h1 : 10000000 ≤ n) (h2 : n < 100000000) :
    (sprintf08d n).length = 8 ∧ ∀ b ∈ sprintf08d n, 48 ≤ b.val ∧ b.val ≤ 57 := by
  have k0 := digitChar_digit (n / 10000000) (by omega)
  have k1 := digitChar_digit (n / 1000000 % 10) (by omega)
  have k2 := digitChar_digit (n / 100000 % 10) (by omega)
  have k3 := digitChar_digit (n / 10000 % 10) (by omega)
  have k4 := digitChar_digit (n / 1000 % 10) (by omega)
  have k5 := digitChar_digit (n / 100 % 10) (by omega)
  have k6 := digitChar_digit (n / 10 % 10) (by omega)
  have k7 := digitChar_digit (n % 10) (by omega)
  rw [sprintf08d_eight n h1 h2]
  refine ⟨rfl, ?_⟩
  intro b hb
  simp only [List.mem_cons, List.mem_singleton, List.not_mem_nil, or_false] at hb
  rcases hb with rfl | rfl | rfl | rfl | rfl | rfl | rfl | rfl
  · exact ⟨k0.1, k0.2.1⟩
  · exact ⟨k1.1, k1.2.1⟩
  · exact ⟨k2.1, k2.2.1⟩
  · exact ⟨k3.1, k3.2.1⟩
  · exact ⟨k4.1, k4.2.1⟩
  · exact ⟨k5.1, k5.2.1⟩
  · exact ⟨k6.1, k6.2.1⟩
  · exact ⟨k7.1, k7.2.1⟩

/-- The dashed form of an 8-digit number is valid exactly when its digits are not too
simple. -/
theorem IsValidSetupCode_dashed (n : Nat) (h1 : 10000000 ≤ n) (h2 : n < 100000000) :
    IsValidSetupCode (dashed n) = (isTooSimple (sprintf08d n)).map (fun b => !b) := by
  have hp := PlainSetupCode_dashed n h1 h2
  have hd := sprintf08d_digits n h1 h2
  rw [IsValidSetupCode_of_digits (dashed n) (by rw [hp]; exact hd.1) (by rw [hp]; exact hd.2), hp]

/-! ## Proofs: the pairing URI -/

theorem shl64_two_27 : shl64 2 27 = ((2 ^ 28 : Nat) : Int) := by decide

/-- The closed form of the specification is the payload the code builds. -/
theorem packedPayload_natCast (c n : Int) :
    packedPayload c n
      = ((((c % 256).toNat * 2 ^ 4 + 2) * 2 ^ 27 + (n % 134217728).toNat : Nat) : Int) := by
  have ha : c % 256 = (((c % 256).toNat : Nat) : Int) := by omega
  have hb : n % 134217728 = (((n % 134217728).toNat : Nat) : Int) := by omega
  have ha' : (c % 256).toNat < 256 := by omega
  have hb' : (n % 134217728).toNat < 2 ^ 27 := by omega
  generalize (c % 256).toNat = a at ha ha'
  generalize (n % 134217728).toNat = b at hb hb'
  have e1 : shl64 (a : Int) 31 = ((a * 2 ^ 31 : Nat) : Int) := shl64_natCast a 31 (by omega)
  have e2 : or64 ((a * 2 ^ 31 : Nat) : Int) ((2 ^ 28 : Nat) : Int)
      = ((a * 2 ^ 31 + 2 ^ 28 : Nat) : Int) := by
    have h := or64_natCast (a * 2 ^ 31) (2 ^ 28) (by omega) (by decide)
    have h2 := Nat.mul_add_lt_is_or (show 2 ^ 28 < 2 ^ 31 by decide) a
    rw [Nat.mul_comm] at h2
    rw [← h2] at h
    exact h
  have e3 : or64 ((a * 2 ^ 31 + 2 ^ 28 : Nat) : Int) (b : Int)
      = (((a * 2 ^ 4 + 2) * 2 ^ 27 + b : Nat) : Int) := by
    have h := or64_natCast ((a * 2 ^ 4 + 2) * 2 ^ 27) b (by omega) (by omega)
    have h2 := Nat.mul_add_lt_is_or hb' (a * 2 ^ 4 + 2)
    rw [Nat.mul_comm] at h2
    rw [← h2] at h
    have h3 : a * 2 ^ 31 + 2 ^ 28 = (a * 2 ^ 4 + 2) * 2 ^ 27 := by omega
    rw [h3]
    exact h
  unfold packedPayload
  rw [and64_0xFF, and64_0x7FFFFFF, shl64_two_27, ha, hb, e1, e2, e3]

theorem buildPayload_eq_packedPayload (c n : Int) : buildPayload c n = packedPayload c n := by
  rw [buildPayload_natCast, packedPayload_natCast]

theorem scheme_length : (str "X-HM://").length = 7 := by decide

/-- The bytes 7 to 15 of the URI are the 9 base-36 digits of the payload. -/
theorem uri_digits (ds sid : GoString) (h : ds.length = 9) :
    ((str "X-HM://" ++ ds ++ sid).drop 7).take 9 = ds := by
  rw [List.append_assoc, List.drop_append_of_le_length (by rw [scheme_length])]
  have h7 : List.drop 7 (str "X-HM://") = [] := by decide
  rw [h7, List.nil_append, List.take_append_of_le_length (by omega), List.take_of_length_le (by omega)]

/-- The bytes from 16 on are the setup ID. -/
theorem uri_setupID (ds sid : GoString) (h : ds.length = 9) :
    (str "X-HM://" ++ ds ++ sid).drop 16 = sid := by
  have hl : (str "X-HM://" ++ ds).length = 16 := by
    rw [List.length_append, scheme_length, h]
  rw [← hl, List.drop_left]

theorem uri_length (ds sid : GoString) (h : ds.length = 9) :
    (str "X-HM://" ++ ds ++ sid).length = 16 + sid.length := by
  rw [List.length_append, List.length_append, scheme_length, h]

theorem uri_take (ds sid : GoString) :
    (str "X-HM://" ++ ds ++ sid).take 7 = str "X-HM://" := by
  rw [List.append_assoc, List.take_append_of_le_length (by rw [scheme_length]),
    List.take_of_length_le (by rw [scheme_length])]

/-! ## The pairing URI: payload, shape, round trip -/

theorem setupPayload_of_digits (c : Int) (pw : GoString) (num : Nat)
    (hnum : decimalValue (PlainSetupCode pw) = some num) (hfit : num < 2 ^ 63) :
    setupPayload c pw = packedPayload c num := by
  unfold setupPayload
  have h : Atoi (ReplaceAll pw 45 []) = ((num : Int), NumError.ok) := Atoi_digits _ num hnum hfit
  rw [h, buildPayload_eq_packedPayload]

theorem packedPayload_bounds (c n : Int) :
    0 ≤ packedPayload c n ∧ packedPayload c n < 2 ^ 39
      ∧ packedPayload c n = (c % 256) * 2 ^ 31 + 2 * 2 ^ 27 + n % 2 ^ 27 := by
  rw [packedPayload_natCast]
  have ha : c % 256 = (((c % 256).toNat : Nat) : Int) := by omega
  have hb : n % 134217728 = (((n % 134217728).toNat : Nat) : Int) := by omega
  have ha' : (c % 256).toNat < 256 := by omega
  have hb' : (n % 134217728).toNat < 2 ^ 27 := by omega
  have e : (2 : Int) ^ 27 = 134217728 := by norm_num
  rw [e, ha, hb]
  generalize (c % 256).toNat = a at ha'
  generalize (n % 134217728).toNat = b at hb'
  refine ⟨by omega, by omega, ?_⟩
  push_cast
  omega

/-- The URI of a payload below `36^9`, read back. -/
theorem GenHomeKitSetupURI_read (c : Int) (pw sid : GoString) :
    ∃ uri, GenHomeKitSetupURI c pw sid = some uri
      ∧ readBase36 ((uri.drop 7).take 9) = some (setupPayload c pw).toNat := by
  refine ⟨_, GenHomeKitSetupURI_eq c pw sid, ?_⟩
  rw [uri_digits _ _ (digits36_length 9 _)]
  apply readBase36_digits36
  have h := setupPayload_toNat_lt c pw
  have h36 : (2 : Nat) ^ 39 < 36 ^ 9 := by norm_num
  omega

set_option maxRecDepth 100000 in
/-- C1 (counterexample). The password `9223372036854775808` is a string of ASCII digits
whose decimal value is 2^63; `Atoi` saturates at 2^63 - 1, so the 9 characters of the URI
read as 2550136831 and not as the payload built from the decimal value, 2415919104. -/
theorem C1_counterexample_saturated_password :
    decimalValue (PlainSetupCode (str "9223372036854775808")) = some 9223372036854775808
    ∧ GenHomeKitSetupURI 1 (str "9223372036854775808") (str "HSPN")
        = some (str "X-HM://00166AA67HSPN")
    ∧ readBase36 (((str "X-HM://00166AA67HSPN").drop 7).take 9) = some 2550136831
    ∧ packedPayload 1 9223372036854775808 = 2415919104
    ∧ ¬ (∃ uri, GenHomeKitSetupURI 1 (str "9223372036854775808") (str "HSPN") = some uri
          ∧ readBase36 ((uri.drop 7).take 9)
              = some (packedPayload 1 9223372036854775808).toNat) := by
  have h1 : GenHomeKitSetupURI 1 (str "9223372036854775808") (str "HSPN")
      = some (str "X-HM://00166AA67HSPN") := by decide
  refine ⟨by decide, h1, by decide, by decide, ?_⟩
  rintro ⟨uri, hu, hr⟩
  rw [h1] at hu
  injection hu with hu
  subst hu
  revert hr
  decide

/-- C1 (amended). For every category, every setup ID and every password whose
dash-stripped form is a non-empty string of ASCII digits with decimal value `num` below
2^63, the call returns a URI whose bytes 7 to 15, read as a base-36 number over `0-9A-Z`,
most significant digit first, are the payload
`((category & 0xFF) << 31) | (2 << 27) | (num & 0x7FFFFFF)`: version 0 and reserved 0 on
top, the category in 8 bits, flags 2 in 4 bits and the low 27 bits of the password. The
payload is below `36^9`, so the 9 digits lose nothing. -/
theorem C1_payload_digits (category : Int) (password setupID : GoString) (num : Nat)
    (hnum : decimalValue (PlainSetupCode password) = some num) (hfit : num < 2 ^ 63) :
    ∃ uri, GenHomeKitSetupURI category password setupID = some uri
      ∧ readBase36 ((uri.drop 7).take 9) = some (packedPayload category num).toNat
      ∧ 0 ≤ packedPayload category num
      ∧ packedPayload category num
          = (category % 256) * 2 ^ 31 + 2 * 2 ^ 27 + (num : Int) % 2 ^ 27
      ∧ packedPayload category num < 36 ^ 9 := by
  obtain ⟨uri, hu, hr⟩ := GenHomeKitSetupURI_read category password setupID
  have hb := packedPayload_bounds category num
  rw [setupPayload_of_digits category password num hnum hfit] at hr
  refine ⟨uri, hu, hr, hb.1, hb.2.2, ?_⟩
  have h36 : (2 : Int) ^ 39 < 36 ^ 9 := by norm_num
  exact lt_trans hb.2.1 h36

/-- C1 (witness): category 5 and password `613-80-755`, of value 61380755. -/
theorem C1_payload_digits_witness :
    decimalValue (PlainSetupCode (str "613-80-755")) = some 61380755
    ∧ ∃ uri, GenHomeKitSetupURI 5 (str "613-80-755") (str "HSPN") = some uri
      ∧ readBase36 ((uri.drop 7).take 9) = some (packedPayload 5 (61380755 : Nat)).toNat
      ∧ 0 ≤ packedPayload 5 (61380755 : Nat)
      ∧ packedPayload 5 (61380755 : Nat)
          = (5 % 256) * 2 ^ 31 + 2 * 2 ^ 27 + ((61380755 : Nat) : Int) % 2 ^ 27
      ∧ packedPayload 5 (61380755 : Nat) < 36 ^ 9 :=
  ⟨by decide, C1_payload_digits 5 (str "613-80-755") (str "HSPN") 61380755 (by decide)
    (by decide)⟩

/-- A string of 8 ASCII digits is determined by its decimal value, which is at most
99,999,999. -/
theorem eight_digits_value (s : GoString) (hlen : s.length = 8)
    (hdig : ∀ b ∈ s, 48 ≤ b.val ∧ b.val ≤ 57) :
    ∃ v, decimalValue s = some v ∧ v ≤ 99999999
      ∧ s = [digitChar (v / 10000000 % 10), digitChar (v / 1000000 % 10),
             digitChar (v / 100000 % 10), digitChar (v / 10000 % 10),
             digitChar (v / 1000 % 10), digitChar (v / 100 % 10),
             digitChar (v / 10 % 10), digitChar (v % 10)] := by
  obtain ⟨b0, b1, b2, b3, b4, b5, b6, b7, rfl⟩ := eq_eight s hlen
  have k0 := digit_eq_digitChar b0 (hdig b0 (by simp))
  have k1 := digit_eq_digitChar b1 (hdig b1 (by simp))
  have k2 := digit_eq_digitChar b2 (hdig b2 (by simp))
  have k3 := digit_eq_digitChar b3 (hdig b3 (by simp))
  have k4 := digit_eq_digitChar b4 (hdig b4 (by simp))
  have k5 := digit_eq_digitChar b5 (hdig b5 (by simp))
  have k6 := digit_eq_digitChar b6 (hdig b6 (by simp))
  have k7 := digit_eq_digitChar b7 (hdig b7 (by simp))
  generalize b0.val - 48 = d0 at k0
  generalize b1.val - 48 = d1 at k1
  generalize b2.val - 48 = d2 at k2
  generalize b3.val - 48 = d3 at k3
  generalize b4.val - 48 = d4 at k4
  generalize b5.val - 48 = d5 at k5
  generalize b6.val - 48 = d6 at k6
  generalize b7.val - 48 = d7 at k7
  obtain ⟨rfl, h0⟩ := k0
  obtain ⟨rfl, h1⟩ := k1
  obtain ⟨rfl, h2⟩ := k2
  obtain ⟨rfl, h3⟩ := k3
  obtain ⟨rfl, h4⟩ := k4
  obtain ⟨rfl, h5⟩ := k5
  obtain ⟨rfl, h6⟩ := k6
  obtain ⟨rfl, h7⟩ := k7
  refine ⟨((((((d0 * 10 + d1) * 10 + d2) * 10 + d3) * 10 + d4) * 10 + d5) * 10 + d6) * 10 + d7,
    ?_, by omega, ?_⟩
  · unfold decimalValue
    simp only [reduceCtorEq, if_false]
    rw [decimalFrom_digitChar _ h0, decimalFrom_digitChar _ h1, decimalFrom_digitChar _ h2,
      decimalFrom_digitChar _ h3, decimalFrom_digitChar _ h4, decimalFrom_digitChar _ h5,
      decimalFrom_digitChar _ h6, decimalFrom_digitChar _ h7]
    simp only [decimalFrom, Option.some.injEq]
    omega
  · have e0 : (((((((d0 * 10 + d1) * 10 + d2) * 10 + d3) * 10 + d4) * 10 + d5) * 10 + d6) * 10
        + d7) / 10000000 % 10 = d0 := by omega
    have e1 : (((((((d0 * 10 + d1) * 10 + d2) * 10 + d3) * 10 + d4) * 10 + d5) * 10 + d6) * 10
        + d7) / 1000000 % 10 = d1 := by omega
    have e2 : (((((((d0 * 10 + d1) * 10 + d2) * 10 + d3) * 10 + d4) * 10 + d5) * 10 + d6) * 10
        + d7) / 100000 % 10 = d2 := by omega
    have e3 : (((((((d0 * 10 + d1) * 10 + d2) * 10 + d3) * 10 + d4) * 10 + d5) * 10 + d6) * 10
        + d7) / 10000 % 10 = d3 := by omega
    have e4 : (((((((d0 * 10 + d1) * 10 + d2) * 10 + d3) * 10 + d4) * 10 + d5) * 10 + d6) * 10
        + d7) / 1000 % 10 = d4 := by omega
    have e5 : (((((((d0 * 10 + d1) * 10 + d2) * 10 + d3) * 10 + d4) * 10 + d5) * 10 + d6) * 10
        + d7) / 100 % 10 = d5 := by omega
    have e6 : (((((((d0 * 10 + d1) * 10 + d2) * 10 + d3) * 10 + d4) * 10 + d5) * 10 + d6) * 10
        + d7) / 10 % 10 = d6 := by omega
    have e7 : (((((((d0 * 10 + d1) * 10 + d2) * 10 + d3) * 10 + d4) * 10 + d5) * 10 + d6) * 10
        + d7) % 10 = d7 := by omega
    rw [e0, e1, e2, e3, e4, e5, e6, e7]

/-- The fields read back from the URI of a call, for any arguments. -/
theorem decodeURI_GenHomeKitSetupURI (c : Int) (pw sid : GoString) (hsid : sid.length = 4) :
    ∃ uri, GenHomeKitSetupURI c pw sid = some uri
      ∧ decodeURI uri
          = some { version := (setupPayload c pw).toNat / 2 ^ 43 % 2 ^ 3,
                   reserved := (setupPayload c pw).toNat / 2 ^ 39 % 2 ^ 4,
                   category := (setupPayload c pw).toNat / 2 ^ 31 % 2 ^ 8,
                   flags := (setupPayload c pw).toNat / 2 ^ 27 % 2 ^ 4,
                   password := (setupPayload c pw).toNat % 2 ^ 27,
                   setupID := sid } := by
  obtain ⟨uri, hu, hr⟩ := GenHomeKitSetupURI_read c pw sid
  refine ⟨uri, hu, ?_⟩
  have huri : uri = str "X-HM://" ++ digits36 9 (setupPayload c pw).toNat ++ sid := by
    have h := GenHomeKitSetupURI_eq c pw sid
    rw [hu] at h
    exact Option.some.inj h
  have hl : uri.length - 4 = 16 := by
    rw [huri, uri_length _ _ (digits36_length 9 _), hsid]
  have hd : uri.drop 16 = sid := by
    rw [huri, uri_setupID _ _ (digits36_length 9 _)]
  unfold decodeURI
  rw [hr, hl, hd]

/-- Equal URIs come from equal payloads and equal setup IDs. -/
theorem GenHomeKitSetupURI_inj (c c' : Int) (pw pw' sid sid' : GoString)
    (h : GenHomeKitSetupURI c pw sid = GenHomeKitSetupURI c' pw' sid') :
    setupPayload c pw = setupPayload c' pw' ∧ sid = sid' := by
  obtain ⟨uri, hu, hr⟩ := GenHomeKitSetupURI_read c pw sid
  obtain ⟨uri', hu', hr'⟩ := GenHomeKitSetupURI_read c' pw' sid'
  have he : uri = uri' := by
    rw [hu, hu'] at h
    exact Option.some.inj h
  subst he
  constructor
  · rw [hr] at hr'
    have h1 := Option.some.inj hr'
    rw [setupPayload_natCast c pw, setupPayload_natCast c' pw', h1]
  · have e1 := GenHomeKitSetupURI_eq c pw sid
    have e2 := GenHomeKitSetupURI_eq c' pw' sid'
    rw [hu] at e1
    rw [hu'] at e2
    have d1 := uri_setupID (digits36 9 (setupPayload c pw).toNat) sid (digits36_length 9 _)
    have d2 := uri_setupID (digits36 9 (setupPayload c' pw').toNat) sid' (digits36_length 9 _)
    rw [← Option.some.inj e1] at d1
    rw [← Option.some.inj e2] at d2
    rw [← d1, ← d2]

set_option maxRecDepth 100000 in
/-- C2 (counterexample). `613-80-755` and `61380755` are distinct passwords of 8 ASCII
digits, with and without dashes, and with category 5 and setup ID `HSPN` they give the
same URI. -/
theorem C2_counterexample_dashes :
    str "613-80-755" ≠ str "61380755"
    ∧ PlainSetupCode (str "613-80-755") = str "61380755"
    ∧ PlainSetupCode (str "61380755") = str "61380755"
    ∧ GenHomeKitSetupURI 5 (str "613-80-755") (str "HSPN")
        = GenHomeKitSetupURI 5 (str "61380755") (str "HSPN") := by
  decide

/-- C2 (amended). For every category in 0..255, every password whose dash-stripped form is
8 ASCII digits and every setup ID of 4 bytes, the call returns a URI that decodes to
version 0, reserved 0, the same category, flags 2, the decimal value of the password
(at most 99,999,999, so untouched by the 27-bit mask) and the same setup ID. Hence two
valid inputs with the same URI have the same category, the same dash-stripped password
and the same setup ID; the dashes themselves are not encoded. -/
theorem C2_round_trip (category : Int) (password setupID : GoString)
    (hcat : 0 ≤ category ∧ category ≤ 255)
    (hlen : (PlainSetupCode password).length = 8)
    (hdig : ∀ b ∈ PlainSetupCode password, 48 ≤ b.val ∧ b.val ≤ 57)
    (hsid : setupID.length = 4) :
    ∃ uri num, GenHomeKitSetupURI category password setupID = some uri
      ∧ decimalValue (PlainSetupCode password) = some num
      ∧ num ≤ 99999999
      ∧ decodeURI uri
          = some { version := 0, reserved := 0, category := category.toNat, flags := 2,
                   password := num, setupID := setupID }
      ∧ ∀ (category' : Int) (password' setupID' : GoString),
          0 ≤ category' ∧ category' ≤ 255 →
          (PlainSetupCode password').length = 8 →
          (∀ b ∈ PlainSetupCode password', 48 ≤ b.val ∧ b.val ≤ 57) →
          setupID'.length = 4 →
          GenHomeKitSetupURI category' password' setupID' = some uri →
          category' = category ∧ PlainSetupCode password' = PlainSetupCode password
            ∧ setupID' = setupID := by
  obtain ⟨num, hnum, hle, hs⟩ := eight_digits_value _ hlen hdig
  obtain ⟨uri, hu, hdec⟩ := decodeURI_GenHomeKitSetupURI category password setupID hsid
  have hp := setupPayload_of_digits category password num hnum (by omega)
  have hb := packedPayload_bounds category (num : Int)
  have e27 : (2 : Int) ^ 27 = 134217728 := by norm_num
  have e31 : (2 : Int) ^ 31 = 2147483648 := by norm_num
  refine ⟨uri, num, hu, hnum, hle, ?_, ?_⟩
  · rw [hdec, hp]
    rw [e27, e31] at hb
    generalize packedPayload category (num : Int) = P at hb
    obtain ⟨hb0, -, hb2⟩ := hb
    have hP : P.toNat = category.toNat * 2147483648 + 268435456 + num := by omega
    rw [hP]
    congr 2 <;> omega
  · intro category' password' setupID' hcat' hlen' hdig' hsid' hu'
    obtain ⟨num', hnum', hle', hs'⟩ := eight_digits_value _ hlen' hdig'
    have hp' := setupPayload_of_digits category' password' num' hnum' (by omega)
    have hb' := packedPayload_bounds category' (num' : Int)
    have hinj := GenHomeKitSetupURI_inj category' category password' password setupID' setupID
      (by rw [hu, hu'])
    rw [hp, hp'] at hinj
    rw [e27, e31] at hb hb'
    have hP := hinj.1
    generalize packedPayload category (num : Int) = P at hb hP
    generalize packedPayload category' (num' : Int) = P' at hb' hP
    have hn : num' = num := by omega
    refine ⟨by omega, ?_, hinj.2⟩
    rw [hs, hs', hn]

set_option maxRecDepth 100000 in
/-- C2 (witness): category 5, password `613-80-755`, setup ID `HSPN`. -/
theorem C2_round_trip_witness :
    ∃ uri num, GenHomeKitSetupURI 5 (str "613-80-755") (str "HSPN") = some uri
      ∧ decimalValue (PlainSetupCode (str "613-80-755")) = some num
      ∧ num ≤ 99999999
      ∧ decodeURI uri
          = some { version := 0, reserved := 0, category := (5 : Int).toNat, flags := 2,
                   password := num, setupID := str "HSPN" }
      ∧ ∀ (category' : Int) (password' setupID' : GoString),
          0 ≤ category' ∧ category' ≤ 255 →
          (PlainSetupCode password').length = 8 →
          (∀ b ∈ PlainSetupCode password', 48 ≤ b.val ∧ b.val ≤ 57) →
          setupID'.length = 4 →
          GenHomeKitSetupURI category' password' setupID' = some uri →
          category' = 5 ∧ PlainSetupCode password' = PlainSetupCode (str "613-80-755")
            ∧ setupID' = str "HSPN" :=
  C2_round_trip 5 (str "613-80-755") (str "HSPN") (by decide) (by decide) (by decide)
    (by decide)

/-- C3. For every category, every password and every setup ID of exactly 4 bytes, the
call returns a string of length 20 that starts with `X-HM://`, has each of its bytes at
positions 7 to 15 in the alphabet `0123456789ABCDEFGHIJKLMNOPQRSTUVWXYZ`, and ends with
the setup ID verbatim. -/
theorem C3_uri_shape (category : Int) (password setupID : GoString)
    (hsid : setupID.length = 4) :
    ∃ uri, GenHomeKitSetupURI category password setupID = some uri
      ∧ uri.length = 20
      ∧ uri.take 7 = str "X-HM://"
      ∧ (∀ i, 7 ≤ i → i ≤ 15 → ∃ b, uri[i]? = some b ∧ b ∈ base36)
      ∧ uri.drop 16 = setupID := by
  refine ⟨_, GenHomeKitSetupURI_eq category password setupID, ?_, ?_, ?_, ?_⟩
  · rw [uri_length _ _ (digits36_length 9 _), hsid]
  · exact uri_take _ _
  · intro i h7 h15
    have hd := uri_digits (digits36 9 (setupPayload category password).toNat) setupID
      (digits36_length 9 _)
    generalize str "X-HM://" ++ digits36 9 (setupPayload category password).toNat ++ setupID
      = uri at hd
    have hi : uri[i]? = (digits36 9 (setupPayload category password).toNat)[i - 7]? := by
      rw [← hd, List.getElem?_take_of_lt (by omega), List.getElem?_drop]
      congr 1
      omega
    have hlt : i - 7 < (digits36 9 (setupPayload category password).toNat).length := by
      rw [digits36_length]; omega
    refine ⟨(digits36 9 (setupPayload category password).toNat)[i - 7], ?_, ?_⟩
    · rw [hi, List.getElem?_eq_getElem hlt]
    · exact digits36_mem 9 _ _ (List.getElem_mem _)
  · exact uri_setupID _ _ (digits36_length 9 _)

/-- C3 (witness): category 5, password `613-80-755`, setup ID `HSPN`. -/
theorem C3_uri_shape_witness :
    (str "HSPN").length = 4
    ∧ ∃ uri, GenHomeKitSetupURI 5 (str "613-80-755") (str "HSPN") = some uri
      ∧ uri.length = 20
      ∧ uri.take 7 = str "X-HM://"
      ∧ (∀ i, 7 ≤ i → i ≤ 15 → ∃ b, uri[i]? = some b ∧ b ∈ base36)
      ∧ uri.drop 16 = str "HSPN" :=
  ⟨by decide, C3_uri_shape 5 (str "613-80-755") (str "HSPN") (by decide)⟩

set_option maxRecDepth 100000 in
/-- C4. Golden vector: for category 5, password `613-80-755` and setup ID `HSPN` the
payload is `(5 << 31) | (2 << 27) | 61380755 = 11067234451`, its 9-digit base-36 rendering
is `0053158R7`, and the URI returned is `X-HM://0053158R7HSPN`. -/
theorem C4_golden_vector :
    or64 (or64 (shl64 5 31) (shl64 2 27)) 61380755 = 11067234451
    ∧ setupPayload 5 (str "613-80-755") = 11067234451
    ∧ encodeLoop 9 11067234451 (List.replicate 9 0) = some (str "0053158R7", 0)
    ∧ readBase36 (str "0053158R7") = some 11067234451
    ∧ GenHomeKitSetupURI 5 (str "613-80-755") (str "HSPN")
        = some (str "X-HM://0053158R7HSPN") := by
  decide

theorem setupPayload_mask (c : Int) (pw : GoString) :
    setupPayload (and64 c 0xFF) pw = setupPayload c pw := by
  unfold setupPayload
  rw [buildPayload_natCast, buildPayload_natCast, and64_0xFF]
  have h : (c % 256 % 256).toNat = (c % 256).toNat := by omega
  rw [h]

theorem GenHomeKitSetupURI_congr (c c' : Int) (pw pw' sid : GoString)
    (h : setupPayload c pw = setupPayload c' pw') :
    GenHomeKitSetupURI c pw sid = GenHomeKitSetupURI c' pw' sid := by
  rw [GenHomeKitSetupURI_eq, GenHomeKitSetupURI_eq, h]

theorem packedPayload_mod (c : Int) (n : Nat) :
    packedPayload c ((n % 2 ^ 27 : Nat) : Int) = packedPayload c (n : Int) := by
  rw [packedPayload_natCast, packedPayload_natCast]
  have h : (((n % 2 ^ 27 : Nat) : Int) % 134217728).toNat = ((n : Int) % 134217728).toNat := by
    omega
  rw [h]

set_option maxRecDepth 100000 in
/-- C5 (counterexample). The password `99999999999999999999` has the numeric value
10^20 - 1, whose low 27 bits are 51380223; `Atoi` saturates at 2^63 - 1, and the URI
differs from the URI of the password `51380223`. -/
theorem C5_counterexample_saturated_password :
    decimalValue (PlainSetupCode (str "99999999999999999999")) = some 99999999999999999999
    ∧ decimalValue (PlainSetupCode (str "51380223")) = some (99999999999999999999 % 2 ^ 27)
    ∧ GenHomeKitSetupURI 1 (str "99999999999999999999") (str "HSPN")
        = some (str "X-HM://00166AA67HSPN")
    ∧ GenHomeKitSetupURI 1 (str "51380223") (str "HSPN") = some (str "X-HM://0014SYSCFHSPN")
    ∧ GenHomeKitSetupURI 1 (str "99999999999999999999") (str "HSPN")
        ≠ GenHomeKitSetupURI 1 (str "51380223") (str "HSPN") := by
  decide

/-- C5 (amended). Masking semantics: for every category, password and setup ID the call
returns a URI, and the same one as for the category `category & 0xFF`; a password whose
dash-stripped form is a string of ASCII digits of value `n` below 2^63 gives the same URI
as a password of value `n & 0x7FFFFFF`. Such inputs are truncated, never rejected. -/
theorem C5_masking (category : Int) (password setupID : GoString) :
    GenHomeKitSetupURI category password setupID
        = GenHomeKitSetupURI (and64 category 0xFF) password setupID
    ∧ (∃ uri, GenHomeKitSetupURI category password setupID = some uri)
    ∧ ∀ (password' : GoString) (n : Nat),
        decimalValue (PlainSetupCode password) = some n → n < 2 ^ 63 →
        decimalValue (PlainSetupCode password') = some (n % 2 ^ 27) →
        GenHomeKitSetupURI category password setupID
          = GenHomeKitSetupURI category password' setupID := by
  refine ⟨?_, ⟨_, GenHomeKitSetupURI_eq category password setupID⟩, ?_⟩
  · exact GenHomeKitSetupURI_congr _ _ _ _ _ (setupPayload_mask category password).symm
  · intro password' n hn hfit hn'
    have hlt : n % 2 ^ 27 < 2 ^ 63 := by omega
    apply GenHomeKitSetupURI_congr
    rw [setupPayload_of_digits category password n hn hfit,
      setupPayload_of_digits category password' (n % 2 ^ 27) hn' hlt, packedPayload_mod]

set_option maxRecDepth 100000 in
/-- C5 (witness): category 300 gives the URI of category 44, and the password
`134217729`, of value 2^27 + 1, gives the URI of the password `1`. -/
theorem C5_masking_witness :
    and64 300 0xFF = 44
    ∧ GenHomeKitSetupURI 300 (str "134217729") (str "HSPN")
        = GenHomeKitSetupURI 44 (str "134217729") (str "HSPN")
    ∧ GenHomeKitSetupURI 300 (str "134217729") (str "HSPN")
        = GenHomeKitSetupURI 300 (str "1") (str "HSPN") :=
  ⟨by decide,
   (C5_masking 300 (str "134217729") (str "HSPN")).1,
   (C5_masking 300 (str "134217729") (str "HSPN")).2.2 (str "1") 134217729 (by decide)
     (by decide) (by decide)⟩

theorem payloadAt_natCast (p k : Nat) : payloadAt (p : Int) k = ((p / 36 ^ k : Nat) : Int) := by
  induction k with
  | zero => simp [payloadAt]
  | succ k ih =>
    have hdiv : Int.tdiv ((p / 36 ^ k : Nat) : Int) 36 = ((p / 36 ^ k / 36 : Nat) : Int) :=
      (Int.ofNat_tdiv (p / 36 ^ k) 36).symm
    rw [payloadAt, ih, hdiv, Nat.div_div_eq_div_mul, Nat.pow_succ]

/-- C6. The call never fails: for every category, negative or above 255 included, every
password, empty, non-numeric or overlong included, and every setup ID, the payload is not
negative, in every iteration of the encoding loop the index `payload % 36` lies in 0..35
and selects a byte of the alphabet, the 9 iterations run through, and a string is
returned. -/
theorem C6_never_fails (category : Int) (password setupID : GoString) :
    0 ≤ setupPayload category password
    ∧ (∀ k, 0 ≤ payloadAt (setupPayload category password) k
        ∧ 0 ≤ Int.tmod (payloadAt (setupPayload category password) k) 36
        ∧ Int.tmod (payloadAt (setupPayload category password) k) 36 < 36
        ∧ ∃ b, index base36 (Int.tmod (payloadAt (setupPayload category password) k) 36)
            = some b)
    ∧ (∃ out, encodeLoop 9 (setupPayload category password) (List.replicate 9 0)
        = some (out, payloadAt (setupPayload category password) 9))
    ∧ ∃ uri, GenHomeKitSetupURI category password setupID = some uri := by
  have hp := setupPayload_natCast category password
  refine ⟨by omega, ?_, ?_, ⟨_, GenHomeKitSetupURI_eq category password setupID⟩⟩
  · intro k
    have hmod : Int.tmod (((setupPayload category password).toNat / 36 ^ k : Nat) : Int) 36
        = (((setupPayload category password).toNat / 36 ^ k % 36 : Nat) : Int) :=
      (Int.ofNat_tmod _ 36).symm
    have hlt := Nat.mod_lt ((setupPayload category password).toNat / 36 ^ k)
      (show 0 < 36 by decide)
    have hidx := index_base36 ((setupPayload category password).toNat / 36 ^ k)
    rw [hp, payloadAt_natCast]
    refine ⟨Int.ofNat_zero_le _, ?_, ?_, ⟨_, hidx⟩⟩
    · rw [hmod]
      exact Int.ofNat_zero_le _
    · rw [hmod]
      exact_mod_cast hlt
  · have hlen : 9 ≤ (List.replicate 9 (0 : Byte)).length := by decide
    have h := encodeLoop_natCast 9 (setupPayload category password).toNat
      (List.replicate 9 0) hlen
    rw [hp, payloadAt_natCast]
    exact ⟨_, h⟩

/-! ## The setup code: validity, generator -/

/-- On 8 ASCII digits the rules of `isTooSimple`, which compare bytes, are the rules on
the digit values: no byte arithmetic wraps. -/
theorem isTooSimple_digits (d0 d1 d2 d3 d4 d5 d6 d7 : Nat)
    (h0 : d0 < 10) (h1 : d1 < 10) (h2 : d2 < 10) (h3 : d3 < 10)
    (h4 : d4 < 10) (h5 : d5 < 10) (h6 : d6 < 10) (h7 : d7 < 10) :
    isTooSimple [digitChar d0, digitChar d1, digitChar d2, digitChar d3,
                 digitChar d4, digitChar d5, digitChar d6, digitChar d7] = some false
    ↔ ¬ (d1 = d0 ∧ d2 = d0 ∧ d3 = d0 ∧ d4 = d0 ∧ d5 = d0 ∧ d6 = d0 ∧ d7 = d0)
      ∧ ¬ (d1 = d0 + 1 ∧ d2 = d1 + 1 ∧ d3 = d2 + 1 ∧ d4 = d3 + 1 ∧ d5 = d4 + 1
            ∧ d6 = d5 + 1 ∧ d7 = d6 + 1)
      ∧ ¬ (d1 + 1 = d0 ∧ d2 + 1 = d1 ∧ d3 + 1 = d2 ∧ d4 + 1 = d3 ∧ d5 + 1 = d4
            ∧ d6 + 1 = d5 ∧ d7 + 1 = d6)
      ∧ ¬ (d0 = d2 ∧ d1 = d3 ∧ d2 = d4 ∧ d3 = d5 ∧ d4 = d6 ∧ d5 = d7)
      ∧ ¬ ([digitChar d0, digitChar d1, digitChar d2, digitChar d3,
            digitChar d4, digitChar d5, digitChar d6, digitChar d7] = str "12345678"
          ∨ [digitChar d0, digitChar d1, digitChar d2, digitChar d3,
            digitChar d4, digitChar d5, digitChar d6, digitChar d7] = str "87654321"
          ∨ [digitChar d0, digitChar d1, digitChar d2, digitChar d3,
            digitChar d4, digitChar d5, digitChar d6, digitChar d7] = str "00000000"
          ∨ [digitChar d0, digitChar d1, digitChar d2, digitChar d3,
            digitChar d4, digitChar d5, digitChar d6, digitChar d7] = str "11111111") := by
  have s1 := (digitChar_rel d0 h0 d1 h1).1
  have s2 := (digitChar_rel d0 h0 d2 h2).1
  have s3 := (digitChar_rel d0 h0 d3 h3).1
  have s4 := (digitChar_rel d0 h0 d4 h4).1
  have s5 := (digitChar_rel d0 h0 d5 h5).1
  have s6 := (digitChar_rel d0 h0 d6 h6).1
  have s7 := (digitChar_rel d0 h0 d7 h7).1
  have a1 := (digitChar_rel d0 h0 d1 h1).2
  have a2 := (digitChar_rel d1 h1 d2 h2).2
  have a3 := (digitChar_rel d2 h2 d3 h3).2
  have a4 := (digitChar_rel d3 h3 d4 h4).2
  have a5 := (digitChar_rel d4 h4 d5 h5).2
  have a6 := (digitChar_rel d5 h5 d6 h6).2
  have a7 := (digitChar_rel d6 h6 d7 h7).2
  have r1 := (digitChar_rel d2 h2 d0 h0).1
  have r2 := (digitChar_rel d3 h3 d1 h1).1
  have r3 := (digitChar_rel d4 h4 d2 h2).1
  have r4 := (digitChar_rel d5 h5 d3 h3).1
  have r5 := (digitChar_rel d6 h6 d4 h4).1
  have r6 := (digitChar_rel d7 h7 d5 h5).1
  rw [isTooSimple_eight, Option.some.injEq, decide_eq_false_iff_not, not_or, not_or, not_or,
    not_or]
  rw [s1, s2, s3, s4, s5, s6, s7, a1.1, a2.1, a3.1, a4.1, a5.1, a6.1, a7.1,
    a1.2, a2.2, a3.2, a4.2, a5.2, a6.2, a7.2, r1, r2, r3, r4, r5, r6]

set_option maxRecDepth 100000 in
/-- C7. `IsValidSetupCode(code)` is true exactly when `code` with its dashes removed is 8
ASCII digits `d0..d7` and none of these holds: all 8 digits are identical; each digit is
the one before plus 1; each digit is the one before minus 1; `d0d1 = d2d3 = d4d5 = d6d7`;
the string is one of `12345678`, `87654321`, `00000000`, `11111111`. It is false on
`00000000`, `12345678`, `87654321` and `12121212`, and true on `61380755`. -/
theorem C7_IsValidSetupCode_iff (code : GoString) :
    (IsValidSetupCode code = some true ↔
      ∃ d0 d1 d2 d3 d4 d5 d6 d7 : Nat,
        (d0 < 10 ∧ d1 < 10 ∧ d2 < 10 ∧ d3 < 10 ∧ d4 < 10 ∧ d5 < 10 ∧ d6 < 10 ∧ d7 < 10)
        ∧ PlainSetupCode code
            = [digitChar d0, digitChar d1, digitChar d2, digitChar d3,
               digitChar d4, digitChar d5, digitChar d6, digitChar d7]
        ∧ ¬ (d1 = d0 ∧ d2 = d0 ∧ d3 = d0 ∧ d4 = d0 ∧ d5 = d0 ∧ d6 = d0 ∧ d7 = d0)
        ∧ ¬ (d1 = d0 + 1 ∧ d2 = d1 + 1 ∧ d3 = d2 + 1 ∧ d4 = d3 + 1 ∧ d5 = d4 + 1
              ∧ d6 = d5 + 1 ∧ d7 = d6 + 1)
        ∧ ¬ (d1 + 1 = d0 ∧ d2 + 1 = d1 ∧ d3 + 1 = d2 ∧ d4 + 1 = d3 ∧ d5 + 1 = d4
              ∧ d6 + 1 = d5 ∧ d7 + 1 = d6)
        ∧ ¬ (d0 = d2 ∧ d1 = d3 ∧ d2 = d4 ∧ d3 = d5 ∧ d4 = d6 ∧ d5 = d7)
        ∧ ¬ (PlainSetupCode code = str "12345678" ∨ PlainSetupCode code = str "87654321"
              ∨ PlainSetupCode code = str "00000000"
              ∨ PlainSetupCode code = str "11111111"))
    ∧ IsValidSetupCode (str "00000000") = some false
    ∧ IsValidSetupCode (str "12345678") = some false
    ∧ IsValidSetupCode (str "87654321") = some false
    ∧ IsValidSetupCode (str "12121212") = some false
    ∧ IsValidSetupCode (str "61380755") = some true := by
  refine ⟨?_, by decide, by decide, by decide, by decide, by decide⟩
  constructor
  · intro h
    by_cases h8 : (PlainSetupCode code).length = 8
    · by_cases hd : ∀ b ∈ PlainSetupCode code, 48 ≤ b.val ∧ b.val ≤ 57
      · rw [IsValidSetupCode_of_digits code h8 hd] at h
        obtain ⟨b0, b1, b2, b3, b4, b5, b6, b7, hraw⟩ := eq_eight _ h8
        rw [hraw] at hd
        have k0 := digit_eq_digitChar b0 (hd b0 (by simp))
        have k1 := digit_eq_digitChar b1 (hd b1 (by simp))
        have k2 := digit_eq_digitChar b2 (hd b2 (by simp))
        have k3 := digit_eq_digitChar b3 (hd b3 (by simp))
        have k4 := digit_eq_digitChar b4 (hd b4 (by simp))
        have k5 := digit_eq_digitChar b5 (hd b5 (by simp))
        have k6 := digit_eq_digitChar b6 (hd b6 (by simp))
        have k7 := digit_eq_digitChar b7 (hd b7 (by simp))
        have hraw' : PlainSetupCode code
            = [digitChar (b0.val - 48), digitChar (b1.val - 48), digitChar (b2.val - 48),
               digitChar (b3.val - 48), digitChar (b4.val - 48), digitChar (b5.val - 48),
               digitChar (b6.val - 48), digitChar (b7.val - 48)] := by
          rw [hraw, ← k0.1, ← k1.1, ← k2.1, ← k3.1, ← k4.1, ← k5.1, ← k6.1, ← k7.1]
        have hf : isTooSimple (PlainSetupCode code) = some false := by
          cases hts : isTooSimple (PlainSetupCode code) with
          | none => rw [hts] at h; simp at h
          | some b =>
            rw [hts] at h
            cases b with
            | true => simp at h
            | false => rfl
        have hr := hf
        rw [hraw'] at hr
        have hrules := (isTooSimple_digits _ _ _ _ _ _ _ _ k0.2 k1.2 k2.2 k3.2 k4.2 k5.2
          k6.2 k7.2).mp hr
        rw [← hraw'] at hrules
        exact ⟨_, _, _, _, _, _, _, _, ⟨k0.2, k1.2, k2.2, k3.2, k4.2, k5.2, k6.2, k7.2⟩,
          hraw', hrules⟩
      · rw [IsValidSetupCode_of_nondigit code hd] at h
        simp at h
    · rw [IsValidSetupCode_of_length code h8] at h
      simp at h
  · rintro ⟨d0, d1, d2, d3, d4, d5, d6, d7, ⟨h0, h1, h2, h3, h4, h5, h6, h7⟩, hraw, hrules⟩
    have h8 : (PlainSetupCode code).length = 8 := by rw [hraw]; rfl
    have hd : ∀ b ∈ PlainSetupCode code, 48 ≤ b.val ∧ b.val ≤ 57 := by
      rw [hraw]
      intro b hb
      simp only [List.mem_cons, List.mem_singleton, List.not_mem_nil, or_false] at hb
      rcases hb with rfl | rfl | rfl | rfl | rfl | rfl | rfl | rfl
      · exact ⟨(digitChar_digit d0 h0).1, (digitChar_digit d0 h0).2.1⟩
      · exact ⟨(digitChar_digit d1 h1).1, (digitChar_digit d1 h1).2.1⟩
      · exact ⟨(digitChar_digit d2 h2).1, (digitChar_digit d2 h2).2.1⟩
      · exact ⟨(digitChar_digit d3 h3).1, (digitChar_digit d3 h3).2.1⟩
      · exact ⟨(digitChar_digit d4 h4).1, (digitChar_digit d4 h4).2.1⟩
      · exact ⟨(digitChar_digit d5 h5).1, (digitChar_digit d5 h5).2.1⟩
      · exact ⟨(digitChar_digit d6 h6).1, (digitChar_digit d6 h6).2.1⟩
      · exact ⟨(digitChar_digit d7 h7).1, (digitChar_digit d7 h7).2.1⟩
    rw [hraw] at hrules
    have hf := (isTooSimple_digits d0 d1 d2 d3 d4 d5 d6 d7 h0 h1 h2 h3 h4 h5 h6 h7).mpr hrules
    rw [IsValidSetupCode_of_digits code h8 hd, hraw, hf]
    rfl

theorem dashed_slices (n : Nat) (h1 : 10000000 ≤ n) (h2 : n < 100000000) :
    ∃ a b c, slice (sprintf08d n) 0 3 = some a ∧ slice (sprintf08d n) 3 5 = some b
      ∧ slice (sprintf08d n) 5 8 = some c ∧ dashed n = a ++ str "-" ++ b ++ str "-" ++ c := by
  rw [sprintf08d_eight n h1 h2]
  have hs := slices_eight (digitChar (n / 10000000)) (digitChar (n / 1000000 % 10))
    (digitChar (n / 100000 % 10)) (digitChar (n / 10000 % 10)) (digitChar (n / 1000 % 10))
    (digitChar (n / 100 % 10)) (digitChar (n / 10 % 10)) (digitChar (n % 10))
  exact ⟨_, _, _, hs.1, hs.2.1, hs.2.2, rfl⟩

theorem dashed_shape (n : Nat) (h1 : 10000000 ≤ n) (h2 : n < 100000000) :
    ∀ i b, (dashed n)[i]? = some b →
      (if i = 3 ∨ i = 6 then b = 45 else 48 ≤ b.val ∧ b.val ≤ 57) := by
  have k0 := digitChar_digit (n / 10000000) (by omega)
  have k1 := digitChar_digit (n / 1000000 % 10) (by omega)
  have k2 := digitChar_digit (n / 100000 % 10) (by omega)
  have k3 := digitChar_digit (n / 10000 % 10) (by omega)
  have k4 := digitChar_digit (n / 1000 % 10) (by omega)
  have k5 := digitChar_digit (n / 100 % 10) (by omega)
  have k6 := digitChar_digit (n / 10 % 10) (by omega)
  have k7 := digitChar_digit (n % 10) (by omega)
  intro i b hb
  unfold dashed at hb
  rcases i with _ | _ | _ | _ | _ | _ | _ | _ | _ | _ | i <;>
    simp only [List.getElem?_cons_succ, List.getElem?_cons_zero, List.getElem?_nil,
      Option.some.injEq, reduceCtorEq] at hb <;> subst hb
  · exact ⟨k0.1, k0.2.1⟩
  · exact ⟨k1.1, k1.2.1⟩
  · exact ⟨k2.1, k2.2.1⟩
  · rfl
  · exact ⟨k3.1, k3.2.1⟩
  · exact ⟨k4.1, k4.2.1⟩
  · rfl
  · exact ⟨k5.1, k5.2.1⟩
  · exact ⟨k6.1, k6.2.1⟩
  · exact ⟨k7.1, k7.2.1⟩

/-- C8. With the random source an arbitrary list of draws in 0..89,999,999, the generator
never panics, returns as soon as a draw is not too simple, and whenever it returns `r`,
`isTooSimple(PlainSetupCode(r))` is false, `IsValidSetupCode(r)` is true, and `r` is the
dashed form of the first draw, plus 10,000,000, that is not too simple. -/
theorem C8_generator_never_trivial (draws : List Nat) (hdraws : ∀ d ∈ draws, d < 90000000) :
    GenerateHomeKitSetupCode draws ≠ Outcome.panic
    ∧ ((∃ d ∈ draws, isTooSimple (sprintf08d (d + 10000000)) = some false) →
        ∃ r, GenerateHomeKitSetupCode draws = Outcome.value r)
    ∧ ∀ r, GenerateHomeKitSetupCode draws = Outcome.value r →
        isTooSimple (PlainSetupCode r) = some false
        ∧ IsValidSetupCode r = some true
        ∧ ∃ pre d post, draws = pre ++ d :: post
            ∧ (∀ x ∈ pre, isTooSimple (sprintf08d (x + 10000000)) = some true)
            ∧ isTooSimple (sprintf08d (d + 10000000)) = some false
            ∧ r = dashed (d + 10000000) := by
  rcases GenerateHomeKitSetupCode_cases draws hdraws with
    ⟨hp, hall⟩ | ⟨pre, d, post, he, hpre, hd, hv⟩
  · refine ⟨by rw [hp]; simp, ?_, ?_⟩
    · rintro ⟨d, hmem, hf⟩
      rw [hall d hmem] at hf
      simp at hf
    · intro r hr
      rw [hp] at hr
      simp at hr
  · have hlt : d < 90000000 := hdraws d (by rw [he]; simp)
    refine ⟨by rw [hv]; simp, fun _ => ⟨_, hv⟩, ?_⟩
    intro r hr
    rw [hv] at hr
    have hr' : dashed (d + 10000000) = r := Outcome.value.inj hr
    subst hr'
    refine ⟨?_, ?_, pre, d, post, he, hpre, hd, rfl⟩
    · rw [PlainSetupCode_dashed _ (by omega) (by omega), hd]
    · rw [IsValidSetupCode_dashed _ (by omega) (by omega), hd]
      rfl

set_option maxRecDepth 100000 in
/-- C8 (witness): the draws 1111111 and 2345678 give `11111111` and `12345678`, both too
simple; the draw 3 gives `100-00-003`. -/
theorem C8_generator_never_trivial_witness :
    (∀ d ∈ [1111111, 2345678, 3, 51380755], d < 90000000)
    ∧ GenerateHomeKitSetupCode [1111111, 2345678, 3, 51380755]
        = Outcome.value (str "100-00-003")
    ∧ isTooSimple (PlainSetupCode (str "100-00-003")) = some false
    ∧ IsValidSetupCode (str "100-00-003") = some true :=
  ⟨by decide, by decide,
   ((C8_generator_never_trivial [1111111, 2345678, 3, 51380755] (by decide)).2.2
      (str "100-00-003") (by decide)).1,
   ((C8_generator_never_trivial [1111111, 2345678, 3, 51380755] (by decide)).2.2
      (str "100-00-003") (by decide)).2.1⟩

/-- C9. Format invariant: every value returned by the generator is 10 bytes of the form 3
digits, `-`, 2 digits, `-`, 3 digits; with the dashes removed it is the 8-digit decimal
representation of an integer `n` in [10000000, 99999999], with a non-zero leading digit;
and `PlainSetupCode` gives back the raw string that was sliced at `[0:3]`, `[3:5]` and
`[5:8]`. -/
theorem C9_format_invariant (draws : List Nat) (hdraws : ∀ d ∈ draws, d < 90000000)
    (r : GoString) (hr : GenerateHomeKitSetupCode draws = Outcome.value r) :
    ∃ n, 10000000 ≤ n ∧ n ≤ 99999999
      ∧ r.length = 10
      ∧ (∀ i b, r[i]? = some b → (if i = 3 ∨ i = 6 then b = 45 else 48 ≤ b.val ∧ b.val ≤ 57))
      ∧ PlainSetupCode r = sprintf08d n
      ∧ (PlainSetupCode r).length = 8
      ∧ decimalValue (PlainSetupCode r) = some n
      ∧ (PlainSetupCode r).head? = some (digitChar (n / 10000000))
      ∧ 1 ≤ n / 10000000 ∧ n / 10000000 ≤ 9
      ∧ ∃ a b c, slice (PlainSetupCode r) 0 3 = some a ∧ slice (PlainSetupCode r) 3 5 = some b
          ∧ slice (PlainSetupCode r) 5 8 = some c
          ∧ r = a ++ str "-" ++ b ++ str "-" ++ c := by
  rcases GenerateHomeKitSetupCode_cases draws hdraws with
    ⟨hp, hall⟩ | ⟨pre, d, post, he, hpre, hd, hv⟩
  · rw [hp] at hr
    simp at hr
  · have hlt : d < 90000000 := hdraws d (by rw [he]; simp)
    rw [hv] at hr
    have hr' : dashed (d + 10000000) = r := Outcome.value.inj hr
    subst hr'
    have h1 : 10000000 ≤ d + 10000000 := by omega
    have h2 : d + 10000000 < 100000000 := by omega
    have hplain := PlainSetupCode_dashed _ h1 h2
    refine ⟨d + 10000000, h1, by omega, rfl, dashed_shape _ h1 h2, hplain, ?_, ?_, ?_,
      by omega, by omega, ?_⟩
    · rw [hplain]; exact (sprintf08d_digits _ h1 h2).1
    · rw [hplain]; exact decimalValue_sprintf08d _ h1 h2
    · rw [hplain, sprintf08d_eight _ h1 h2]; rfl
    · rw [hplain]; exact dashed_slices _ h1 h2

set_option maxRecDepth 100000 in
/-- C9 (witness): the draws 1111111, 2345678, 3 return `100-00-003`. -/
theorem C9_format_invariant_witness :
    (∀ d ∈ [1111111, 2345678, 3], d < 90000000)
    ∧ GenerateHomeKitSetupCode [1111111, 2345678, 3] = Outcome.value (str "100-00-003")
    ∧ ∃ n, 10000000 ≤ n ∧ n ≤ 99999999
      ∧ (str "100-00-003").length = 10
      ∧ (∀ i b, (str "100-00-003")[i]? = some b →
          (if i = 3 ∨ i = 6 then b = 45 else 48 ≤ b.val ∧ b.val ≤ 57))
      ∧ PlainSetupCode (str "100-00-003") = sprintf08d n
      ∧ (PlainSetupCode (str "100-00-003")).length = 8
      ∧ decimalValue (PlainSetupCode (str "100-00-003")) = some n
      ∧ (PlainSetupCode (str "100-00-003")).head? = some (digitChar (n / 10000000))
      ∧ 1 ≤ n / 10000000 ∧ n / 10000000 ≤ 9
      ∧ ∃ a b c, slice (PlainSetupCode (str "100-00-003")) 0 3 = some a
          ∧ slice (PlainSetupCode (str "100-00-003")) 3 5 = some b
          ∧ slice (PlainSetupCode (str "100-00-003")) 5 8 = some c
          ∧ str "100-00-003" = a ++ str "-" ++ b ++ str "-" ++ c :=
  ⟨by decide, by decide,
   C9_format_invariant [1111111, 2345678, 3] (by decide) (str "100-00-003") (by decide)⟩

/-- C10. `IsValidSetupCode` is total: on every string it returns a value and no index is
out of range, `isTooSimple` being reached only with a dash-stripped string of length 8,
on which it returns; it returns false whenever the dash-stripped string is not exactly 8
ASCII digits. On its own `isTooSimple` does panic on a short string. -/
theorem C10_IsValidSetupCode_total (code : GoString) :
    (∃ b, IsValidSetupCode code = some b)
    ∧ ((PlainSetupCode code).length ≠ 8 → IsValidSetupCode code = some false)
    ∧ ((PlainSetupCode code).length = 8 → ∃ b, isTooSimple (PlainSetupCode code) = some b)
    ∧ (¬ ((PlainSetupCode code).length = 8
          ∧ ∀ b ∈ PlainSetupCode code, 48 ≤ b.val ∧ b.val ≤ 57) →
        IsValidSetupCode code = some false)
    ∧ isTooSimple [] = none := by
  refine ⟨IsValidSetupCode_isSome code, IsValidSetupCode_of_length code,
    isTooSimple_isSome _, ?_, by decide⟩
  intro h
  by_cases h8 : (PlainSetupCode code).length = 8
  · exact IsValidSetupCode_of_nondigit code (fun hd => h ⟨h8, hd⟩)
  · exact IsValidSetupCode_of_length code h8

set_option maxRecDepth 100000 in
/-- C10 (witness): the empty string, a string of 7 digits, a string of 8 bytes with a
letter and a string with a 2-byte rune are all answered with false. -/
theorem C10_IsValidSetupCode_total_witness :
    IsValidSetupCode [] = some false
    ∧ IsValidSetupCode (str "1234567") = some false
    ∧ IsValidSetupCode (str "1234567a") = some false
    ∧ IsValidSetupCode [0xC3, 0xA9, 49, 50, 51, 52, 53, 54] = some false :=
  ⟨(C10_IsValidSetupCode_total []).2.1 (by decide),
   (C10_IsValidSetupCode_total (str "1234567")).2.1 (by decide),
   (C10_IsValidSetupCode_total (str "1234567a")).2.2.2.1 (by decide),
   (C10_IsValidSetupCode_total [0xC3, 0xA9, 49, 50, 51, 52, 53, 54]).2.2.2.1 (by decide)⟩

/-! ## PlainSetupCode -/

theorem ReplaceAll_nil_eq_filter (s : GoString) (old : Byte) :
    ReplaceAll s old [] = s.filter (fun b => decide (b ≠ old)) := by
  induction s with
  | nil => rfl
  | cons b rest ih =>
    unfold ReplaceAll at ih ⊢
    rw [List.flatMap_cons, ih]
    by_cases h : b = old
    · simp [h]
    · simp [h]

/-- C11. `PlainSetupCode(code)` is `code` with every `-` removed and all other bytes kept
in order: the result contains no `-`, it is `code` itself when `code` contains no `-`, and
`PlainSetupCode` is idempotent; `PlainSetupCode("613-80-755")` is `61380755`. -/
theorem C11_PlainSetupCode (code : GoString) :
    PlainSetupCode code = code.filter (fun b => decide (b ≠ 45))
    ∧ (45 : Byte) ∉ PlainSetupCode code
    ∧ ((45 : Byte) ∉ code → PlainSetupCode code = code)
    ∧ PlainSetupCode (PlainSetupCode code) = PlainSetupCode code
    ∧ PlainSetupCode (str "613-80-755") = str "61380755" := by
  have hf : ∀ s : GoString, PlainSetupCode s = s.filter (fun b => decide (b ≠ 45)) :=
    fun s => ReplaceAll_nil_eq_filter s 45
  refine ⟨hf code, ?_, ?_, ?_, by decide⟩
  · rw [hf]
    simp [List.mem_filter]
  · intro h
    rw [hf, List.filter_eq_self]
    intro b hb
    have : b ≠ 45 := fun e => h (e ▸ hb)
    simpa using this
  · rw [hf (PlainSetupCode code), hf code, List.filter_filter]
    simp

/-- C11 (witness): `61380755` contains no `-` and is left as it is. -/
theorem C11_PlainSetupCode_witness :
    (45 : Byte) ∉ str "61380755" ∧ PlainSetupCode (str "61380755") = str "61380755" :=
  ⟨by decide, (C11_PlainSetupCode (str "61380755")).2.2.1 (by decide)⟩

/-! ## The validation layer: passwords -/

/-- The parts of `Split` contain no separator, and joined with it they give the string
back. -/
theorem Split_spec (s : GoString) (sep : Byte) :
    ∃ p ps, Split s sep = p :: ps ∧ sep ∉ p ∧ (∀ q ∈ ps, sep ∉ q)
      ∧ s = p ++ ps.flatMap (fun q => sep :: q) := by
  induction s with
  | nil => exact ⟨[], [], rfl, by simp, by simp, rfl⟩
  | cons b rest ih =>
    obtain ⟨p, ps, hs, hp, hps, he⟩ := ih
    by_cases hb : b = sep
    · refine ⟨[], p :: ps, ?_, by simp, ?_, ?_⟩
      · rw [Split, if_pos hb, hs]
      · intro q hq
        rcases List.mem_cons.mp hq with rfl | hq
        · exact hp
        · exact hps q hq
      · rw [List.flatMap_cons, List.nil_append, List.cons_append, hb, ← he]
    · refine ⟨b :: p, ps, ?_, ?_, hps, ?_⟩
      · rw [Split, if_neg hb, hs]
      · intro hm
        rcases List.mem_cons.mp hm with h | h
        · exact hb h.symm
        · exact hp h
      · rw [List.cons_append, ← he]

theorem Split_three (s p0 p1 p2 : GoString) (sep : Byte) (h : Split s sep = [p0, p1, p2]) :
    s = p0 ++ sep :: (p1 ++ sep :: p2) ∧ sep ∉ p0 ∧ sep ∉ p1 ∧ sep ∉ p2 := by
  obtain ⟨p, ps, hs, hp, hps, he⟩ := Split_spec s sep
  rw [h] at hs
  injection hs with h0 h12
  subst h0
  subst h12
  refine ⟨?_, hp, hps p1 (by simp), hps p2 (by simp)⟩
  rw [he]
  simp

set_option maxRecDepth 100000 in
theorem digit_of_sub_le (c : Byte) (h : ¬ ((c - 48 : Byte) > 9)) : 48 ≤ c.val ∧ c.val ≤ 57 := by
  revert c
  decide

/-- The digit loop of `Atoi` only runs through on ASCII digits. -/
theorem atoiFastLoop_some (s : GoString) (acc n : Int) (h : atoiFastLoop s acc = some n) :
    ∀ b ∈ s, 48 ≤ b.val ∧ b.val ≤ 57 := by
  induction s generalizing acc with
  | nil => simp
  | cons c rest ih =>
    unfold atoiFastLoop at h
    simp only [] at h
    split at h
    · exact absurd h (by simp)
    · rename_i hc
      intro b hb
      rcases List.mem_cons.mp hb with rfl | hb
      · exact digit_of_sub_le _ hc
      · exact ih _ h b hb

/-- A string of 1 to 18 bytes without sign that `Atoi` parses without error is made of
ASCII digits. -/
theorem Atoi_ok_unsigned (p : GoString) (hlen : 0 < p.length ∧ p.length < 19)
    (hplus : (43 : Byte) ∉ p) (hminus : (45 : Byte) ∉ p) (hok : (Atoi p).2 = NumError.ok) :
    ∀ b ∈ p, 48 ≤ b.val ∧ b.val ≤ 57 := by
  have h45 : ¬ (p.head? = some 45) := fun h => hminus (List.mem_of_mem_head? h)
  have h43 : ¬ (p.head? = some 43) := fun h => hplus (List.mem_of_mem_head? h)
  unfold Atoi at hok
  rw [if_pos hlen] at hok
  unfold atoiFast at hok
  simp only [h45, h43, or_self, if_false] at hok
  split at hok
  · exact absurd hok (by simp)
  · split at hok
    · exact absurd hok (by simp)
    · rename_i n hn
      exact atoiFastLoop_some p 0 n hn

/-- What `validatePassword` accepts: the trimmed password is three parts of 3, 2 and 3
bytes, joined by two dashes, each parsed by `Atoi` without error. -/
theorem validatePassword_accepts (pwd : GoString) (h : validatePassword pwd = none) :
    ∃ p0 p1 p2, TrimSpace pwd = p0 ++ 45 :: (p1 ++ 45 :: p2)
      ∧ p0.length = 3 ∧ p1.length = 2 ∧ p2.length = 3
      ∧ (45 : Byte) ∉ p0 ∧ (45 : Byte) ∉ p1 ∧ (45 : Byte) ∉ p2
      ∧ (Atoi p0).2 = NumError.ok ∧ (Atoi p1).2 = NumError.ok ∧ (Atoi p2).2 = NumError.ok := by
  unfold validatePassword at h
  simp only [] at h
  split at h
  · exact absurd h (by simp)
  · split at h
    · exact absurd h (by simp)
    · split at h
      · rename_i p0 p1 p2 hsplit
        split at h
        · exact absurd h (by simp)
        · rename_i hl
          have hs := Split_three _ p0 p1 p2 45 hsplit
          have hl' : p0.length = 3 ∧ p1.length = 2 ∧ p2.length = 3 := by
            refine ⟨?_, ?_, ?_⟩ <;> by_contra hc <;> exact hl (by simp [hc])
          rw [hsplit] at h
          simp only [checkParts] at h
          by_cases h0 : (Atoi p0).2 = NumError.ok
          · by_cases h1 : (Atoi p1).2 = NumError.ok
            · by_cases h2 : (Atoi p2).2 = NumError.ok
              · exact ⟨p0, p1, p2, hs.1, hl'.1, hl'.2.1, hl'.2.2, hs.2.1, hs.2.2.1, hs.2.2.2,
                  h0, h1, h2⟩
              · simp [h0, h1, h2] at h
            · simp [h0, h1] at h
          · simp [h0] at h
      · exact absurd h (by simp)

theorem decimalFrom_isSome (s : GoString) (acc : Nat) (h : ∀ b ∈ s, 48 ≤ b.val ∧ b.val ≤ 57) :
    ∃ v, decimalFrom s acc = some v := by
  induction s generalizing acc with
  | nil => exact ⟨acc, rfl⟩
  | cons c rest ih =>
    have hc := h c (List.mem_cons_self _ _)
    rw [decimalFrom, if_pos hc]
    exact ih _ (fun b hb => h b (List.mem_cons_of_mem _ hb))

/-- `Atoi` parses a string of 1 to 18 ASCII digits without error. -/
theorem Atoi_ok_of_digits (p : GoString) (hlen : 0 < p.length ∧ p.length < 19)
    (h : ∀ b ∈ p, 48 ≤ b.val ∧ b.val ≤ 57) : (Atoi p).2 = NumError.ok := by
  obtain ⟨v, hv⟩ := decimalFrom_isSome p 0 h
  have hloop := atoiFastLoop_digits p 0 v hv
  simp only [Nat.cast_zero] at hloop
  have h45 : ¬ (p.head? = some 45) := by
    intro hh
    have := h 45 (List.mem_of_mem_head? hh)
    exact absurd this (by decide)
  have h43 : ¬ (p.head? = some 43) := by
    intro hh
    have := h 43 (List.mem_of_mem_head? hh)
    exact absurd this (by decide)
  have hl : ¬ (p.length < 1) := by omega
  unfold Atoi
  rw [if_pos hlen]
  unfold atoiFast
  simp only [h45, h43, or_self, if_false, hl, hloop]

theorem three_bytes (p : GoString) (h : p.length = 3) : ∃ a b c, p = [a, b, c] := by
  rcases p with _ | ⟨a, _ | ⟨b, _ | ⟨c, _ | ⟨d, l⟩⟩⟩⟩ <;>
    simp only [List.length_cons, List.length_nil] at h <;> try omega
  exact ⟨a, b, c, rfl⟩

theorem two_bytes (p : GoString) (h : p.length = 2) : ∃ a b, p = [a, b] := by
  rcases p with _ | ⟨a, _ | ⟨b, _ | ⟨c, l⟩⟩⟩ <;>
    simp only [List.length_cons, List.length_nil] at h <;> try omega
  exact ⟨a, b, rfl⟩

/-- An accepted password without `+` is, once trimmed, of the form `XXX-XX-XXX`, digits
only. -/
theorem validatePassword_format (pwd : GoString) (h : validatePassword pwd = none)
    (hplus : (43 : Byte) ∉ TrimSpace pwd) :
    ∃ b0 b1 b2 b3 b4 b5 b6 b7 : Byte,
      TrimSpace pwd = [b0, b1, b2, 45, b3, b4, 45, b5, b6, b7]
      ∧ ∀ b ∈ [b0, b1, b2, b3, b4, b5, b6, b7], 48 ≤ b.val ∧ b.val ≤ 57 := by
  obtain ⟨p0, p1, p2, ht, l0, l1, l2, m0, m1, m2, a0, a1, a2⟩ := validatePassword_accepts pwd h
  rw [ht] at hplus
  have q0 : (43 : Byte) ∉ p0 := fun hm => hplus (by simp [hm])
  have q1 : (43 : Byte) ∉ p1 := fun hm => hplus (by simp [hm])
  have q2 : (43 : Byte) ∉ p2 := fun hm => hplus (by simp [hm])
  have d0 := Atoi_ok_unsigned p0 (by omega) q0 m0 a0
  have d1 := Atoi_ok_unsigned p1 (by omega) q1 m1 a1
  have d2 := Atoi_ok_unsigned p2 (by omega) q2 m2 a2
  obtain ⟨b0, b1, b2, rfl⟩ := three_bytes p0 l0
  obtain ⟨b3, b4, rfl⟩ := two_bytes p1 l1
  obtain ⟨b5, b6, b7, rfl⟩ := three_bytes p2 l2
  refine ⟨b0, b1, b2, b3, b4, b5, b6, b7, by rw [ht]; rfl, ?_⟩
  intro b hb
  simp only [List.mem_cons, List.mem_singleton, List.not_mem_nil, or_false] at hb
  rcases hb with rfl | rfl | rfl | rfl | rfl | rfl | rfl | rfl
  · exact d0 _ (by simp)
  · exact d0 _ (by simp)
  · exact d0 _ (by simp)
  · exact d1 _ (by simp)
  · exact d1 _ (by simp)
  · exact d2 _ (by simp)
  · exact d2 _ (by simp)
  · exact d2 _ (by simp)

/-- A password that is, once trimmed, of the form `XXX-XX-XXX`, digits only, is
accepted. -/
theorem validatePassword_of_format (pwd : GoString) (b0 b1 b2 b3 b4 b5 b6 b7 : Byte)
    (ht : TrimSpace pwd = [b0, b1, b2, 45, b3, b4, 45, b5, b6, b7])
    (hd : ∀ b ∈ [b0, b1, b2, b3, b4, b5, b6, b7], 48 ≤ b.val ∧ b.val ≤ 57) :
    validatePassword pwd = none := by
  have ne : ∀ b ∈ [b0, b1, b2, b3, b4, b5, b6, b7], b ≠ (45 : Byte) := by
    intro b hb e
    have := hd b hb
    rw [e] at this
    exact absurd this (by decide)
  have n0 := ne b0 (by simp)
  have n1 := ne b1 (by simp)
  have n2 := ne b2 (by simp)
  have n3 := ne b3 (by simp)
  have n4 := ne b4 (by simp)
  have n5 := ne b5 (by simp)
  have n6 := ne b6 (by simp)
  have n7 := ne b7 (by simp)
  have hsplit : Split [b0, b1, b2, 45, b3, b4, 45, b5, b6, b7] 45
      = [[b0, b1, b2], [b3, b4], [b5, b6, b7]] := by
    simp [Split, n0, n1, n2, n3, n4, n5, n6, n7]
  have a0 : (Atoi [b0, b1, b2]).2 = NumError.ok :=
    Atoi_ok_of_digits _ (by simp) (fun b hb => hd b (by
      simp only [List.mem_cons, List.mem_singleton, List.not_mem_nil, or_false] at hb ⊢
      rcases hb with h | h | h <;> simp [h]))
  have a1 : (Atoi [b3, b4]).2 = NumError.ok :=
    Atoi_ok_of_digits _ (by simp) (fun b hb => hd b (by
      simp only [List.mem_cons, List.mem_singleton, List.not_mem_nil, or_false] at hb ⊢
      rcases hb with h | h <;> simp [h]))
  have a2 : (Atoi [b5, b6, b7]).2 = NumError.ok :=
    Atoi_ok_of_digits _ (by simp) (fun b hb => hd b (by
      simp only [List.mem_cons, List.mem_singleton, List.not_mem_nil, or_false] at hb ⊢
      rcases hb with h | h | h <;> simp [h]))
  unfold validatePassword
  simp only [ht, hsplit]
  simp [checkParts, a0, a1, a2]

set_option maxRecDepth 100000 in
/-- C12 (the code at the failing input). `validatePassword` returns no error on
`+12-34-567`, which is 10 bytes, trimmed, and starts with `+`, no digit: `Atoi` takes the
sign of the part `+12`. The same holds for a sign in the second or third part. -/
theorem C12_validatePassword_accepts_sign :
    TrimSpace (str "+12-34-567") = str "+12-34-567"
    ∧ (str "+12-34-567").length = 10
    ∧ Split (str "+12-34-567") 45 = [str "+12", str "34", str "567"]
    ∧ Atoi (str "+12") = (12, NumError.ok)
    ∧ validatePassword (str "+12-34-567") = none
    ∧ validatePassword (str "123-+4-567") = none
    ∧ validatePassword (str "123-45-+67") = none
    ∧ wasmValidatePassword (str "+12-34-567") = none := by
  decide

/-! ## The validation layer and the setup password -/

theorem validateInputs_password (U : Unicode) (category : Int)
    (password setupID mac output : GoString)
    (h : validateInputs U category password setupID mac output = none) :
    validatePassword password = none := by
  unfold validateInputs at h
  cases hp : validatePassword password with
  | none => rfl
  | some e =>
    rw [hp] at h
    split_ifs at h

theorem PlainSetupCode_password (b0 b1 b2 b3 b4 b5 b6 b7 : Byte)
    (hd : ∀ b ∈ [b0, b1, b2, b3, b4, b5, b6, b7], 48 ≤ b.val ∧ b.val ≤ 57) :
    PlainSetupCode [b0, b1, b2, 45, b3, b4, 45, b5, b6, b7]
      = [b0, b1, b2, b3, b4, b5, b6, b7] := by
  have ne : ∀ b ∈ [b0, b1, b2, b3, b4, b5, b6, b7], b ≠ (45 : Byte) := by
    intro b hb e
    have := hd b hb
    rw [e] at this
    exact absurd this (by decide)
  have n0 := ne b0 (by simp)
  have n1 := ne b1 (by simp)
  have n2 := ne b2 (by simp)
  have n3 := ne b3 (by simp)
  have n4 := ne b4 (by simp)
  have n5 := ne b5 (by simp)
  have n6 := ne b6 (by simp)
  have n7 := ne b7 (by simp)
  simp [PlainSetupCode, ReplaceAll, n0, n1, n2, n3, n4, n5, n6, n7]

set_option maxRecDepth 100000 in
/-- C13 (counterexample). The password `111-11-111` passes `validatePassword` and, with a
valid category, setup ID, MAC address and output path, `validateInputs`; its eight digits
are identical, `isTooSimple` is true of them and `IsValidSetupCode` is false. -/
theorem C13_counterexample_trivial_password :
    validatePassword (str "111-11-111") = none
    ∧ validateInputs ⟨id, id⟩ 5 (str "111-11-111") (str "HSPN") (str "30AEA40506A0")
        (str "out.png") = none
    ∧ PlainSetupCode (str "111-11-111") = str "11111111"
    ∧ isTooSimple (str "11111111") = some true
    ∧ IsValidSetupCode (str "111-11-111") = some false := by
  decide

/-- C13 (amended). A password without `+` that `validatePassword` accepts, and so every
such password that `validateInputs` accepts, has, once trimmed and with its dashes
stripped, exactly 8 bytes, all ASCII digits. The validation layer does not apply the
too-simple rule: `IsValidSetupCode` of the trimmed password is the negation of
`isTooSimple` of the 8 digits, and is true exactly when `isTooSimple` is false. -/
theorem C13_accepted_password (pwd : GoString) (h : validatePassword pwd = none)
    (hplus : (43 : Byte) ∉ TrimSpace pwd) :
    (PlainSetupCode (TrimSpace pwd)).length = 8
    ∧ (∀ b ∈ PlainSetupCode (TrimSpace pwd), 48 ≤ b.val ∧ b.val ≤ 57)
    ∧ IsValidSetupCode (TrimSpace pwd)
        = (isTooSimple (PlainSetupCode (TrimSpace pwd))).map (fun b => !b)
    ∧ (IsValidSetupCode (TrimSpace pwd) = some true
        ↔ isTooSimple (PlainSetupCode (TrimSpace pwd)) = some false)
    ∧ (∀ (U : Unicode) (category : Int) (setupID mac output : GoString),
        validateInputs U category pwd setupID mac output = none →
          validatePassword pwd = none) := by
  obtain ⟨b0, b1, b2, b3, b4, b5, b6, b7, ht, hd⟩ := validatePassword_format pwd h hplus
  have hp := PlainSetupCode_password b0 b1 b2 b3 b4 b5 b6 b7 hd
  rw [← ht] at hp
  have h8 : (PlainSetupCode (TrimSpace pwd)).length = 8 := by rw [hp]; rfl
  have hdig : ∀ b ∈ PlainSetupCode (TrimSpace pwd), 48 ≤ b.val ∧ b.val ≤ 57 := by
    rw [hp]; exact hd
  have hv := IsValidSetupCode_of_digits (TrimSpace pwd) h8 hdig
  refine ⟨h8, hdig, hv, ?_, fun U category setupID mac output hi =>
    validateInputs_password U category pwd setupID mac output hi⟩
  rw [hv]
  obtain ⟨t, ht⟩ := isTooSimple_isSome _ h8
  rw [ht]
  cases t <;> simp

set_option maxRecDepth 100000 in
/-- C13 (witness): `482-91-573` is accepted and valid, its digits are not too simple. -/
theorem C13_accepted_password_witness :
    validatePassword (str "482-91-573") = none
    ∧ (43 : Byte) ∉ TrimSpace (str "482-91-573")
    ∧ IsValidSetupCode (TrimSpace (str "482-91-573")) = some true :=
  ⟨by decide, by decide,
    (C13_accepted_password (str "482-91-573") (by decide) (by decide)).2.2.2.1.mpr (by decide)⟩

/-! ## validateSetupID -/

/-- The rune loop of `validateSetupID` and `validateMAC` finds no bad rune exactly when
every byte is accepted, for a condition that accepts ASCII only. -/
theorem firstBadRune_none_iff (ok : Nat → Bool) (hok : ∀ r, 0x80 ≤ r → ok r = false)
    (k : Nat) (s : GoString) (i : Nat) (h : s.length ≤ k) :
    firstBadRune ok k s i = none ↔ ∀ b ∈ s, ok b.val = true := by
  induction k generalizing s i with
  | zero =>
    have hs : s = [] := List.length_eq_zero.mp (by omega)
    subst hs
    simp [firstBadRune]
  | succ k ih =>
    cases s with
    | nil => simp [firstBadRune]
    | cons s0 rest =>
      have hrest : rest.length ≤ k := by
        simp only [List.length_cons] at h
        omega
      unfold firstBadRune
      simp only [reduceCtorEq, if_false]
      by_cases hs0 : s0.val < 0x80
      · rw [decodeRune_ascii s0 rest hs0]
        simp only [List.drop_succ_cons, List.drop_zero, List.mem_cons, forall_eq_or_imp]
        cases hd : ok s0.val with
        | false => simp
        | true =>
          simp only [Bool.not_true, Bool.false_eq_true, if_false, true_and]
          exact ih rest (i + 1) hrest
      · have hn := decodeRune_nonascii s0 rest (by omega)
        generalize decodeRune (s0 :: rest) = p at hn
        obtain ⟨ch, w⟩ := p
        simp only at hn
        have hc : ok ch = false := hok ch hn.1
        simp only [hc, Bool.not_false, if_true]
        constructor
        · intro hf
          exact absurd hf (by simp)
        · intro hf
          have := hf s0 (List.mem_cons_self _ _)
          rw [hok s0.val (by omega)] at this
          exact absurd this (by simp)

theorem runesLoop_ascii (k : Nat) (s : GoString) (h : s.length ≤ k)
    (ha : ∀ b ∈ s, b.val < 0x80) : runesLoop k s = s.map (fun b => b.val) := by
  induction k generalizing s with
  | zero =>
    have hs : s = [] := List.length_eq_zero.mp (by omega)
    subst hs
    rfl
  | succ k ih =>
    cases s with
    | nil => simp [runesLoop]
    | cons s0 rest =>
      have hrest : rest.length ≤ k := by
        simp only [List.length_cons] at h
        omega
      unfold runesLoop
      simp only [reduceCtorEq, if_false]
      rw [decodeRune_ascii s0 rest (ha s0 (List.mem_cons_self _ _))]
      simp only [List.drop_succ_cons, List.drop_zero, List.map_cons]
      rw [ih rest hrest (fun b hb => ha b (List.mem_cons_of_mem _ hb))]

/-- A string all of whose runes are below `0x80` is a string of ASCII bytes. -/
theorem runesLoop_lt (k : Nat) (s : GoString) (h : s.length ≤ k)
    (hr : ∀ r ∈ runesLoop k s, r < 0x80) : ∀ b ∈ s, b.val < 0x80 := by
  induction k generalizing s with
  | zero =>
    have hs : s = [] := List.length_eq_zero.mp (by omega)
    subst hs
    simp
  | succ k ih =>
    cases s with
    | nil => simp
    | cons s0 rest =>
      have hrest : rest.length ≤ k := by
        simp only [List.length_cons] at h
        omega
      unfold runesLoop at hr
      simp only [reduceCtorEq, if_false] at hr
      by_cases hs0 : s0.val < 0x80
      · rw [decodeRune_ascii s0 rest hs0] at hr
        simp only [List.drop_succ_cons, List.drop_zero, List.mem_cons, forall_eq_or_imp] at hr ⊢
        exact ⟨hs0, ih rest hrest hr.2⟩
      · have hn := decodeRune_nonascii s0 rest (by omega)
        generalize decodeRune (s0 :: rest) = p at hn hr
        obtain ⟨ch, w⟩ := p
        simp only [List.mem_cons, forall_eq_or_imp] at hn hr
        omega

/-- The characters of a string are 4 characters of `0-9A-Z` exactly when its bytes are 4
bytes of `0-9A-Z`. -/
theorem runes_setupID (t : GoString) :
    ((runes t).length = 4 ∧ ∀ r ∈ runes t, (48 ≤ r ∧ r ≤ 57) ∨ (65 ≤ r ∧ r ≤ 90))
    ↔ (t.length = 4 ∧ ∀ b ∈ t, (48 ≤ b.val ∧ b.val ≤ 57) ∨ (65 ≤ b.val ∧ b.val ≤ 90)) := by
  constructor
  · rintro ⟨hl, hr⟩
    have ha : ∀ b ∈ t, b.val < 0x80 :=
      runesLoop_lt t.length t (Nat.le_refl _) (fun r hm => by
        have := hr r hm
        omega)
    have he : runes t = t.map (fun b => b.val) := runesLoop_ascii _ t (Nat.le_refl _) ha
    rw [he] at hl hr
    refine ⟨by simpa using hl, fun b hb => hr b.val (List.mem_map.mpr ⟨b, hb, rfl⟩)⟩
  · rintro ⟨hl, hb⟩
    have ha : ∀ b ∈ t, b.val < 0x80 := fun b hm => by
      have := hb b hm
      omega
    have he : runes t = t.map (fun b => b.val) := runesLoop_ascii _ t (Nat.le_refl _) ha
    rw [he]
    refine ⟨by simpa using hl, fun r hm => ?_⟩
    obtain ⟨b, hbm, rfl⟩ := List.mem_map.mp hm
    exact hb b hbm

theorem validateSetupID_iff (U : Unicode) (id : GoString) :
    validateSetupID U id = none
    ↔ ((TrimSpace (ToUpper U id)).length = 4
        ∧ ∀ b ∈ TrimSpace (ToUpper U id),
            (48 ≤ b.val ∧ b.val ≤ 57) ∨ (65 ≤ b.val ∧ b.val ≤ 90)) := by
  have hok : ∀ r, 0x80 ≤ r → setupIDRune r = false := by
    intro r hr
    unfold setupIDRune
    simp only [decide_eq_false_iff_not]
    omega
  have hf := firstBadRune_none_iff setupIDRune hok (TrimSpace (ToUpper U id)).length
    (TrimSpace (ToUpper U id)) 0 (Nat.le_refl _)
  unfold validateSetupID
  simp only []
  by_cases hl : (TrimSpace (ToUpper U id)).length = 4
  · simp only [hl, ne_eq, not_true_eq_false, if_false, true_and]
    rw [hl] at hf
    cases hb : firstBadRune setupIDRune 4 (TrimSpace (ToUpper U id)) 0 with
    | none =>
      simp only [true_iff]
      intro b hm
      have := hf.mp hb b hm
      simpa [setupIDRune] using this
    | some i =>
      simp only [reduceCtorEq, false_iff]
      intro hall
      have : firstBadRune setupIDRune 4 (TrimSpace (ToUpper U id)) 0 = none :=
        hf.mpr (fun b hm => by simpa [setupIDRune] using hall b hm)
      rw [hb] at this
      exact absurd this (by simp)
  · simp [hl]

theorem four_bytes (p : GoString) (h : p.length = 4) : ∃ a b c d, p = [a, b, c, d] := by
  rcases p with _ | ⟨a, _ | ⟨b, _ | ⟨c, _ | ⟨d, _ | ⟨e, l⟩⟩⟩⟩⟩ <;>
    simp only [List.length_cons, List.length_nil] at h <;> try omega
  exact ⟨a, b, c, d, rfl⟩

set_option maxRecDepth 100000 in
theorem setupID_byte (b : Byte) (h : (48 ≤ b.val ∧ b.val ≤ 57) ∨ (65 ≤ b.val ∧ b.val ≤ 90)) :
    b.val < 0x80 ∧ ¬ (97 ≤ b.val ∧ b.val ≤ 122) ∧ ¬ (0x80 ≤ b.val) ∧ asciiSpace b = false := by
  refine ⟨by omega, by omega, by omega, ?_⟩
  revert h
  revert b
  decide

/-- Upper-casing and trimming leave 4 bytes of `0-9A-Z` as they are. -/
theorem TrimSpace_ToUpper_setupID (U : Unicode) (id : GoString) (hl : id.length = 4)
    (hb : ∀ b ∈ id, (48 ≤ b.val ∧ b.val ≤ 57) ∨ (65 ≤ b.val ∧ b.val ≤ 90)) :
    TrimSpace (ToUpper U id) = id := by
  obtain ⟨a, b, c, d, rfl⟩ := four_bytes id hl
  obtain ⟨a1, a2, a3, a4⟩ := setupID_byte a (hb a (by simp))
  obtain ⟨b1, b2, b3, b4⟩ := setupID_byte b (hb b (by simp))
  obtain ⟨c1, c2, c3, c4⟩ := setupID_byte c (hb c (by simp))
  obtain ⟨d1, d2, d3, d4⟩ := setupID_byte d (hb d (by simp))
  have hu : ToUpper U [a, b, c, d] = [a, b, c, d] := by
    simp [ToUpper, a1, b1, c1, d1, a2, b2, c2, d2]
  rw [hu]
  simp [TrimSpace, trimSpaceStop, a3, a4, d3, d4]

/-- C14. `validateSetupID(id)` returns no error if and only if `id`, upper-cased and
trimmed, has exactly 4 characters, each in `0-9` or `A-Z` (equivalently 4 bytes, each in
`0-9` or `A-Z`); a setup ID that upper-casing and trimming leave as it is is accepted
exactly when it is 4 characters of `0-9A-Z`, and every string of 4 characters of `0-9A-Z`
is left as it is. -/
theorem C14_validateSetupID (U : Unicode) (id : GoString) :
    (validateSetupID U id = none
      ↔ ((runes (TrimSpace (ToUpper U id))).length = 4
          ∧ ∀ r ∈ runes (TrimSpace (ToUpper U id)), (48 ≤ r ∧ r ≤ 57) ∨ (65 ≤ r ∧ r ≤ 90)))
    ∧ (validateSetupID U id = none
      ↔ ((TrimSpace (ToUpper U id)).length = 4
          ∧ ∀ b ∈ TrimSpace (ToUpper U id),
              (48 ≤ b.val ∧ b.val ≤ 57) ∨ (65 ≤ b.val ∧ b.val ≤ 90)))
    ∧ (TrimSpace (ToUpper U id) = id →
        (validateSetupID U id = none
          ↔ ((runes id).length = 4
              ∧ ∀ r ∈ runes id, (48 ≤ r ∧ r ≤ 57) ∨ (65 ≤ r ∧ r ≤ 90))))
    ∧ (((runes id).length = 4 ∧ ∀ r ∈ runes id, (48 ≤ r ∧ r ≤ 57) ∨ (65 ≤ r ∧ r ≤ 90)) →
        TrimSpace (ToUpper U id) = id ∧ validateSetupID U id = none) := by
  have hv := validateSetupID_iff U id
  refine ⟨hv.trans (runes_setupID _).symm, hv, ?_, ?_⟩
  · intro hfix
    have h2 := hv.trans (runes_setupID _).symm
    rw [hfix] at h2
    exact h2
  · intro hr
    have hb := (runes_setupID id).mp hr
    have hfix := TrimSpace_ToUpper_setupID U id hb.1 hb.2
    refine ⟨hfix, hv.mpr ?_⟩
    rw [hfix]
    exact hb

set_option maxRecDepth 100000 in
/-- C14 (witness): `HSPN` is trimmed and upper-cased, and is accepted. -/
theorem C14_validateSetupID_witness :
    TrimSpace (ToUpper ⟨id, id⟩ (str "HSPN")) = str "HSPN"
    ∧ validateSetupID ⟨id, id⟩ (str "HSPN") = none
    ∧ validateSetupID ⟨id, id⟩ (str " hspn ") = none
    ∧ validateSetupID ⟨id, id⟩ (str "HS-N") = some (ValidationError.setupIDCharacter 3) :=
  ⟨by decide,
    ((C14_validateSetupID ⟨id, id⟩ (str "HSPN")).2.2.1 (by decide)).mpr (by decide),
    by decide, by decide⟩

/-! ## The category check -/

theorem lookup_isSome_iff (l : List (Int × String)) (c : Int) :
    (l.lookup c).isSome = true ↔ c ∈ l.map Prod.fst := by
  induction l with
  | nil => simp
  | cons e rest ih =>
    obtain ⟨k, v⟩ := e
    rw [List.lookup_cons, List.map_cons, List.mem_cons]
    by_cases h : c = k
    · subst h
      simp
    · have hb : (c == k) = false := by simpa using h
      rw [hb]
      simp only [h, false_or]
      exact ih

theorem CategoryReference_keys (c : Int) :
    c ∈ CategoryReference.map Prod.fst ↔ (1 ≤ c ∧ c ≤ 32 ∧ c ≠ 25) := by
  simp only [CategoryReference, List.map_cons, List.map_nil, List.mem_cons, List.mem_singleton,
    List.not_mem_nil, or_false]
  omega

theorem categoryExists_iff (c : Int) : categoryExists c = true ↔ (1 ≤ c ∧ c ≤ 32 ∧ c ≠ 25) := by
  unfold categoryExists
  rw [lookup_isSome_iff, CategoryReference_keys]

theorem checkCategory_iff (c : Int) : checkCategory c = none ↔ (1 ≤ c ∧ c ≤ 32 ∧ c ≠ 25) := by
  unfold checkCategory
  by_cases h1 : c < 1
  · simp only [h1, if_true, reduceCtorEq, false_iff]
    omega
  · by_cases he : categoryExists c = true
    · have := (categoryExists_iff c).mp he
      simp [h1, he, this]
    · have hn := (categoryExists_iff c).not.mp he
      simp only [Bool.not_eq_true] at he
      simp only [h1, he, if_false, Bool.not_false, if_true, reduceCtorEq, false_iff]
      exact hn

/-- C15. The category check of `validateInputs` and `runCode` accepts a category if and
only if it is a key of `CategoryReference`; the keys are exactly the integers 1..32
except 25; an accepted category is left as it is by `& 0xFF`. In `validateInputs` a
rejected category is the error returned, and an accepted category plays no further
part. -/
theorem C15_category_check (c : Int) :
    (checkCategory c = none ↔ c ∈ CategoryReference.map Prod.fst)
    ∧ (c ∈ CategoryReference.map Prod.fst ↔ (1 ≤ c ∧ c ≤ 32 ∧ c ≠ 25))
    ∧ (categoryExists c = true ↔ c ∈ CategoryReference.map Prod.fst)
    ∧ (checkCategory c = none → and64 c 0xFF = c)
    ∧ (∀ (U : Unicode) (pw sid mac out : GoString) (e : ValidationError),
        checkCategory c = some e → validateInputs U c pw sid mac out = some e)
    ∧ (∀ (U : Unicode) (pw sid mac out : GoString),
        checkCategory c = none →
          validateInputs U c pw sid mac out = validateInputs U 1 pw sid mac out) := by
  refine ⟨(checkCategory_iff c).trans (CategoryReference_keys c).symm,
    CategoryReference_keys c, lookup_isSome_iff _ c, ?_, ?_, ?_⟩
  · intro h
    have hc := (checkCategory_iff c).mp h
    rw [and64_0xFF]
    omega
  · intro U pw sid mac out e h
    unfold checkCategory at h
    unfold validateInputs
    split_ifs at h ⊢
    · exact h
    · exact h
  · intro U pw sid mac out h
    have hc := (checkCategory_iff c).mp h
    have h1 : ¬ c < 1 := by omega
    have he : categoryExists c = true := (categoryExists_iff c).mpr hc
    have he1 : categoryExists 1 = true := by decide
    unfold validateInputs
    simp only [h1, he, he1, if_false, Bool.not_true, Bool.false_eq_true]
    rfl

/-- C15 (witness): category 5 is accepted and fits in 8 bits. -/
theorem C15_category_check_witness :
    checkCategory 5 = none ∧ and64 5 0xFF = 5 ∧ checkCategory 25 ≠ none
    ∧ checkCategory 33 ≠ none ∧ checkCategory 0 ≠ none :=
  ⟨by decide, (C15_category_check 5).2.2.2.1 (by decide), by decide, by decide, by decide⟩

/-! ## GenerateDeviceCode -/

set_option maxRecDepth 100000 in
/-- C16 (the code at the failing input). For category 17, a key of `CategoryReference`,
and the draws 0, 1, 2, 2, 3, 4, 5, `GenerateDeviceCode` returns `AB17C2DE/F`: the category
takes two digits and the code has 10 characters; for category 3 and the same draws it
returns the documented `AB3C2DE/F`. -/
theorem C16_GenerateDeviceCode_two_digits :
    categoryExists 17 = true
    ∧ GenerateDeviceCode 17 0 1 2 2 3 4 5 = str "AB17C2DE/F"
    ∧ (GenerateDeviceCode 17 0 1 2 2 3 4 5).length = 10
    ∧ GenerateDeviceCode 3 0 1 2 2 3 4 5 = str "AB3C2DE/F" := by
  decide

/-! ## The deny-list of isTooSimple -/

set_option maxRecDepth 100000 in
/-- C18. The deny-list of `isTooSimple` is redundant: on every string, of 8 bytes or not,
`isTooSimple` returns what the variant without the final `switch` returns; `00000000` and
`11111111` are rejected by the all-identical rule, `12345678` by the ascending rule and
`87654321` by the descending rule. -/
theorem C18_deny_list_redundant :
    (∀ raw : GoString, isTooSimple raw = isTooSimpleNoDenyList raw)
    ∧ allSameLoop (str "00000000") 7 1 = some true
    ∧ allSameLoop (str "11111111") 7 1 = some true
    ∧ seqLoop (str "12345678") 7 1 (true, true) = some (true, false)
    ∧ seqLoop (str "87654321") 7 1 (true, true) = some (false, true)
    ∧ isTooSimpleNoDenyList (str "12345678") = some true
    ∧ isTooSimpleNoDenyList (str "87654321") = some true
    ∧ isTooSimpleNoDenyList (str "00000000") = some true
    ∧ isTooSimpleNoDenyList (str "11111111") = some true := by
  refine ⟨?_, by decide, by decide, by decide, by decide, by decide, by decide, by decide,
    by decide⟩
  intro raw
  by_cases hL : raw = str "12345678" ∨ raw = str "87654321" ∨ raw = str "00000000"
      ∨ raw = str "11111111"
  · rcases hL with h | h | h | h <;> subst h <;> decide
  · unfold isTooSimple isTooSimpleNoDenyList
    simp only [hL, if_false]

/-! ## The validators of the WASM front end -/

/-- C19. The validators of the WASM front end are those of the command line tool: the
three functions return the same error or none on every string, so one rejects exactly
when the other does; the WASM `validateInputs` accepts exactly when the category check
and the three validators of the command line tool accept, and it returns what the
`validateInputs` of the command line tool returns for an output path that passes. -/
theorem C19_wasm_validators (U : Unicode) (category : Int) (password setupID mac : GoString) :
    wasmValidatePassword password = validatePassword password
    ∧ wasmValidateSetupID U setupID = validateSetupID U setupID
    ∧ wasmValidateMAC U mac = validateMAC U mac
    ∧ ((wasmValidatePassword password).isSome ↔ (validatePassword password).isSome)
    ∧ ((wasmValidateSetupID U setupID).isSome ↔ (validateSetupID U setupID).isSome)
    ∧ ((wasmValidateMAC U mac).isSome ↔ (validateMAC U mac).isSome)
    ∧ (wasmValidateInputs U category password setupID mac = none
        ↔ (checkCategory category = none ∧ validatePassword password = none
            ∧ validateSetupID U setupID = none ∧ validateMAC U mac = none))
    ∧ wasmValidateInputs U category password setupID mac
        = validateInputs U category password setupID mac (str "out.png") := by
  have hp : wasmValidatePassword password = validatePassword password := rfl
  have hs : wasmValidateSetupID U setupID = validateSetupID U setupID := rfl
  have hm : wasmValidateMAC U mac = validateMAC U mac := rfl
  have ho : (str "out.png" = ([] : GoString)) = False := by
    simp only [eq_iff_iff, iff_false]
    decide
  have hx : HasSuffix (ToLower U (str "out.png")) (str ".png") = true := by
    have hl : ToLower U (str "out.png") = str "out.png" := by
      unfold ToLower
      rw [if_pos (by decide)]
      decide
    rw [hl]
    decide
  refine ⟨hp, hs, hm, by rw [hp], by rw [hs], by rw [hm], ?_, ?_⟩
  · unfold wasmValidateInputs checkCategory
    rw [hp, hs, hm]
    by_cases h1 : category < 1
    · simp [h1]
    · by_cases he : categoryExists category = true
      · simp only [h1, he, if_false, Bool.not_true, Bool.false_eq_true, true_and]
        cases validatePassword password <;> cases validateSetupID U setupID <;>
          cases validateMAC U mac <;> simp
      · simp only [Bool.not_eq_true] at he
        simp [h1, he]
  · unfold wasmValidateInputs validateInputs
    rw [hp, hs, hm]
    simp only [ho, hx, if_false, Bool.not_true, Bool.false_eq_true]

/-- The length of a device code: 9 bytes for the categories 1..9, 10 bytes for the
categories 10..32. -/
theorem GenerateDeviceCode_length (c : Int) (l1 l2 l3 d l4 l5 l6 : Nat)
    (hc : 1 ≤ c ∧ c ≤ 32) (h1 : l1 < 26) (h2 : l2 < 26) (h3 : l3 < 26) (hd : d < 10)
    (h4 : l4 < 26) (h5 : l5 < 26) (h6 : l6 < 26) :
    (GenerateDeviceCode c l1 l2 l3 d l4 l5 l6).length = if c ≤ 9 then 9 else 10 := by
  have hr : ∀ l, l < 26 → (randLetter l).length = 1 := by decide
  have hdig : ∀ d : Nat, d < 10 → (sprintfD (d : Int)).length = 1 := by decide
  have hcat : (sprintfD c).length = if c ≤ 9 then 1 else 2 := by
    obtain ⟨ha, hb⟩ := hc
    interval_cases c <;> decide
  have hs : (str "/").length = 1 := by decide
  unfold GenerateDeviceCode
  simp only [List.length_append, hr l1 h1, hr l2 h2, hr l3 h3, hr l4 h4, hr l5 h5, hr l6 h6,
    hdig d hd, hcat, hs]
  split_ifs <;> rfl

/-! ## The extent of the triviality filter -/

theorem abab_mem (a b : Nat) (ha : a < 10) (hb : b < 10) : abab a b ∈ ababCodes := by
  unfold ababCodes
  rw [List.mem_flatMap]
  exact ⟨a, List.mem_range.mpr ha, List.mem_map.mpr ⟨b, List.mem_range.mpr hb, rfl⟩⟩

theorem mem_ababCodes (raw : GoString) (h : raw ∈ ababCodes) :
    ∃ a b, a < 10 ∧ b < 10 ∧ raw = abab a b := by
  unfold ababCodes at h
  rw [List.mem_flatMap] at h
  obtain ⟨a, ha, h⟩ := h
  obtain ⟨b, hb, h⟩ := List.mem_map.mp h
  exact ⟨a, b, List.mem_range.mp ha, List.mem_range.mp hb, h.symm⟩

theorem isTooSimple_abab (a b : Nat) : isTooSimple (abab a b) = some true := by
  unfold abab
  rw [isTooSimple_eight]
  have h : digitChar a = digitChar a ∧ digitChar b = digitChar b ∧ digitChar a = digitChar a
      ∧ digitChar b = digitChar b ∧ digitChar a = digitChar a ∧ digitChar b = digitChar b :=
    ⟨rfl, rfl, rfl, rfl, rfl, rfl⟩
  rw [decide_eq_true (Or.inr (Or.inr (Or.inr (Or.inl h))))]

set_option maxRecDepth 100000 in
theorem isTooSimple_runCodes : ∀ raw ∈ runCodes, isTooSimple raw = some true := by
  decide

theorem isTooSimple_of_mem (raw : GoString) (h : raw ∈ tooSimpleCodes) :
    isTooSimple raw = some true := by
  unfold tooSimpleCodes at h
  rcases List.mem_append.mp h with h | h
  · obtain ⟨a, b, _, _, rfl⟩ := mem_ababCodes raw h
    exact isTooSimple_abab a b
  · exact isTooSimple_runCodes raw h

set_option maxRecDepth 100000 in
theorem ascending_runs : ∀ d0, d0 < 3 →
    [digitChar d0, digitChar (d0 + 1), digitChar (d0 + 2), digitChar (d0 + 3),
      digitChar (d0 + 4), digitChar (d0 + 5), digitChar (d0 + 6), digitChar (d0 + 7)]
      ∈ runCodes := by
  decide

set_option maxRecDepth 100000 in
theorem descending_runs : ∀ d7, d7 < 3 →
    [digitChar (d7 + 7), digitChar (d7 + 6), digitChar (d7 + 5), digitChar (d7 + 4),
      digitChar (d7 + 3), digitChar (d7 + 2), digitChar (d7 + 1), digitChar d7]
      ∈ runCodes := by
  decide

set_option maxRecDepth 100000 in
theorem deny_list_mem : str "12345678" ∈ tooSimpleCodes ∧ str "87654321" ∈ tooSimpleCodes
    ∧ str "00000000" ∈ tooSimpleCodes ∧ str "11111111" ∈ tooSimpleCodes := by
  unfold tooSimpleCodes
  refine ⟨List.mem_append_right _ (by decide), List.mem_append_right _ (by decide),
    List.mem_append_left _ (abab_mem 0 0 (by decide) (by decide)),
    List.mem_append_left _ (abab_mem 1 1 (by decide) (by decide))⟩

/-- On 8 digits, a code that is not in the enumeration is not too simple. -/
theorem isTooSimple_digits_not_mem (d0 d1 d2 d3 d4 d5 d6 d7 : Nat)
    (h0 : d0 < 10) (h1 : d1 < 10) (h2 : d2 < 10) (h3 : d3 < 10)
    (h4 : d4 < 10) (h5 : d5 < 10) (h6 : d6 < 10) (h7 : d7 < 10)
    (hn : [digitChar d0, digitChar d1, digitChar d2, digitChar d3,
           digitChar d4, digitChar d5, digitChar d6, digitChar d7] ∉ tooSimpleCodes) :
    isTooSimple [digitChar d0, digitChar d1, digitChar d2, digitChar d3,
                 digitChar d4, digitChar d5, digitChar d6, digitChar d7] = some false := by
  rw [isTooSimple_digits d0 d1 d2 d3 d4 d5 d6 d7 h0 h1 h2 h3 h4 h5 h6 h7]
  have hR : ¬ (d0 = d2 ∧ d1 = d3 ∧ d2 = d4 ∧ d3 = d5 ∧ d4 = d6 ∧ d5 = d7) := by
    rintro ⟨e1, e2, e3, e4, e5, e6⟩
    apply hn
    have : [digitChar d0, digitChar d1, digitChar d2, digitChar d3,
           digitChar d4, digitChar d5, digitChar d6, digitChar d7] = abab d0 d1 := by
      subst e6 e5 e4 e3 e2 e1
      rfl
    rw [this]
    exact List.mem_append_left _ (abab_mem d0 d1 h0 h1)
  refine ⟨?_, ?_, ?_, hR, ?_⟩
  · rintro ⟨e1, e2, e3, e4, e5, e6, e7⟩
    exact hR ⟨by omega, by omega, by omega, by omega, by omega, by omega⟩
  · rintro ⟨e1, e2, e3, e4, e5, e6, e7⟩
    apply hn
    have k1 : d1 = d0 + 1 := by omega
    have k2 : d2 = d0 + 2 := by omega
    have k3 : d3 = d0 + 3 := by omega
    have k4 : d4 = d0 + 4 := by omega
    have k5 : d5 = d0 + 5 := by omega
    have k6 : d6 = d0 + 6 := by omega
    have k7 : d7 = d0 + 7 := by omega
    rw [k1, k2, k3, k4, k5, k6, k7]
    exact List.mem_append_right _ (ascending_runs d0 (by omega))
  · rintro ⟨e1, e2, e3, e4, e5, e6, e7⟩
    apply hn
    have k0 : d0 = d7 + 7 := by omega
    have k1 : d1 = d7 + 6 := by omega
    have k2 : d2 = d7 + 5 := by omega
    have k3 : d3 = d7 + 4 := by omega
    have k4 : d4 = d7 + 3 := by omega
    have k5 : d5 = d7 + 2 := by omega
    have k6 : d6 = d7 + 1 := by omega
    rw [k0, k1, k2, k3, k4, k5, k6]
    exact List.mem_append_right _ (descending_runs d7 (by omega))
  · rintro (e | e | e | e)
    · exact hn (e ▸ deny_list_mem.1)
    · exact hn (e ▸ deny_list_mem.2.1)
    · exact hn (e ▸ deny_list_mem.2.2.1)
    · exact hn (e ▸ deny_list_mem.2.2.2)

theorem isTooSimple_not_mem (raw : GoString) (h8 : raw.length = 8)
    (hd : ∀ b ∈ raw, 48 ≤ b.val ∧ b.val ≤ 57) (hn : raw ∉ tooSimpleCodes) :
    isTooSimple raw = some false := by
  obtain ⟨b0, b1, b2, b3, b4, b5, b6, b7, rfl⟩ := eq_eight raw h8
  obtain ⟨e0, k0⟩ := digit_eq_digitChar b0 (hd b0 (by simp))
  obtain ⟨e1, k1⟩ := digit_eq_digitChar b1 (hd b1 (by simp))
  obtain ⟨e2, k2⟩ := digit_eq_digitChar b2 (hd b2 (by simp))
  obtain ⟨e3, k3⟩ := digit_eq_digitChar b3 (hd b3 (by simp))
  obtain ⟨e4, k4⟩ := digit_eq_digitChar b4 (hd b4 (by simp))
  obtain ⟨e5, k5⟩ := digit_eq_digitChar b5 (hd b5 (by simp))
  obtain ⟨e6, k6⟩ := digit_eq_digitChar b6 (hd b6 (by simp))
  obtain ⟨e7, k7⟩ := digit_eq_digitChar b7 (hd b7 (by simp))
  generalize b0.val - 48 = d0 at e0 k0
  generalize b1.val - 48 = d1 at e1 k1
  generalize b2.val - 48 = d2 at e2 k2
  generalize b3.val - 48 = d3 at e3 k3
  generalize b4.val - 48 = d4 at e4 k4
  generalize b5.val - 48 = d5 at e5 k5
  generalize b6.val - 48 = d6 at e6 k6
  generalize b7.val - 48 = d7 at e7 k7
  subst e0 e1 e2 e3 e4 e5 e6 e7
  exact isTooSimple_digits_not_mem d0 d1 d2 d3 d4 d5 d6 d7 k0 k1 k2 k3 k4 k5 k6 k7 hn

theorem abab_inj (a b c d : Nat) (ha : a < 10) (hb : b < 10) (hc : c < 10) (hd : d < 10)
    (h : abab a b = abab c d) : a = c ∧ b = d := by
  unfold abab at h
  simp only [List.cons.injEq, and_true] at h
  exact ⟨((digitChar_rel c hc a ha).1).mp h.1, ((digitChar_rel d hd b hb).1).mp h.2.1⟩

set_option maxRecDepth 100000 in
theorem tooSimpleCodes_count : ababCodes.length = 100 ∧ runCodes.length = 6
    ∧ tooSimpleCodes.length = 106 := by
  decide

set_option maxRecDepth 100000 in
theorem runCodes_nodup : runCodes.Nodup ∧ ∀ raw ∈ runCodes, isTooSimpleNoDenyList raw = some true
    ∧ repeatedPairs raw = some false := by
  decide

theorem tooSimpleCodes_nodup : tooSimpleCodes.Nodup := by
  unfold tooSimpleCodes
  rw [List.nodup_append]
  refine ⟨?_, runCodes_nodup.1, ?_⟩
  · unfold ababCodes
    rw [List.nodup_flatMap]
    refine ⟨?_, ?_⟩
    · intro a ha
      refine List.Nodup.map_on ?_ (List.nodup_range 10)
      intro b hb b2 hb2 he
      exact (abab_inj a b a b2 (List.mem_range.mp ha) (List.mem_range.mp hb)
        (List.mem_range.mp ha) (List.mem_range.mp hb2) he).2
    · refine List.Pairwise.imp_of_mem ?_ (List.nodup_range 10)
      intro a c ha hc hne
      intro x hx1 hx2
      obtain ⟨b, hb, rfl⟩ := List.mem_map.mp hx1
      obtain ⟨d, hd, he⟩ := List.mem_map.mp hx2
      exact hne (abab_inj c d a b (List.mem_range.mp hc) (List.mem_range.mp hd)
        (List.mem_range.mp ha) (List.mem_range.mp hb) he).1.symm
  · intro x hx1 hx2
    obtain ⟨a, b, _, _, rfl⟩ := mem_ababCodes x hx1
    have h1 := (runCodes_nodup.2 _ hx2).2
    have h2 : repeatedPairs (abab a b) = some true := by
      unfold abab
      rw [repeatedPairs_eight]
      simp
    rw [h2] at h1
    exact absurd h1 (by simp)

set_option maxRecDepth 100000 in
theorem tooSimpleCodes_digits (raw : GoString) (h : raw ∈ tooSimpleCodes) :
    raw.length = 8 ∧ ∀ b ∈ raw, 48 ≤ b.val ∧ b.val ≤ 57 := by
  unfold tooSimpleCodes at h
  rcases List.mem_append.mp h with h | h
  · obtain ⟨a, b, ha, hb, rfl⟩ := mem_ababCodes raw h
    have ka := digitChar_digit a ha
    have kb := digitChar_digit b hb
    refine ⟨rfl, ?_⟩
    intro x hx
    simp only [abab, List.mem_cons, List.mem_singleton, List.not_mem_nil, or_false] at hx
    rcases hx with e | e | e | e | e | e | e | e <;> subst e
    · exact ⟨ka.1, ka.2.1⟩
    · exact ⟨kb.1, kb.2.1⟩
    · exact ⟨ka.1, ka.2.1⟩
    · exact ⟨kb.1, kb.2.1⟩
    · exact ⟨ka.1, ka.2.1⟩
    · exact ⟨kb.1, kb.2.1⟩
    · exact ⟨ka.1, ka.2.1⟩
    · exact ⟨kb.1, kb.2.1⟩
  · revert raw
    decide

set_option maxRecDepth 100000 in
/-- C20. Among the strings of 8 ASCII digits `isTooSimple` is true exactly for the members
of `tooSimpleCodes`, the 100 strings `ABABABAB` (the 10 strings of one digit among them)
and the six runs, 106 distinct strings of 8 digits; on every other string of 8 digits it
is false, and the range of the generator contains such a string. -/
theorem C20_filter_extent :
    (∀ raw : GoString, raw.length = 8 → (∀ b ∈ raw, 48 ≤ b.val ∧ b.val ≤ 57) →
        (isTooSimple raw = some true ↔ raw ∈ tooSimpleCodes))
    ∧ (∀ raw : GoString, raw.length = 8 → (∀ b ∈ raw, 48 ≤ b.val ∧ b.val ≤ 57) →
        raw ∉ tooSimpleCodes → isTooSimple raw = some false)
    ∧ (∀ raw ∈ tooSimpleCodes, raw.length = 8 ∧ ∀ b ∈ raw, 48 ≤ b.val ∧ b.val ≤ 57)
    ∧ tooSimpleCodes = ababCodes ++ runCodes
    ∧ tooSimpleCodes.Nodup
    ∧ tooSimpleCodes.length = 106
    ∧ ababCodes.length = 100
    ∧ (∀ raw : GoString, raw ∈ ababCodes ↔ ∃ a b, a < 10 ∧ b < 10 ∧ raw = abab a b)
    ∧ (∀ a, a < 10 → List.replicate 8 (digitChar a) ∈ ababCodes)
    ∧ runCodes = [str "01234567", str "12345678", str "23456789", str "98765432",
        str "87654321", str "76543210"]
    ∧ (∃ n, 10000000 ≤ n ∧ n ≤ 99999999 ∧ isTooSimple (sprintf08d n) = some false
        ∧ IsValidSetupCode (sprintf08d n) = some true) := by
  refine ⟨?_, isTooSimple_not_mem, tooSimpleCodes_digits, rfl, tooSimpleCodes_nodup,
    tooSimpleCodes_count.2.2, tooSimpleCodes_count.1, ?_, ?_, rfl,
    ⟨10000003, by decide, by decide, by decide, by decide⟩⟩
  · intro raw h8 hd
    constructor
    · intro ht
      by_contra hn
      rw [isTooSimple_not_mem raw h8 hd hn] at ht
      exact absurd ht (by simp)
    · exact isTooSimple_of_mem raw
  · intro raw
    constructor
    · exact mem_ababCodes raw
    · rintro ⟨a, b, ha, hb, rfl⟩
      exact abab_mem a b ha hb
  · intro a ha
    exact abab_mem a a ha ha

set_option maxRecDepth 100000 in
/-- C20 (witness): `61380755` is 8 digits and not in the enumeration, and is accepted;
`12121212` is in the enumeration, and is too simple. -/
theorem C20_filter_extent_witness :
    isTooSimple (str "61380755") = some false
    ∧ isTooSimple (str "12121212") = some true :=
  ⟨C20_filter_extent.2.1 (str "61380755") (by decide) (by decide) (by decide),
    (C20_filter_extent.1 (str "12121212") (by decide) (by decide)).mpr (by decide)⟩

/-! ## The leading digit of the payload -/

/-- The most significant of `k + 1` base-36 digits comes first. -/
theorem digits36_succ (k p : Nat) :
    digits36 (k + 1) p = char36 (p / 36 ^ k % 36) :: digits36 k p := by
  induction k generalizing p with
  | zero => simp [digits36]
  | succ k ih =>
    rw [digits36, ih (p / 36), Nat.div_div_eq_div_mul, ← Nat.pow_succ']
    rw [List.cons_append]
    rfl

theorem pow_39_lt : (2 : Nat) ^ 39 < 36 ^ 8 ∧ (36 : Nat) ^ 8 < 36 ^ 9 := by norm_num

theorem div_pow_36 (p : Nat) (h : p < 2 ^ 39) : p / 36 ^ 8 = 0 ∧ p / 36 ^ 9 = 0 := by
  have h1 := pow_39_lt.1
  have h2 := pow_39_lt.2
  generalize (2 : Nat) ^ 39 = a at h h1
  generalize (36 : Nat) ^ 8 = b at h1 h2 ⊢
  generalize (36 : Nat) ^ 9 = c at h2 ⊢
  exact ⟨Nat.div_eq_of_lt (by omega), Nat.div_eq_of_lt (by omega)⟩

theorem setupPayload_lt (c : Int) (pw : GoString) :
    0 ≤ setupPayload c pw ∧ setupPayload c pw < 2 ^ 39 :=
  buildPayload_lt c (Atoi (ReplaceAll pw 45 [])).1

/-- C21. For every category and every password the payload built by `GenHomeKitSetupURI`
is at least 0 and less than `2^39`, which is less than `36^8`; so the first of the 9
base-36 bytes, the byte at position 7 of the URI, is `0`, and the payload left over after
the 9 divisions of the loop is 0. -/
theorem C21_leading_zero (category : Int) (password setupID : GoString) :
    0 ≤ setupPayload category password
    ∧ setupPayload category password < 2 ^ 39
    ∧ (2 : Int) ^ 39 < 36 ^ 8
    ∧ (∃ rest, rest.length = 8
        ∧ GenHomeKitSetupURI category password setupID
            = some (str "X-HM://" ++ (48 :: rest) ++ setupID))
    ∧ (∃ uri, GenHomeKitSetupURI category password setupID = some uri
        ∧ uri[7]? = some 48)
    ∧ (∃ out, encodeLoop 9 (setupPayload category password) (List.replicate 9 0)
        = some (out, 0))
    ∧ payloadAt (setupPayload category password) 9 = 0 := by
  have hb := setupPayload_lt category password
  have hp := setupPayload_natCast category password
  have hlt := setupPayload_toNat_lt category password
  have hdiv := div_pow_36 _ hlt
  have hd : digits36 9 (setupPayload category password).toNat
      = 48 :: digits36 8 (setupPayload category password).toNat := by
    rw [digits36_succ, hdiv.1]
    rfl
  have huri := GenHomeKitSetupURI_eq category password setupID
  rw [hd] at huri
  have hlen : 9 ≤ (List.replicate 9 (0 : Byte)).length := by decide
  have hloop := encodeLoop_natCast 9 (setupPayload category password).toNat
    (List.replicate 9 0) hlen
  rw [← hp, hdiv.2] at hloop
  have hat : payloadAt (setupPayload category password) 9 = 0 := by
    rw [hp, payloadAt_natCast, hdiv.2]
    rfl
  refine ⟨hb.1, hb.2, by norm_num, ⟨_, digits36_length 8 _, huri⟩, ⟨_, huri, ?_⟩,
    ⟨_, hloop⟩, hat⟩
  rfl

/-! ## Random identifiers -/

/-- With draws in range the filling loop runs through: the bytes from `i` on are the
bytes of `chars` that the draws select, the bytes before `i` are kept. -/
theorem fillRandom_spec (chars : GoString) (draw : Nat → Nat) (k i : Nat) (result : GoString)
    (hd : ∀ j, j < i + k → draw j < chars.length) (hk : i + k ≤ result.length) :
    ∃ out, fillRandom chars draw k i result = some out
      ∧ out.length = result.length
      ∧ (∀ j, i ≤ j → j < i + k → out[j]? = chars[draw j]?)
      ∧ (∀ j, j < i → out[j]? = result[j]?) := by
  induction k generalizing i result with
  | zero =>
    refine ⟨result, rfl, rfl, ?_, fun j _ => rfl⟩
    intro j h1 h2
    omega
  | succ k ih =>
    have hdi : draw i < chars.length := hd i (by omega)
    have hi : i < result.length := by omega
    have hidx : index chars ((draw i : Nat) : Int) = some (chars.get ⟨draw i, hdi⟩) := by
      rw [index_natCast, List.getElem?_eq_getElem hdi]
      rfl
    obtain ⟨out, ho, hl, hin, hbefore⟩ :=
      ih (i + 1) (result.set i (chars.get ⟨draw i, hdi⟩))
        (fun j hj => hd j (by omega)) (by rw [List.length_set]; omega)
    refine ⟨out, ?_, ?_, ?_, ?_⟩
    · unfold fillRandom
      rw [hidx]
      simp only [hi, if_true]
      exact ho
    · rw [hl, List.length_set]
    · intro j h1 h2
      by_cases hj : j = i
      · subst hj
        rw [hbefore j (by omega), List.getElem?_set_self hi, List.getElem?_eq_getElem hdi]
        rfl
      · exact hin j (by omega) (by omega)
    · intro j hj
      rw [hbefore j (by omega), List.getElem?_set_ne (by omega)]

/-- The bytes of a string filled by the loop are bytes of `chars`. -/
theorem fillRandom_mem (chars : GoString) (draw : Nat → Nat) (n : Nat)
    (hd : ∀ j, j < n → draw j < chars.length) :
    ∃ out, fillRandom chars draw n 0 (List.replicate n 0) = some out
      ∧ out.length = n ∧ ∀ b ∈ out, b ∈ chars := by
  obtain ⟨out, ho, hl, hin, _⟩ := fillRandom_spec chars draw n 0 (List.replicate n 0)
    (fun j hj => hd j (by omega)) (by simp)
  rw [List.length_replicate] at hl
  refine ⟨out, ho, hl, ?_⟩
  intro b hb
  obtain ⟨j, hj⟩ := List.mem_iff_getElem?.mp hb
  have hjl : j < n := by
    obtain ⟨h, _⟩ := List.getElem?_eq_some_iff.mp hj
    omega
  rw [hin j (by omega) (by omega)] at hj
  exact List.getElem?_mem hj

theorem ToUpper_fixed (U : Unicode) (s : GoString)
    (h : ∀ b ∈ s, b.val < 0x80 ∧ ¬ (97 ≤ b.val ∧ b.val ≤ 122)) : ToUpper U s = s := by
  have hall : s.all (fun c => decide (c.val < 0x80)) = true := by
    rw [List.all_eq_true]
    intro b hb
    simpa using (h b hb).1
  unfold ToUpper
  rw [if_pos hall]
  have hm : s.map (fun c => if 97 ≤ c.val ∧ c.val ≤ 122 then c - 32 else c)
      = s.map (fun c => c) :=
    List.map_congr_left (fun b hb => if_neg (h b hb).2)
  rw [hm, List.map_id']

theorem TrimSpace_fixed (s : GoString)
    (h : ∀ b ∈ s, b.val < 0x80 ∧ asciiSpace b = false) : TrimSpace s = s := by
  cases s with
  | nil => rfl
  | cons c rest =>
    have hc := h c (List.mem_cons_self _ _)
    have hc1 : ¬ (c.val ≥ 0x80) := by omega
    unfold TrimSpace
    simp only [hc1, if_false, hc.2, Bool.false_eq_true, List.length_cons]
    unfold trimSpaceStop
    cases hl : (c :: rest).getLast? with
    | none => exact absurd (List.getLast?_eq_none_iff.mp hl) (by simp)
    | some l =>
      have hm := h l (List.mem_of_getLast?_eq_some hl)
      have hl1 : ¬ (l.val ≥ 0x80) := by omega
      simp only [hl1, if_false, hm.2, Bool.false_eq_true]

theorem validateMAC_iff (U : Unicode) (mac : GoString) :
    validateMAC U mac = none
    ↔ ((TrimSpace (ToUpper U mac)).length = 12
        ∧ ∀ b ∈ TrimSpace (ToUpper U mac),
            (48 ≤ b.val ∧ b.val ≤ 57) ∨ (97 ≤ b.val ∧ b.val ≤ 102)
              ∨ (65 ≤ b.val ∧ b.val ≤ 70)) := by
  have hok : ∀ r, 0x80 ≤ r → macRune r = false := by
    intro r hr
    unfold macRune
    simp only [decide_eq_false_iff_not]
    omega
  have hf := firstBadRune_none_iff macRune hok (TrimSpace (ToUpper U mac)).length
    (TrimSpace (ToUpper U mac)) 0 (Nat.le_refl _)
  unfold validateMAC
  simp only []
  by_cases hl : (TrimSpace (ToUpper U mac)).length = 12
  · simp only [hl, ne_eq, not_true_eq_false, if_false, true_and]
    rw [hl] at hf
    cases hb : firstBadRune macRune 12 (TrimSpace (ToUpper U mac)) 0 with
    | none =>
      simp only [true_iff]
      intro b hm
      have := hf.mp hb b hm
      simpa [macRune] using this
    | some i =>
      simp only [reduceCtorEq, false_iff]
      intro hall
      have : firstBadRune macRune 12 (TrimSpace (ToUpper U mac)) 0 = none :=
        hf.mpr (fun b hm => by simpa [macRune] using hall b hm)
      rw [hb] at this
      exact absurd this (by simp)
  · simp [hl]

set_option maxRecDepth 100000 in
theorem chars_class : ∀ b ∈ str "0123456789ABCDEFGHIJKLMNOPQRSTUVWXYZ",
    ((48 ≤ b.val ∧ b.val ≤ 57) ∨ (65 ≤ b.val ∧ b.val ≤ 90)) ∧ asciiSpace b = false := by
  decide

set_option maxRecDepth 100000 in
theorem hexChars_class : ∀ b ∈ str "0123456789ABCDEF",
    ((48 ≤ b.val ∧ b.val ≤ 57) ∨ (65 ≤ b.val ∧ b.val ≤ 70)) ∧ asciiSpace b = false := by
  decide

/-- C22. For every outcome of the random source, the draws being in the range of
`rand.Intn`, `generateRandomSetupID` returns a string of 4 characters of `0-9A-Z` for which
`validateSetupID` returns no error, and `generateRandomMAC` returns a string of 12
characters of `0-9A-F` for which `validateMAC` returns no error. -/
theorem C22_generated_identifiers (U : Unicode) (draw : Nat → Nat) :
    ((∀ i, i < 4 → draw i < 36) →
      ∃ sid, generateRandomSetupID draw = some sid
        ∧ sid.length = 4 ∧ (runes sid).length = 4
        ∧ (∀ b ∈ sid, (48 ≤ b.val ∧ b.val ≤ 57) ∨ (65 ≤ b.val ∧ b.val ≤ 90))
        ∧ validateSetupID U sid = none)
    ∧ ((∀ i, i < 12 → draw i < 16) →
      ∃ mac, generateRandomMAC draw = some mac
        ∧ mac.length = 12 ∧ (runes mac).length = 12
        ∧ (∀ b ∈ mac, (48 ≤ b.val ∧ b.val ≤ 57) ∨ (65 ≤ b.val ∧ b.val ≤ 70))
        ∧ validateMAC U mac = none) := by
  constructor
  · intro hd
    obtain ⟨sid, ho, hl, hm⟩ := fillRandom_mem (str "0123456789ABCDEFGHIJKLMNOPQRSTUVWXYZ")
      draw 4 (fun j hj => hd j hj)
    have hc : ∀ b ∈ sid, (48 ≤ b.val ∧ b.val ≤ 57) ∨ (65 ≤ b.val ∧ b.val ≤ 90) :=
      fun b hb => (chars_class b (hm b hb)).1
    have hfix := TrimSpace_ToUpper_setupID U sid hl hc
    refine ⟨sid, ho, hl, ((runes_setupID sid).mpr ⟨hl, hc⟩).1, hc, ?_⟩
    rw [validateSetupID_iff, hfix]
    exact ⟨hl, hc⟩
  · intro hd
    obtain ⟨mac, ho, hl, hm⟩ := fillRandom_mem (str "0123456789ABCDEF") draw 12
      (fun j hj => hd j hj)
    have hc : ∀ b ∈ mac, (48 ≤ b.val ∧ b.val ≤ 57) ∨ (65 ≤ b.val ∧ b.val ≤ 70) :=
      fun b hb => (hexChars_class b (hm b hb)).1
    have hu : ToUpper U mac = mac := ToUpper_fixed U mac (fun b hb => by
      have := hc b hb
      omega)
    have ht : TrimSpace mac = mac := TrimSpace_fixed mac (fun b hb =>
      ⟨by have := hc b hb; omega, (hexChars_class b (hm b hb)).2⟩)
    have hr : runes mac = mac.map (fun b => b.val) :=
      runesLoop_ascii _ mac (Nat.le_refl _) (fun b hb => by have := hc b hb; omega)
    refine ⟨mac, ho, hl, by rw [hr, List.length_map, hl], hc, ?_⟩
    rw [validateMAC_iff, hu, ht]
    refine ⟨hl, fun b hb => ?_⟩
    rcases hc b hb with h | h
    · exact Or.inl h
    · exact Or.inr (Or.inr h)

set_option maxRecDepth 100000 in
/-- C22 (witness): the draws 10, 17, 24, 31 give the setup ID `AHOV`, the draws 3, 8, 13,
2, 7, 12, 1, 6, 11, 0, 5, 10 give the MAC address `38D27C16B05A`, and both are accepted. -/
theorem C22_generated_identifiers_witness :
    (∃ sid, generateRandomSetupID (fun i => 7 * i + 10) = some sid
        ∧ sid.length = 4 ∧ (runes sid).length = 4
        ∧ (∀ b ∈ sid, (48 ≤ b.val ∧ b.val ≤ 57) ∨ (65 ≤ b.val ∧ b.val ≤ 90))
        ∧ validateSetupID ⟨id, id⟩ sid = none)
    ∧ (∃ mac, generateRandomMAC (fun i => (5 * i + 3) % 16) = some mac
        ∧ mac.length = 12 ∧ (runes mac).length = 12
        ∧ (∀ b ∈ mac, (48 ≤ b.val ∧ b.val ≤ 57) ∨ (65 ≤ b.val ∧ b.val ≤ 70))
        ∧ validateMAC ⟨id, id⟩ mac = none)
    ∧ generateRandomSetupID (fun i => 7 * i + 10) = some (str "AHOV")
    ∧ generateRandomMAC (fun i => (5 * i + 3) % 16) = some (str "38D27C16B05A") :=
  ⟨(C22_generated_identifiers ⟨id, id⟩ (fun i => 7 * i + 10)).1 (by decide),
    (C22_generated_identifiers ⟨id, id⟩ (fun i => (5 * i + 3) % 16)).2 (by decide),
    by decide, by decide⟩

/-! ## The digits of the label -/

theorem trimLeftSpace_sublist (k : Nat) (s : GoString) : (trimLeftSpace k s).Sublist s := by
  induction k generalizing s with
  | zero => exact List.Sublist.refl s
  | succ k ih =>
    unfold trimLeftSpace
    split
    · exact List.nil_sublist s
    · simp only []
      split
      · exact (ih _).trans (List.drop_sublist _ s)
      · exact List.Sublist.refl s

theorem trimRightSpace_sublist (k : Nat) (s : GoString) : (trimRightSpace k s).Sublist s := by
  induction k generalizing s with
  | zero => exact List.Sublist.refl s
  | succ k ih =>
    unfold trimRightSpace
    split
    · exact List.nil_sublist s
    · simp only []
      split
      · exact (ih _).trans (List.take_sublist _ s)
      · split
        · split
          · exact List.take_sublist _ s
          · exact List.take_sublist _ s
        · exact List.take_sublist _ s

theorem trimSpaceStop_sublist (k : Nat) (s : GoString) : (trimSpaceStop k s).Sublist s := by
  induction k generalizing s with
  | zero => exact List.Sublist.refl s
  | succ k ih =>
    unfold trimSpaceStop
    split
    · exact List.nil_sublist s
    · split
      · exact trimRightSpace_sublist _ s
      · split
        · exact (ih _).trans (List.dropLast_sublist s)
        · exact List.Sublist.refl s

/-- The result of `strings.TrimSpace` is made of bytes of the argument, in order. -/
theorem TrimSpace_sublist (s : GoString) : (TrimSpace s).Sublist s := by
  induction s with
  | nil => exact List.Sublist.refl _
  | cons c rest ih =>
    unfold TrimSpace
    split
    · exact (trimRightSpace_sublist _ _).trans (trimLeftSpace_sublist _ _)
    · split
      · exact ih.trans (List.sublist_cons_self c rest)
      · exact trimSpaceStop_sublist _ _

theorem ReplaceAll_length_mono (s t : GoString) (h : s.Sublist t) (old : Byte) :
    (ReplaceAll s old []).length ≤ (ReplaceAll t old []).length := by
  rw [ReplaceAll_nil_eq_filter, ReplaceAll_nil_eq_filter]
  exact (h.filter _).length_le

/-- An accepted password has, trimmed and with its dashes stripped, exactly 8 bytes. -/
theorem validatePassword_plain_length (pwd : GoString) (h : validatePassword pwd = none) :
    (ReplaceAll (TrimSpace pwd) 45 []).length = 8 := by
  obtain ⟨p0, p1, p2, ht, l0, l1, l2, m0, m1, m2, _, _, _⟩ := validatePassword_accepts pwd h
  have f0 : p0.filter (fun b => decide (b ≠ 45)) = p0 :=
    List.filter_eq_self.mpr (fun b hb => by
      have : b ≠ 45 := fun e => m0 (e ▸ hb)
      simpa using this)
  have f1 : p1.filter (fun b => decide (b ≠ 45)) = p1 :=
    List.filter_eq_self.mpr (fun b hb => by
      have : b ≠ 45 := fun e => m1 (e ▸ hb)
      simpa using this)
  have f2 : p2.filter (fun b => decide (b ≠ 45)) = p2 :=
    List.filter_eq_self.mpr (fun b hb => by
      have : b ≠ 45 := fun e => m2 (e ▸ hb)
      simpa using this)
  have h45 : decide ((45 : Byte) ≠ 45) = false := by decide
  rw [ReplaceAll_nil_eq_filter, ht, List.filter_append, List.filter_cons, h45,
    List.filter_append, List.filter_cons, h45, f0, f1, f2]
  simp only [Bool.false_eq_true, if_false, List.length_append, l0, l1, l2]

/-- A value returned by the generator has, with its dashes stripped, exactly 8 bytes. -/
theorem generated_plain_length (draws : List Nat) (hdraws : ∀ d ∈ draws, d < 90000000)
    (r : GoString) (hr : GenerateHomeKitSetupCode draws = Outcome.value r) :
    (ReplaceAll r 45 []).length = 8 := by
  rcases GenerateHomeKitSetupCode_cases draws hdraws with
    ⟨hp, _⟩ | ⟨pre, d, post, he, _, _, hv⟩
  · rw [hp] at hr
    simp at hr
  · have hlt : d < 90000000 := hdraws d (by rw [he]; simp)
    rw [hv] at hr
    have hr2 : dashed (d + 10000000) = r := Outcome.value.inj hr
    subst hr2
    have h1 : 10000000 ≤ d + 10000000 := by omega
    have h2 : d + 10000000 < 100000000 := by omega
    have hplain := PlainSetupCode_dashed _ h1 h2
    unfold PlainSetupCode at hplain
    rw [hplain]
    exact (sprintf08d_digits _ h1 h2).1

/-- With `i + k + 3 < len(code)` the `k` iterations from index `i` on run through. -/
theorem drawCodeDigits_some (code : GoString) (k i : Nat) (drawn : List GoString)
    (h : k = 0 ∨ i + k + 3 < code.length) :
    ∃ texts, drawCodeDigits code k (i : Int) drawn = some texts := by
  induction k generalizing i drawn with
  | zero => exact ⟨drawn, rfl⟩
  | succ k ih =>
    have hlen : i + (k + 1) + 3 < code.length := by omega
    have e4 : (i : Int) + 4 = ((i + 4 : Nat) : Int) := by omega
    have e1 : (i : Int) + 1 = ((i + 1 : Nat) : Int) := by omega
    have hi : i < code.length := by omega
    have hi4 : i + 4 < code.length := by omega
    unfold drawCodeDigits
    rw [e4, e1, index_natCast, index_natCast, List.getElem?_eq_getElem hi,
      List.getElem?_eq_getElem hi4]
    exact ih (i + 1) _ (by omega)

/-- With `len(code) < i + k + 4` one of the accesses of the `k` iterations from index `i`
on is out of range. -/
theorem drawCodeDigits_none (code : GoString) (k i : Nat) (drawn : List GoString)
    (hk : 0 < k) (h : code.length < i + k + 4) :
    drawCodeDigits code k (i : Int) drawn = none := by
  induction k generalizing i drawn with
  | zero => omega
  | succ k ih =>
    have e4 : (i : Int) + 4 = ((i + 4 : Nat) : Int) := by omega
    have e1 : (i : Int) + 1 = ((i + 1 : Nat) : Int) := by omega
    unfold drawCodeDigits
    rw [e4, e1, index_natCast, index_natCast]
    cases h0 : code[i]? with
    | none => rfl
    | some top =>
      cases h4 : code[i + 4]? with
      | none => rfl
      | some bottom =>
        simp only []
        have hi4 : i + 4 < code.length := (List.getElem?_eq_some_iff.mp h4).1
        exact ih (i + 1) _ (by omega) (by omega)

theorem labelCodeDigits_of_length (password : GoString) :
    (8 ≤ (ReplaceAll password 45 []).length →
      (∀ i : Nat, i < 4 → (index (ReplaceAll password 45 []) (i : Int)).isSome = true
        ∧ (index (ReplaceAll password 45 []) ((i : Int) + 4)).isSome = true)
      ∧ ∃ texts, labelCodeDigits password = some texts)
    ∧ ((ReplaceAll password 45 []).length < 8 → labelCodeDigits password = none) := by
  constructor
  · intro h
    refine ⟨fun i hi => ?_, ?_⟩
    · have e4 : (i : Int) + 4 = ((i + 4 : Nat) : Int) := by omega
      have h0 : i < (ReplaceAll password 45 []).length := by omega
      have h4 : i + 4 < (ReplaceAll password 45 []).length := by omega
      rw [e4, index_natCast, index_natCast, List.getElem?_eq_getElem h0,
        List.getElem?_eq_getElem h4]
      exact ⟨rfl, rfl⟩
    · exact drawCodeDigits_some (ReplaceAll password 45 []) 4 0 [] (Or.inr (by omega))
  · intro h
    exact drawCodeDigits_none (ReplaceAll password 45 []) 4 0 [] (by decide) (by omega)

/-- C23. The digits of the label are drawn without an index out of range for every password
that `validatePassword` accepts, whether passed on trimmed or as it is, and for every value
returned by `GenerateHomeKitSetupCode`: the dash-stripped `code` has at least 8 bytes, the
accesses `code[i]` and `code[i+4]` for `i` in 0..3 are in range and the loop runs through.
For a password whose dash-stripped form has fewer than 8 bytes, the empty password among
them, an access is out of range. -/
theorem C23_label_digits (password : GoString) :
    (validatePassword password = none →
      8 ≤ (ReplaceAll password 45 []).length
      ∧ (ReplaceAll (TrimSpace password) 45 []).length = 8
      ∧ (∀ i : Nat, i < 4 → (index (ReplaceAll password 45 []) (i : Int)).isSome = true
          ∧ (index (ReplaceAll password 45 []) ((i : Int) + 4)).isSome = true)
      ∧ (∃ texts, labelCodeDigits password = some texts)
      ∧ ∃ texts, labelCodeDigits (TrimSpace password) = some texts)
    ∧ (∀ draws : List Nat, (∀ d ∈ draws, d < 90000000) →
        GenerateHomeKitSetupCode draws = Outcome.value password →
          (ReplaceAll password 45 []).length = 8
          ∧ (∀ i : Nat, i < 4 → (index (ReplaceAll password 45 []) (i : Int)).isSome = true
              ∧ (index (ReplaceAll password 45 []) ((i : Int) + 4)).isSome = true)
          ∧ ∃ texts, labelCodeDigits password = some texts)
    ∧ ((ReplaceAll password 45 []).length < 8 → labelCodeDigits password = none)
    ∧ labelCodeDigits [] = none := by
  refine ⟨?_, ?_, (labelCodeDigits_of_length password).2, by decide⟩
  · intro h
    have h8 := validatePassword_plain_length password h
    have hmono := ReplaceAll_length_mono _ _ (TrimSpace_sublist password) 45
    have hge : 8 ≤ (ReplaceAll password 45 []).length := by omega
    have hs := (labelCodeDigits_of_length password).1 hge
    have ht := (labelCodeDigits_of_length (TrimSpace password)).1 (by omega)
    exact ⟨hge, h8, hs.1, hs.2, ht.2⟩
  · intro draws hd hr
    have h8 := generated_plain_length draws hd password hr
    have hs := (labelCodeDigits_of_length password).1 (by omega)
    exact ⟨h8, hs.1, hs.2⟩

set_option maxRecDepth 100000 in
/-- C23 (witness): `613-80-755` is accepted and its 8 digits are drawn; `100-00-003` is
returned by the generator on the draws 1111111, 2345678, 3 and its 8 digits are drawn. -/
theorem C23_label_digits_witness :
    validatePassword (str "613-80-755") = none
    ∧ (∃ texts, labelCodeDigits (str "613-80-755") = some texts)
    ∧ GenerateHomeKitSetupCode [1111111, 2345678, 3] = Outcome.value (str "100-00-003")
    ∧ (∃ texts, labelCodeDigits (str "100-00-003") = some texts)
    ∧ labelCodeDigits (str "61-80-75") = none :=
  ⟨by decide, ((C23_label_digits (str "613-80-755")).1 (by decide)).2.2.2.1, by decide,
    ((C23_label_digits (str "100-00-003")).2.1 [1111111, 2345678, 3] (by decide)
      (by decide)).2.2,
    (C23_label_digits (str "61-80-75")).2.2.1 (by decide)⟩

end HomeKit
